import Mathlib

/-!
# B4411M/store: the download queue of `src/js/download-manager.js`

A shallow embedding of the class `DownloadManager`.

* Queue items are JavaScript objects, shared by reference between `this.queue`,
  `this.currentDownload` and the local variable `nextItem` of every suspended run of
  `startNextDownload`.  The embedding keeps every item object ever allocated in a heap
  (`State.heap`); a reference is an index into the heap.
* `async` code is cut at its suspension points.  The synchronous part of a method is a
  function on `State`; the continuation that runs when the awaited promise settles is a
  separate function, and `step` lets any enabled continuation run at any time.
* The platform (the URL parser behind `new URL`, the clock, the network, the installer)
  is an input of the functions that use it.
-/

namespace DownloadManager

/-! ## Data model -/

/-- The values taken by `item.status`. -/
inductive Status where
  | pending
  | downloading
  | completed
  | error
  | cancelled
  deriving DecidableEq, Repr

/-- The value of `item.abortController`: a real `AbortController`, with its `signal.aborted`
flag, or the empty plain object that `JSON.parse` returns for a controller that went through
`JSON.stringify` (a controller has no own enumerable property, and `{}` has no `abort`). -/
inductive AbortController where
  | controller (aborted : Bool)
  | plainObject
  deriving DecidableEq, Repr

/-- The value of `item.downloadedBlob`: a `Blob` of the given size, or the empty plain object
left by a JSON round trip. -/
inductive Blob where
  | blob (size : Nat)
  | plainObject
  deriving DecidableEq, Repr

/-- A queue item, with the properties given by `addDownload` (lines 42-55) and the ones added
later by `startNextDownload` and `downloadFile`; `none` is a property that is absent
(`undefined`) or `null`. -/
structure Item where
  id : Nat
  url : String
  filename : String
  title : Option String
  status : Status
  progress : Nat
  downloadedBytes : Nat
  totalBytes : Nat
  speed : ℚ
  eta : ℚ
  addedAt : Nat
  error : Option String
  startedAt : Option Nat
  completedAt : Option Nat
  abortController : Option AbortController
  downloadedBlob : Option Blob
  downloadedUrl : Option String
  deriving DecidableEq

/-- The second argument of `app.showToast`. -/
inductive ToastKind where
  | error
  | warning
  | success
  | info
  deriving DecidableEq, Repr

/-- One call of `app.showToast(msg, kind)`. -/
structure Toast where
  msg : String
  kind : ToastKind
  deriving DecidableEq, Repr

/-- The `DownloadManager` object together with its environment: the item objects, the two
`localStorage` records it writes, the suspended runs and timers it has created and the calls
it has made to its collaborators. -/
structure State where
  /-- Every item object allocated so far; a reference to an item is its index. -/
  heap : List Item
  /-- The array `this.queue`, as references. -/
  queue : List Nat
  /-- The field `this.currentDownload`. -/
  currentDownload : Option Nat
  /-- The array `this.history`. -/
  history : List Item
  /-- The record `localStorage['downloadQueue']`, parsed; `none` when the key is absent. -/
  storedQueue : Option (List Item)
  /-- The record `localStorage['downloadHistory']`, parsed. -/
  storedHistory : Option (List Item)
  /-- Whether `localStorage.setItem` throws (the case caught by `saveToStorage`). -/
  quotaExceeded : Bool
  /-- The runs of `startNextDownload` suspended at `await this.downloadFile(nextItem)`,
  each given by its `nextItem`. -/
  transfers : List Nat
  /-- The runs of `startNextDownload` suspended at `await this.autoInstall(nextItem)`. -/
  installs : List Nat
  /-- The delays of the outstanding `setTimeout(() => this.startNextDownload(), ms)`. -/
  timers : List Nat
  /-- The calls of `app.showToast`, oldest first. -/
  toasts : List Toast
  /-- The items passed to `this.downloadFile`, in the order of the calls. -/
  downloadCalls : List Nat
  /-- The items whose `downloadedBlob` was passed to `pkgInstaller.installFromBlob`. -/
  installCalls : List Nat
  deriving DecidableEq

/-- The manager right after its constructor ran on an empty `localStorage`. -/
def State.empty : State :=
  { heap := [], queue := [], currentDownload := none, history := [], storedQueue := none,
    storedHistory := none, quotaExceeded := false, transfers := [], installs := [],
    timers := [], toasts := [], downloadCalls := [], installCalls := [] }

/-- The item object behind a reference. -/
def State.item (s : State) (r : Nat) : Option Item := s.heap[r]?

/-- An assignment to properties of the item object `r`. -/
def State.update (s : State) (r : Nat) (f : Item → Item) : State :=
  { s with heap := s.heap.modify f r }

/-- The items of `this.queue`, in order. -/
def State.queueItems (s : State) : List Item := s.queue.filterMap s.item

/-- `this.queue.find(p)`: the first queue entry whose item satisfies `p`. -/
def State.find (s : State) (p : Item → Bool) : Option Nat :=
  s.queue.find? (fun r => match s.item r with
    | some it => p it
    | none => false)

/-- `app.showToast(msg, kind)`. -/
def State.showToast (s : State) (msg : String) (kind : ToastKind) : State :=
  { s with toasts := s.toasts ++ [{ msg := msg, kind := kind }] }

/-- String concatenation with a value that may be `undefined`. -/
def jsString (v : Option String) : String := v.getD "undefined"

/-- The truthiness of a string argument: `undefined`, `null` and `''` are falsy. -/
def truthy (v : Option String) : Bool :=
  match v with
  | some x => x != ""
  | none => false

/-! ## Storage -/

/-- What `JSON.parse(JSON.stringify(item))` is: the data properties survive, a controller and
a blob become empty plain objects. -/
def Item.serialize (it : Item) : Item :=
  { it with
    abortController := it.abortController.map (fun _ => AbortController.plainObject)
    downloadedBlob := it.downloadedBlob.map (fun _ => Blob.plainObject) }

/-- `saveToStorage` (lines 372-378): writes the whole queue under `downloadQueue`; a throwing
`setItem` is caught and leaves the record as it was. -/
def saveToStorage (s : State) : State :=
  if s.quotaExceeded then s
  else { s with storedQueue := some (s.queueItems.map Item.serialize) }

/-! ## addDownload and startNextDownload -/

/-- `isValidUrl` (lines 70-77).  `parseUrl` stands for `new URL(string)`: it gives the
`protocol` of the parsed URL, or `none` when the constructor throws (the string is not an
absolute URL). -/
def isValidUrl (parseUrl : String → Option String) (string : String) : Bool :=
  match parseUrl string with
  | some protocol => protocol == "https:" || protocol == "http:"
  | none => false

/-- The object literal of `addDownload` (lines 42-55).  `tId` is the reading of `Date.now()`
and `tAdded` the one of `new Date()`. -/
def newItem (url : String) (filename title : Option String) (tId tAdded : Nat) : Item :=
  { id := tId
    url := url
    filename := if truthy filename then jsString filename else "game.pkg"
    title := if truthy title then title else filename
    status := Status.pending
    progress := 0
    downloadedBytes := 0
    totalBytes := 0
    speed := 0
    eta := 0
    addedAt := tAdded
    error := none
    startedAt := none
    completedAt := none
    abortController := none
    downloadedBlob := none
    downloadedUrl := none }

/-- The body of `startNextDownload` once `nextItem` is found, up to the first suspension
(lines 89-96 and `downloadFile` lines 128-133): the item becomes current and `downloading`,
the queue is saved, `downloadFile` is called, creates the item's `AbortController` and
suspends on the network. -/
def beginDownload (s : State) (r : Nat) (now : Nat) : State :=
  let s1 := { s with currentDownload := some r }
  let s2 := s1.update r (fun d => { d with status := Status.downloading, startedAt := some now })
  let s3 := saveToStorage s2
  let s4 := s3.update r
    (fun d => { d with abortController := some (AbortController.controller false) })
  { s4 with downloadCalls := s4.downloadCalls ++ [r], transfers := s4.transfers ++ [r] }

/-- `startNextDownload` up to its first suspension (lines 80-96): an empty queue clears the
current download, otherwise the first pending item, if any, is started. -/
def startNextDownload (s : State) (now : Nat) : State :=
  if s.queue.length = 0 then { s with currentDownload := none }
  else
    match s.find (fun d => d.status == Status.pending) with
    | none => s
    | some r => beginDownload s r now

/-- The part of `addDownload` that runs once the call is admitted, up to the toast (lines
42-60): allocate the item, push it, save. -/
def enqueue (s : State) (url : String) (filename title : Option String) (tId tAdded : Nat) :
    State :=
  let item := newItem url filename title tId tAdded
  let s1 := { s with heap := s.heap ++ [item], queue := s.queue ++ [s.heap.length] }
  let s2 := saveToStorage s1
  s2.showToast ("Ditambahkan ke antrian: " ++ jsString item.title) ToastKind.success

/-- `addDownload` (lines 29-68), with the state it leaves when it returns and its return
value.  `tStart` is the clock reading used by the `startNextDownload` it may call. -/
def addDownload (parseUrl : String → Option String) (s : State) (url : String)
    (filename title : Option String) (tId tAdded tStart : Nat) : State × Bool :=
  if url == "" || !isValidUrl parseUrl url then
    (s.showToast ("URL tidak valid: " ++ url) ToastKind.error, false)
  else
    match s.find (fun d => d.url == url && d.status == Status.pending) with
    | some _ => (s.showToast ("Sudah dalam antrian: " ++ jsString title) ToastKind.warning, false)
    | none =>
      let s1 := enqueue s url filename title tId tAdded
      if s1.currentDownload.isNone then (startNextDownload s1 tStart, true) else (s1, true)

/-! ## The continuations of startNextDownload -/

/-- What `downloadFile` has left on the item when it returns (lines 135-190): the sizes, the
last sample of speed and ETA and the size of the assembled blob. -/
structure TransferResult where
  totalBytes : Nat
  downloadedBytes : Nat
  speed : ℚ
  eta : ℚ
  blobSize : Nat
  deriving DecidableEq

/-- How the awaited `autoInstall` call ends (lines 263-284): the object returned by
`installFromBlob`, with its `success`, `simulated` and `error` properties, or an exception
thrown by it. -/
inductive InstallOutcome where
  | returned (success : Bool) (simulated : Bool) (error : Option String)
  | thrown (message : String)
  deriving DecidableEq, Repr

/-- The run of `startNextDownload` for item `r` resumes after `downloadFile` resolved
(end of `downloadFile`, lines 186-192, then lines 98-107 and `autoInstall` up to its call of
`installFromBlob`, lines 260-267).  The transfer can only resolve while the item's
controller is not aborted.  The assignments that `downloadFile` makes to the item while the
chunks arrive are not steps of their own: `res` holds their last values. -/
def transferSucceeded (s : State) (r : Nat) (res : TransferResult) (now : Nat) : State :=
  match s.item r with
  | none => s
  | some d =>
    if r ∈ s.transfers ∧ d.abortController = some (AbortController.controller false) then
      let s1 := { s with transfers := s.transfers.erase r }
      let s2 := s1.update r (fun d =>
        { d with
          totalBytes := res.totalBytes
          downloadedBytes := res.downloadedBytes
          speed := res.speed
          eta := res.eta
          downloadedBlob := some (Blob.blob res.blobSize)
          downloadedUrl := some "blob:"
          status := Status.completed
          completedAt := some now
          progress := 100 })
      let s3 := saveToStorage s2
      let s4 := s3.showToast ("Download selesai: " ++ jsString d.title) ToastKind.success
      let s5 := s4.showToast ("Memulai install: " ++ jsString d.title) ToastKind.info
      { s5 with installCalls := s5.installCalls ++ [r], installs := s5.installs ++ [r] }
    else s

/-- The run of `startNextDownload` for item `r` resumes after `autoInstall` settled (lines
269-284, then line 111): the toast of the outcome, then the 500 ms timer. -/
def installSettled (s : State) (r : Nat) (o : InstallOutcome) : State :=
  match s.item r with
  | none => s
  | some d =>
    if r ∈ s.installs then
      let s1 := { s with installs := s.installs.erase r }
      let s2 :=
        match o with
        | InstallOutcome.returned true _ _ =>
          s1.showToast ("Install selesai: " ++ jsString d.title) ToastKind.success
        | InstallOutcome.returned false false e =>
          s1.showToast ("Install error: " ++ jsString e) ToastKind.error
        | InstallOutcome.returned false true _ => s1
        | InstallOutcome.thrown m => s1.showToast ("Install gagal: " ++ m) ToastKind.error
      { s2 with timers := s2.timers ++ [500] }
    else s

/-- The run of `startNextDownload` for item `r` resumes in its `catch` block (lines 113-122)
after `downloadFile` rejected with `message`: a network error, a non-2xx response or the
abort of the item's controller. -/
def transferFailed (s : State) (r : Nat) (message : String) : State :=
  if r ∈ s.transfers then
    let s1 := { s with transfers := s.transfers.erase r }
    let s2 := s1.update r (fun d => { d with status := Status.error, error := some message })
    let s3 := saveToStorage s2
    let s4 := s3.showToast ("Download gagal: " ++ message) ToastKind.error
    { s4 with timers := s4.timers ++ [1000] }
  else s

/-- The timer at position `i` of the outstanding timers fires: it calls
`startNextDownload`. -/
def timerFired (s : State) (i : Nat) (now : Nat) : State :=
  if i < s.timers.length then
    startNextDownload { s with timers := s.timers.eraseIdx i } now
  else s

/-! ## Cancelling, removing, clearing -/

/-- `this.activeDownloads.get(id)`.  The map is created empty in the constructor (line 10)
and nothing in the repository adds to it, so every lookup is `undefined`. -/
def activeDownloadsGet (_id : Nat) : Option Nat := none

/-- `cancelDownload` (lines 288-303): the state it leaves and the `TypeError` it throws, if
any. -/
def cancelDownload (s : State) (id : Nat) : State × Option String :=
  let item := (activeDownloadsGet id).orElse
    (fun _ => s.find (fun d => d.id == id && d.status == Status.pending))
  match item with
  | none => (s, some "TypeError: Cannot read properties of undefined (reading id)")
  | some r =>
    match s.item r with
    | none => (s, some "TypeError: Cannot read properties of undefined (reading id)")
    | some d =>
      let aborted : Option State :=
        match d.abortController with
        | none => some s
        | some (AbortController.controller _) =>
          some (s.update r (fun d =>
            { d with abortController := some (AbortController.controller true)
                     status := Status.cancelled }))
        | some AbortController.plainObject => none
      match aborted with
      | none => (s, some "TypeError: item.abortController.abort is not a function")
      | some s1 =>
        let s2 :=
          if some d.id = (s1.currentDownload.bind s1.item).map Item.id then
            { s1 with currentDownload := none }
          else s1
        ((saveToStorage s2).showToast "Download dibatalkan" ToastKind.warning, none)

/-- `cancelCurrentDownload` (lines 305-309). -/
def cancelCurrentDownload (s : State) : State × Option String :=
  match s.currentDownload.bind s.item with
  | some d => cancelDownload s d.id
  | none => (s, none)

/-- `removeFromQueue` (lines 312-315). -/
def removeFromQueue (s : State) (id : Nat) : State :=
  saveToStorage { s with queue := s.queue.filter (fun r =>
    match s.item r with
    | some d => d.id != id
    | none => false) }

/-- The `forEach` of `clearQueue` (lines 318-322) over the queue entries `rs`: aborts every
controller it meets and stops, with `false`, at the first truthy `abortController` that has no
`abort` method (the call throws), in the state reached until then. -/
def abortAll (s : State) (rs : List Nat) : State × Bool :=
  match rs with
  | [] => (s, true)
  | r :: rest =>
    match s.item r with
    | none => abortAll s rest
    | some d =>
      match d.abortController with
      | none => abortAll s rest
      | some (AbortController.controller _) =>
        abortAll (s.update r (fun d =>
          { d with abortController := some (AbortController.controller true) })) rest
      | some AbortController.plainObject => (s, false)

/-- `clearQueue` (lines 317-327): the state it leaves and the `TypeError` it throws, if
any. -/
def clearQueue (s : State) : State × Option String :=
  match abortAll s s.queue with
  | (s1, false) => (s1, some "TypeError: item.abortController.abort is not a function")
  | (s1, true) =>
    let s2 := { s1 with queue := [], currentDownload := none }
    ((saveToStorage s2).showToast "Antrian dihapus" ToastKind.success, none)

/-! ## Reloading the page -/

/-- `loadFromStorage` (lines 380-395): when the record `downloadQueue` exists, the queue
becomes the array of freshly parsed objects, in which every item saved as `downloading` is
reset to `pending`. -/
def loadFromStorage (s : State) : State :=
  match s.storedQueue with
  | none => s
  | some saved =>
    let parsed := saved.map (fun d =>
      if d.status = Status.downloading then { d with status := Status.pending } else d)
    { s with
      heap := s.heap ++ parsed
      queue := (List.range parsed.length).map (fun i => s.heap.length + i) }

/-- The constructor (lines 7-16) run by a reload of the page over the `localStorage` that the
state `s` leaves behind: the suspended runs, the timers and the item objects of the old page
are gone, the history and the queue are read back from their records. -/
def restart (s : State) : State :=
  loadFromStorage
    { State.empty with
      history := s.storedHistory.getD []
      storedQueue := s.storedQueue
      storedHistory := s.storedHistory
      quotaExceeded := s.quotaExceeded }

/-! ## The manager as a transition system -/

/-- What can happen to the manager: a call of one of its methods, or the resumption of one of
its suspended runs. -/
inductive Event where
  | addDownload (url : String) (filename title : Option String) (tId tAdded tStart : Nat)
  | transferSucceeded (r : Nat) (res : TransferResult) (now : Nat)
  | transferFailed (r : Nat) (message : String)
  | installSettled (r : Nat) (o : InstallOutcome)
  | timerFired (i : Nat) (now : Nat)
  | cancelDownload (id : Nat)
  | cancelCurrentDownload
  | removeFromQueue (id : Nat)
  | clearQueue
  deriving DecidableEq

/-- One transition.  An event that is not enabled leaves the state as it is. -/
def step (parseUrl : String → Option String) (s : State) (e : Event) : State :=
  match e with
  | Event.addDownload url filename title tId tAdded tStart =>
    (addDownload parseUrl s url filename title tId tAdded tStart).1
  | Event.transferSucceeded r res now => transferSucceeded s r res now
  | Event.transferFailed r message => transferFailed s r message
  | Event.installSettled r o => installSettled s r o
  | Event.timerFired i now => timerFired s i now
  | Event.cancelDownload id => (cancelDownload s id).1
  | Event.cancelCurrentDownload => (cancelCurrentDownload s).1
  | Event.removeFromQueue id => removeFromQueue s id
  | Event.clearQueue => (clearQueue s).1

/-- The state after a sequence of events. -/
def run (parseUrl : String → Option String) (s : State) (es : List Event) : State :=
  es.foldl (step parseUrl) s

/-- The events of a manager that is only fed with `addDownload` calls: the calls and the
resumptions of the suspended runs (transfer outcomes, install outcomes, timers). -/
def Event.isScheduling : Event → Bool
  | Event.addDownload _ _ _ _ _ _ => true
  | Event.transferSucceeded _ _ _ => true
  | Event.transferFailed _ _ => true
  | Event.installSettled _ _ => true
  | Event.timerFired _ _ => true
  | _ => false

/-- The url of an `addDownload` call. -/
def Event.addedUrl : Event → Option String
  | Event.addDownload url _ _ _ _ _ => some url
  | _ => none

/-- The shape of the manager while it is only fed with `addDownload` calls: the queue holds
every item in creation order, the items given to `downloadFile` so far are the first ones of
the queue, in queue order, and they are exactly the items that are no longer pending. -/
structure Fifo (s : State) : Prop where
  queue_eq : s.queue = List.range s.heap.length
  calls_eq : s.downloadCalls = List.range s.downloadCalls.length
  calls_le : s.downloadCalls.length ≤ s.heap.length
  started : ∀ r d, r < s.downloadCalls.length → s.item r = some d → d.status ≠ Status.pending
  waiting : ∀ r d, s.downloadCalls.length ≤ r → s.item r = some d → d.status = Status.pending
  running : ∀ r ∈ s.transfers, r < s.downloadCalls.length

/-- Every reference held by the queue points to an item object. -/
def State.valid (s : State) : Prop := ∀ r ∈ s.queue, r < s.heap.length

instance (s : State) : Decidable s.valid := by
  unfold State.valid
  infer_instance

/-- A stand-in for `new URL` in the worked examples: it knows the two schemes the manager
accepts and rejects every other string. -/
def sampleParseUrl (string : String) : Option String :=
  if "https://".data.isPrefixOf string.data then some "https:"
  else if "http://".data.isPrefixOf string.data then some "http:"
  else none

/-- A worked example: the call `addDownload('https://x/a.pkg', 'a.pkg', 'A')` at clock
reading 1. -/
def addA : Event := Event.addDownload "https://x/a.pkg" (some "a.pkg") (some "A") 1 1 1

/-- A worked example: the call `addDownload('https://x/b.pkg', 'b.pkg', 'B')` at clock
reading 2. -/
def addB : Event := Event.addDownload "https://x/b.pkg" (some "b.pkg") (some "B") 2 2 2

/-- A worked example: the call `addDownload('https://x/c.pkg', 'c.pkg', 'C')` at clock
reading 3. -/
def addC : Event := Event.addDownload "https://x/c.pkg" (some "c.pkg") (some "C") 3 3 3

/-- A worked example: a transfer that delivered 1000 bytes of 1000. -/
def fullTransfer : TransferResult :=
  { totalBytes := 1000, downloadedBytes := 1000, speed := 500, eta := 0, blobSize := 1000 }

/-- A worked example: an install that reported success. -/
def installOk : InstallOutcome := InstallOutcome.returned true false none

/-- The status of the item behind a reference. -/
def State.statusOf (s : State) (r : Nat) : Option Status := (s.item r).map Item.status

/-- The number of queue items with the given status. -/
def State.count (s : State) (st : Status) : Nat :=
  (s.queueItems.filter (fun d => d.status == st)).length

/-! ## The history and the status counts -/

/-- `saveToHistory` (lines 353-363) at clock reading `now`: the state it leaves and the
exception that escapes it, if any (`setItem` is not guarded here).  The entry pushed is a copy
of the item stamped with `completedAt`; `slice(-50)` keeps the last 50 entries. -/
def saveToHistory (s : State) (item : Item) (now : Nat) : State × Option String :=
  let pushed := s.history ++ [{ item with completedAt := some now }]
  let kept := if pushed.length > 50 then pushed.drop (pushed.length - 50) else pushed
  let s1 := { s with history := kept }
  if s.quotaExceeded then (s1, some "QuotaExceededError")
  else ({ s1 with storedHistory := some (kept.map Item.serialize) }, none)

/-- The object returned by `getQueueStatus`. -/
structure QueueStatus where
  pending : Nat
  downloading : Nat
  completed : Nat
  errors : Nat
  total : Nat
  deriving DecidableEq, Repr

/-- `getQueueStatus` (lines 329-342). -/
def getQueueStatus (s : State) : QueueStatus :=
  { pending := (s.queueItems.filter (fun d => d.status == Status.pending)).length
    downloading := (s.queueItems.filter (fun d => d.status == Status.downloading)).length
    completed := (s.queueItems.filter (fun d => d.status == Status.completed)).length
    errors := (s.queueItems.filter (fun d => d.status == Status.error)).length
    total := s.queue.length }

/-- The readings of `Date.now()` taken for the ids (line 43) by the admitted `addDownload`
calls among the events `es` played from the state `s`, in the order of the calls.  A call is
admitted when it returns `true`. -/
def admittedIds (parseUrl : String → Option String) (s : State) : List Event → List Nat
  | [] => []
  | e :: rest =>
    (match e with
      | Event.addDownload url filename title tId tAdded tStart =>
        if (addDownload parseUrl s url filename title tId tAdded tStart).2 then [tId] else []
      | _ => []) ++ admittedIds parseUrl (step parseUrl s e) rest

/-! ## Numbers

The numbers of JavaScript are IEEE 754 binary64 values.  A finite one is given here by the
rational it denotes, and the result of `/` or `*` is the exact result rounded to the nearest
binary64 value (`roundDouble`).  Sums and differences of integers below `2 ^ 53`,
`Math.floor` and the operator `%` are exact.  The rounding is applied where an integer is
taken from the result: to the percentage of the read loop and to the quotients of
`formatTime`; the speed and the ETA of the read loop are given by their exact quotients. -/

/-- Rounding to the nearest integer, a tie going to the even neighbour. -/
def roundHalfEven (q : ℚ) : ℤ :=
  if q - ⌊q⌋ < 1 / 2 then ⌊q⌋
  else if 1 / 2 < q - ⌊q⌋ then ⌊q⌋ + 1
  else if ⌊q⌋ % 2 = 0 then ⌊q⌋
  else ⌊q⌋ + 1

/-- The exponent of the unit in the last place of binary64 at `x`: a significand of 53 bits
above the binade `2 ^ ⌊log2 |x|⌋`, and the fixed step `2 ^ -1074` of the subnormal range. -/
def ulpExponent (x : ℚ) : ℤ := max (Int.log 2 |x|) (-1022) - 52

/-- The binary64 value nearest to `x`, ties to even: the rounding applied to the exact result
of `/` and `*`.  Overflow to `Infinity` (results of `2 ^ 1024` and more) is left out; no
operation of this file reaches it on the arguments that occur. -/
def roundDouble (x : ℚ) : ℚ :=
  (roundHalfEven (x / 2 ^ ulpExponent x) : ℚ) * 2 ^ ulpExponent x

/-- The digits `s` and the position `n` of the decimal point that `Number::toString` picks
for a positive integer-valued double `x`: the shortest `s` such that `s * 10 ^ (n - k)`, `k`
being the number of digits of `s`, reads back as `x`, and among these the one nearest to `x`
(the even one in a tie). -/
def shortestDecimal (x : Nat) : Nat × Nat :=
  let digits := (Nat.toDigits 10 x).length
  if roundDouble ((10 : ℚ) ^ digits) = x then (1, digits + 1)
  else
    match (List.range digits).findSome? (fun i =>
      let k := i + 1
      let unit := 10 ^ (digits - k)
      let lo := x / unit
      let hi := lo + 1
      let okLo := decide (roundDouble ((lo * unit : ℕ) : ℚ) = x)
      let okHi := decide (roundDouble ((hi * unit : ℕ) : ℚ) = x)
      if okLo && okHi then
        (if x - lo * unit < hi * unit - x then some lo
         else if hi * unit - x < x - lo * unit then some hi
         else if lo % 2 = 0 then some lo else some hi)
      else if okLo then some lo
      else if okHi then some hi
      else none) with
    | some s => (s, digits)
    | none => (x, digits)

/-- The string of a positive integer-valued double by `Number::toString`: the digits of
`shortestDecimal` followed by zeros up to 21 digits, the exponent form beyond. -/
def bigToString (x : Nat) : String :=
  let sn := shortestDecimal x
  let digits := toString sn.1
  let k := digits.length
  let n := sn.2
  if n ≤ 21 then digits ++ String.mk (List.replicate (n - k) '0')
  else if k = 1 then digits ++ "e+" ++ toString (n - 1)
  else String.mk (digits.data.take 1) ++ "." ++ String.mk (digits.data.drop 1) ++ "e+" ++
    toString (n - 1)

/-- The string that a template literal or `toString()` makes of an integer-valued double.
Below `2 ^ 53` every integer is a double whose neighbours are at a distance of at most 1, so
that the shortest decimal that reads back as it is its own decimal expansion. -/
def jsToString (z : ℤ) : String :=
  if z.natAbs < 2 ^ 53 then toString z
  else (if z < 0 then "-" else "") ++ bigToString z.natAbs

/-! ## formatTime -/

/-- An argument of `formatTime`: a finite number (given by the value of the double),
`Infinity`, `-Infinity`, or a missing value (`undefined`, `null` or `NaN`, which are all
falsy). -/
inductive JsNumber where
  | num (q : ℚ)
  | infinity
  | negInfinity
  | missing
  deriving DecidableEq

/-- The operator `%` on numbers: the remainder has the sign of the dividend. -/
def jsRemainder (x m : ℚ) : ℚ :=
  x - m * (if 0 ≤ x / m then ⌊x / m⌋ else ⌈x / m⌉)

/-- `str.padStart(2, '0')`. -/
def padStart2 (str : String) : String :=
  String.mk (List.replicate (2 - str.length) '0') ++ str

/-- `formatTime` (lines 411-422).  The guard of line 412 catches the falsy values and
`Infinity` only: for `-Infinity` the three fields are `-Infinity`, `NaN` and `NaN`, and the
second template is returned.  The two quotients are rounded to binary64 before `Math.floor`
is applied; the remainders are exact. -/
def formatTime (seconds : JsNumber) : String :=
  match seconds with
  | JsNumber.missing => "--:--"
  | JsNumber.infinity => "--:--"
  | JsNumber.negInfinity => "NaN:NaN"
  | JsNumber.num q =>
    if q = 0 then "--:--"
    else
      let hrs : ℤ := ⌊roundDouble (q / 3600)⌋
      let mins : ℤ := ⌊roundDouble (jsRemainder q 3600 / 60)⌋
      let secs : ℤ := ⌊jsRemainder q 60⌋
      if hrs > 0 then
        jsToString hrs ++ ":" ++ padStart2 (jsToString mins) ++ ":" ++
          padStart2 (jsToString secs)
      else jsToString mins ++ ":" ++ padStart2 (jsToString secs)

/-- The two decimal digits of a number below 100. -/
def twoDigits (n : Nat) : String :=
  String.mk [Nat.digitChar (n / 10), Nat.digitChar (n % 10)]

/-! ## The read loop of downloadFile -/

/-- `Math.round` of a double, given by its value: the nearest integer, halves going up. -/
def mathRound (x : ℚ) : ℤ := ⌊x + 1 / 2⌋

/-- The local variables of the read loop of `downloadFile` (lines 153-156), the item it
updates and the snapshots of the item passed to `updateProgressUI`, the progress sink. -/
structure ReadLoop where
  item : Item
  receivedLength : Nat
  lastUpdate : Nat
  lastBytes : Nat
  uiCalls : List Item
  deriving DecidableEq

/-- The loop when it is entered at clock reading `t0` (lines 153-156). -/
def ReadLoop.start (item : Item) (t0 : Nat) : ReadLoop :=
  { item := item, receivedLength := 0, lastUpdate := t0, lastBytes := 0, uiCalls := [] }

/-- `contentLength` (line 152): the size learnt from the `HEAD` probe if any, otherwise the
`content-length` header of the response (`0` when it is absent). -/
def contentLengthOf (item : Item) (header : Nat) : Nat :=
  if item.totalBytes ≠ 0 then item.totalBytes else header

/-- `elapsed` (line 173), in seconds, for a chunk read at clock reading `now`. -/
def elapsedSeconds (l : ReadLoop) (now : Nat) : ℚ := ((now : ℚ) - (l.lastUpdate : ℚ)) / 1000

/-- One turn of the loop (lines 159-183) for a chunk of `length` bytes read at clock reading
`now`.  The percentage of line 168 is computed in binary64: the quotient is rounded, then the
product by 100, and `Math.round` is applied to that double. -/
def readChunk (contentLength : Nat) (l : ReadLoop) (length now : Nat) : ReadLoop :=
  let receivedLength := l.receivedLength + length
  let item1 := { l.item with downloadedBytes := receivedLength }
  let item2 :=
    if contentLength > 0 then
      { item1 with
        progress :=
          (mathRound
            (roundDouble (roundDouble ((receivedLength : ℚ) / (contentLength : ℚ)) * 100))).toNat }
    else item1
  let elapsed := elapsedSeconds l now
  if elapsed ≥ 1 / 2 then
    let bytesDelta : ℚ := (receivedLength : ℚ) - (l.lastBytes : ℚ)
    let speed : ℚ := bytesDelta / elapsed
    let eta : ℚ :=
      if speed > 0 then ((contentLength : ℚ) - (receivedLength : ℚ)) / speed else 0
    let item3 := { item2 with speed := speed, eta := eta }
    { item := item3, receivedLength := receivedLength, lastUpdate := now,
      lastBytes := receivedLength, uiCalls := l.uiCalls ++ [item3] }
  else { l with item := item2, receivedLength := receivedLength }

/-- The loop over the chunks of the body, each given by its length and the clock reading
after it was read. -/
def readLoop (contentLength : Nat) (l : ReadLoop) (chunks : List (Nat × Nat)) : ReadLoop :=
  chunks.foldl (fun l c => readChunk contentLength l c.1 c.2) l

/-- How the `fetch` of `downloadFile` ends: a rejection, a response that is not `ok`, or a
response with its `content-length` header (`0` when absent) and its body, that is the chunks
read and the error of the read that rejects, if one does. -/
inductive FetchOutcome where
  | rejected (message : String)
  | notOk (status : Nat) (statusText : String)
  | ok (header : Nat) (chunks : List (Nat × Nat)) (readError : Option String)
  deriving DecidableEq

/-- `downloadFile` (lines 131-192) on an item, from the `HEAD` probe to the end: the loop
state it ends in and the error it throws, if any.  `fileInfoSize` is the size reported by
`getFileInfo` (`none` when the probe failed), `t0` the clock reading when the loop starts. -/
def downloadFile (item : Item) (fileInfoSize : Option Nat) (fetched : FetchOutcome)
    (t0 : Nat) : ReadLoop × Option String :=
  let item0 :=
    match fileInfoSize with
    | some size => if size ≠ 0 then { item with totalBytes := size } else item
    | none => item
  match fetched with
  | FetchOutcome.rejected message => (ReadLoop.start item0 t0, some message)
  | FetchOutcome.notOk status statusText =>
    (ReadLoop.start item0 t0,
      some ("Server returned: " ++ toString status ++ " " ++ statusText))
  | FetchOutcome.ok header chunks readError =>
    let l := readLoop (contentLengthOf item0 header) (ReadLoop.start item0 t0) chunks
    match readError with
    | some message => (l, some message)
    | none =>
      let done := { l.item with
        downloadedBlob := some (Blob.blob l.receivedLength)
        downloadedUrl := some "blob:"
        progress := 100 }
      ({ l with item := done, uiCalls := l.uiCalls ++ [done] }, none)

/-- The values that a finished `downloadFile` hands over to the continuation of
`startNextDownload`. -/
def ReadLoop.result (l : ReadLoop) : TransferResult :=
  { totalBytes := l.item.totalBytes, downloadedBytes := l.item.downloadedBytes,
    speed := l.item.speed, eta := l.item.eta,
    blobSize := match l.item.downloadedBlob with
      | some (Blob.blob size) => size
      | _ => 0 }

/-- The 250 chunks of 4 bytes of the worked example: chunk `k` is read `4 * k` ms after the
loop started at clock reading 0, so 500 bytes arrive in each window of 500 ms. -/
def steadyChunks : List (Nat × Nat) := (List.range 250).map (fun k => (4, 4 * (k + 1)))

/-- The integer part of the loop state: bytes received, anchor time, anchor bytes and the
number of calls of the progress sink. -/
def ReadLoop.counters (l : ReadLoop) : Nat × Nat × Nat × Nat :=
  (l.receivedLength, l.lastUpdate, l.lastBytes, l.uiCalls.length)

/-- What one turn of the loop does to the counters: a sample is taken when 500 ms or more
have passed since the anchor. -/
def countersStep (c : Nat × Nat × Nat × Nat) (chunk : Nat × Nat) : Nat × Nat × Nat × Nat :=
  if c.2.1 + 500 ≤ chunk.2 then (c.1 + chunk.1, chunk.2, c.1 + chunk.1, c.2.2.2 + 1)
  else (c.1 + chunk.1, c.2.1, c.2.2.1, c.2.2.2)

/-- A new item for the worked examples of the read loop. -/
def itemA : Item := newItem "https://x/a.pkg" (some "a.pkg") (some "A") 1 1

/-- What `loadFromStorage` makes of one saved item: `downloading` becomes `pending`, nothing
else changes. -/
def Item.reloaded (d : Item) : Item :=
  if d.status = Status.downloading then { d with status := Status.pending } else d

/-- The lines 89-92 of `startNextDownload`: the item becomes current and `downloading`. -/
def markDownloading (s : State) (r : Nat) (now : Nat) : State :=
  ({ s with currentDownload := some r }).update r
    (fun d => { d with status := Status.downloading, startedAt := some now })

/-- What holds of every item object of a manager: an error is recorded exactly on the items
in status `error`, and a completed item has progress 100. -/
def Item.good (d : Item) : Prop :=
  (d.error ≠ none ↔ d.status = Status.error) ∧ (d.status = Status.completed → d.progress = 100)

/-- The writes of a suspended `downloadFile` to its item (lines 135 and 165-176): the size
learnt from the `HEAD` probe, then, chunk after chunk, the bytes received, the progress and
the sample of speed and ETA. -/
def Item.transferring (d : Item) (totalBytes downloadedBytes progress : Nat) (speed eta : ℚ) :
    Item :=
  { d with
    totalBytes := totalBytes
    downloadedBytes := downloadedBytes
    progress := progress
    speed := speed
    eta := eta }

/-- The states reachable from the manager constructed on an empty `localStorage`: by the
method calls and the resumptions of suspended runs (`step`), by the writes that a suspended
`downloadFile` makes to its item between two resumptions, whatever the values written, and by
reloads of the page. -/
inductive Reachable (parseUrl : String → Option String) : State → Prop where
  | empty : Reachable parseUrl State.empty
  | step (s : State) (e : Event) : Reachable parseUrl s → Reachable parseUrl (step parseUrl s e)
  | chunk (s : State) (r : Nat) (totalBytes downloadedBytes progress : Nat) (speed eta : ℚ) :
    Reachable parseUrl s → r ∈ s.transfers →
    Reachable parseUrl
      (s.update r (fun d => d.transferring totalBytes downloadedBytes progress speed eta))
  | restart (s : State) : Reachable parseUrl s → Reachable parseUrl (restart s)

/-- What every transition keeps: the item objects and the saved items are `good`, no item is
in flight twice, and an item in flight is `downloading`. -/
structure Consistent (s : State) : Prop where
  heap_good : ∀ d ∈ s.heap, d.good
  stored_good : ∀ l, s.storedQueue = some l → ∀ d ∈ l, d.good
  transfers_nodup : s.transfers.Nodup
  transfers_downloading :
    ∀ r ∈ s.transfers, ∃ d, s.item r = some d ∧ d.status = Status.downloading

end DownloadManager

/-! # The install dispatcher of `src/js/pkg-installer.js` -/

namespace PKGInstaller

open DownloadManager (Toast ToastKind Blob jsString truthy)

/-- The five install channels, in the order of the source (`Method 1` to `Method 5`). -/
inductive Channel where
  | http
  | socket
  | storage
  | message
  | media
  deriving DecidableEq, Repr

/-- How the `POST` to `http://localhost:12800/install` ends: a response with `ok`, a response
without `ok`, or a rejected `fetch`. -/
inductive HttpOutcome where
  | ok
  | notOk
  | rejected
  deriving DecidableEq, Repr

/-- What becomes of `new WebSocket('ws://localhost:12800')`: the constructor throws, or the
socket is created and later either opens (`onopen` sends the directive and closes) or fails
(`onerror`). -/
inductive SocketOutcome where
  | constructorThrows
  | opens
  | errors
  deriving DecidableEq, Repr

/-- The device agent and the browser as one dispatch meets them. -/
structure Device where
  /-- The field `this.isPS4`. -/
  isPS4 : Bool
  /-- The outcome of channel (1). -/
  http : HttpOutcome
  /-- The outcome of channel (2). -/
  socket : SocketOutcome
  /-- Whether `localStorage.setItem` throws in channel (3). -/
  setItemThrows : Bool
  /-- Whether `window.parent !== window`. -/
  embedded : Bool
  /-- Whether `window.parent.postMessage` throws in channel (4). -/
  postMessageThrows : Bool
  /-- Whether one of the media calls of channel (5) throws. -/
  mediaThrows : Bool
  /-- The reading of `Date.now()` in channel (3). -/
  now : Nat
  deriving DecidableEq, Repr

/-- The record written under `ps4_install_request` (lines 130-136); `blobSize` is absent when
the payload is not a `Blob`. -/
structure InstallData where
  action : String
  filename : Option String
  title : Option String
  timestamp : Nat
  blobSize : Option Nat
  deriving DecidableEq, Repr

/-- What a dispatch does to the outside, one entry per channel block that ran. -/
inductive Action where
  /-- Channel (1): the form was built and posted, with the outcome of the request; `none`
  when building the form threw (the payload is not a `Blob`) and nothing was posted. -/
  | http (outcome : Option HttpOutcome)
  /-- Channel (2): the socket constructor ran, and either returned a socket or threw. -/
  | socket (created : Bool)
  /-- Channel (3): `setItem` ran, and either wrote the record or threw. -/
  | storage (written : Bool)
  /-- Channel (4): the block ran; the message was posted or not (not embedded, or a throw). -/
  | message (posted : Bool)
  /-- Channel (5): the block ran, and either went through or threw. -/
  | media (done : Bool)
  /-- The `onopen` handler of the socket of channel (2) ran: directive sent, socket closed. -/
  | directive (filename title : Option String)
  deriving DecidableEq, Repr

/-- The channel whose block an action belongs to; the late `onopen` handler is not the start
of an attempt. -/
def Action.channel : Action → Option Channel
  | Action.http _ => some Channel.http
  | Action.socket _ => some Channel.socket
  | Action.storage _ => some Channel.storage
  | Action.message _ => some Channel.message
  | Action.media _ => some Channel.media
  | Action.directive _ _ => none

/-- The `PKGInstaller` object and what it has done so far. -/
structure Installer where
  /-- The field `this.isInstalling`. -/
  isInstalling : Bool
  /-- The calls of `app.showToast`, oldest first. -/
  toasts : List Toast
  /-- The channel blocks that ran, oldest first. -/
  actions : List Action
  /-- The record `localStorage['ps4_install_request']`. -/
  installRequest : Option InstallData
  /-- The sockets created by channel (2) whose `onopen` or `onerror` has not run yet, each
  with the directive its `onopen` would send. -/
  sockets : List (Option String × Option String)
  deriving DecidableEq, Repr

/-- The installer right after its constructor. -/
def Installer.new : Installer :=
  { isInstalling := false, toasts := [], actions := [], installRequest := none, sockets := [] }

/-- The channels attempted so far, in order. -/
def Installer.attemptedChannels (p : Installer) : List Channel :=
  p.actions.filterMap Action.channel

/-- `app.showToast(msg, kind)`. -/
def Installer.showToast (p : Installer) (msg : String) (kind : ToastKind) : Installer :=
  { p with toasts := p.toasts ++ [{ msg := msg, kind := kind }] }

/-- The object returned by the install methods: `success`, and `simulated`, `error`,
`message` and `note` when present. -/
structure InstallResult where
  success : Bool
  simulated : Bool
  error : Option String
  message : Option String
  note : Option String
  deriving DecidableEq, Repr

/-- The result `{ success: false, error: 'Installation already in progress' }`. -/
def alreadyInProgress : InstallResult :=
  { success := false, simulated := false, error := some "Installation already in progress",
    message := none, note := none }

/-- `simulateInstallation` (lines 247-268), with its delays elapsed. -/
def simulateInstallation (p : Installer) (title : Option String) : Installer × InstallResult :=
  let p1 := p.showToast ("Demo Mode: Simulating installation of " ++ jsString title)
    ToastKind.info
  let steps := ["Validating PKG...", "Extracting files...", "Installing...",
    "Registering content...", "Finalizing..."]
  let p2 := steps.foldl (fun q step => q.showToast (jsString title ++ ": " ++ step)
    ToastKind.info) p1
  let p3 := { p2 with isInstalling := false }
  (p3.showToast (jsString title ++ " installed successfully (Demo)") ToastKind.success,
    { success := true, simulated := true, error := none, message := none, note := none })

/-- Channel (2), lines 110-127: the constructor either throws, which is caught, or returns a
socket on which the handlers are set; the code does not wait for either handler. -/
def trySocket (dev : Device) (p : Installer) (filename title : Option String) : Installer :=
  match dev.socket with
  | SocketOutcome.constructorThrows => { p with actions := p.actions ++ [Action.socket false] }
  | _ => { p with actions := p.actions ++ [Action.socket true],
                  sockets := p.sockets ++ [(filename, title)] }

/-- Channel (3), lines 130-142.  Reading `blob.size` comes first and is outside the inner
`try`: it throws when the payload is `null` or `undefined`. -/
def tryStorage (dev : Device) (p : Installer) (blob : Option Blob)
    (filename title : Option String) : Option Installer :=
  match blob with
  | none => none
  | some b =>
    let installData : InstallData :=
      { action := "install_pkg", filename := filename, title := title, timestamp := dev.now,
        blobSize := match b with
          | Blob.blob size => some size
          | Blob.plainObject => none }
    if dev.setItemThrows then some { p with actions := p.actions ++ [Action.storage false] }
    else some { p with actions := p.actions ++ [Action.storage true],
                       installRequest := some installData }

/-- Channel (4), lines 145-155. -/
def tryMessage (dev : Device) (p : Installer) : Installer :=
  { p with actions := p.actions ++ [Action.message (dev.embedded && !dev.postMessageThrows)] }

/-- Channel (5), lines 158-167; the media calls also throw when the payload is not a
`Blob`. -/
def tryMedia (dev : Device) (p : Installer) (blob : Option Blob) : Installer :=
  let isBlob := match blob with
    | some (Blob.blob _) => true
    | _ => false
  { p with actions := p.actions ++ [Action.media (isBlob && !dev.mediaThrows)] }

/-- The result `{ success: true, message: 'Installation signal sent', note: 'Check PS4
notification center' }` of lines 171-175. -/
def signalSent : InstallResult :=
  { success := true, simulated := false, error := none,
    message := some "Installation signal sent", note := some "Check PS4 notification center" }

/-- Lines 109-181 of `installFromBlob`: channels (2) to (5) after channel (1) did not
return, inside the outer `try`. -/
def fallbackChannels (dev : Device) (p : Installer) (blob : Option Blob)
    (filename title : Option String) : Installer × InstallResult :=
  let p2 := trySocket dev p filename title
  match tryStorage dev p2 blob filename title with
  | none =>
    let p3 := { p2 with isInstalling := false }
    (p3.showToast ("Installation error: " ++
        "Cannot read properties of null (reading size)") ToastKind.error,
      { success := false, simulated := false,
        error := some "Cannot read properties of null (reading size)", message := none,
        note := none })
  | some p3 =>
    let p4 := tryMessage dev p3
    let p5 := tryMedia dev p4 blob
    let p6 := { p5 with isInstalling := false }
    (p6.showToast (jsString title ++ " - Signal sent to payload") ToastKind.success, signalSent)

/-- `installFromBlob` (lines 69-182), from the call to the return of its result. -/
def installFromBlob (dev : Device) (p : Installer) (blob : Option Blob)
    (filename title : Option String) : Installer × InstallResult :=
  if p.isInstalling then
    (p.showToast "Installation in progress" ToastKind.warning, alreadyInProgress)
  else
    let p1 := { p with isInstalling := true }
    let title := if truthy title then title else filename
    let p2 := p1.showToast ("Installing: " ++ jsString title) ToastKind.info
    if !dev.isPS4 then simulateInstallation p2 title
    else
      match blob with
      | some (Blob.blob _) =>
        let p3 := { p2 with actions := p2.actions ++ [Action.http (some dev.http)] }
        match dev.http with
        | HttpOutcome.ok =>
          let p4 := { p3 with isInstalling := false }
          (p4.showToast (jsString title ++ " installation started!") ToastKind.success,
            { success := true, simulated := false, error := none, message := none,
              note := none })
        | _ => fallbackChannels dev p3 blob filename title
      | _ =>
        let p3 := { p2 with actions := p2.actions ++ [Action.http none] }
        fallbackChannels dev p3 blob filename title

/-- The socket created first by channel (2) settles: `onopen` sends the directive and closes
the socket, `onerror` only logs. -/
def socketSettled (p : Installer) (opened : Bool) : Installer :=
  match p.sockets with
  | [] => p
  | (filename, title) :: rest =>
    if opened then
      { p with sockets := rest, actions := p.actions ++ [Action.directive filename title] }
    else { p with sockets := rest }

/-- How the `fetch(url)` of `installFromUrl` ends: a rejection with its message, a response
that is not `ok` with its status, or a response whose body is a blob of the given size. -/
inductive UrlFetch where
  | rejected (message : String)
  | notOk (status : Nat)
  | ok (size : Nat)
  deriving DecidableEq, Repr

/-- `installFromUrl` (lines 28-64), from the call to the return of its result. -/
def installFromUrl (dev : Device) (fetched : UrlFetch) (p : Installer)
    (filename title : Option String) : Installer × InstallResult :=
  if p.isInstalling then
    (p.showToast "Install sedang berlangsung..." ToastKind.warning, alreadyInProgress)
  else
    let p1 := { p with isInstalling := true }
    let title := if truthy title then title else filename
    let p2 := p1.showToast ("Memulai install: " ++ jsString title) ToastKind.info
    if !dev.isPS4 then simulateInstallation p2 title
    else
      let p3 := p2.showToast ("Mendownload: " ++ jsString title) ToastKind.info
      let failed (message : String) : Installer × InstallResult :=
        (({ p3 with isInstalling := false }).showToast ("Install gagal: " ++ message)
            ToastKind.error,
          { success := false, simulated := false, error := some message, message := none,
            note := none })
      match fetched with
      | UrlFetch.rejected message => failed message
      | UrlFetch.notOk status => failed ("Download failed: " ++ toString status)
      | UrlFetch.ok size => installFromBlob dev p3 (some (Blob.blob size)) filename title

/-- A worked example: a device on which channel (1) answers with `ok`. -/
def deviceHttpOk : Device :=
  { isPS4 := true, http := HttpOutcome.ok, socket := SocketOutcome.errors,
    setItemThrows := false, embedded := false, postMessageThrows := false,
    mediaThrows := false, now := 9 }

/-- A worked example: a device on which channel (1) is rejected and the socket of channel (2)
opens. -/
def deviceSocketOpens : Device :=
  { isPS4 := true, http := HttpOutcome.rejected, socket := SocketOutcome.opens,
    setItemThrows := false, embedded := true, postMessageThrows := false,
    mediaThrows := false, now := 9 }

/-- A worked example: a device on which channels (1) and (2) fail and (3), (4), (5) all
throw. -/
def deviceAllFail : Device :=
  { isPS4 := true, http := HttpOutcome.rejected, socket := SocketOutcome.constructorThrows,
    setItemThrows := true, embedded := true, postMessageThrows := true,
    mediaThrows := true, now := 9 }

end PKGInstaller

namespace DownloadManager

/-! ## Basic facts about the queue primitives -/

theorem find_eq_none_iff (s : State) (p : Item → Bool) :
    s.find p = none ↔ ∀ r ∈ s.queue, ∀ d, s.item r = some d → p d = false := by
  unfold State.find
  rw [List.find?_eq_none]
  constructor
  · intro h r hr d hd
    have := h r hr
    simpa [hd] using this
  · intro h r hr
    cases hd : s.item r with
    | none => simp
    | some d => simpa using h r hr d hd

theorem find_some_spec (s : State) (p : Item → Bool) (r : Nat) (h : s.find p = some r) :
    (∃ d, s.item r = some d ∧ p d = true) ∧
      ∃ before after, s.queue = before ++ r :: after ∧
        ∀ x ∈ before, ∀ d, s.item x = some d → p d = false := by
  unfold State.find at h
  rw [List.find?_eq_some] at h
  obtain ⟨hp, as, bs, hq, hbefore⟩ := h
  refine ⟨?_, as, bs, hq, ?_⟩
  · cases hd : s.item r with
    | none => simp [hd] at hp
    | some d => exact ⟨d, rfl, by simpa [hd] using hp⟩
  · intro x hx d hd
    have := hbefore x hx
    simpa [hd] using this

@[simp] theorem showToast_queue (s : State) (m : String) (k : ToastKind) :
    (s.showToast m k).queue = s.queue := rfl

@[simp] theorem showToast_heap (s : State) (m : String) (k : ToastKind) :
    (s.showToast m k).heap = s.heap := rfl

@[simp] theorem showToast_currentDownload (s : State) (m : String) (k : ToastKind) :
    (s.showToast m k).currentDownload = s.currentDownload := rfl

@[simp] theorem showToast_storedQueue (s : State) (m : String) (k : ToastKind) :
    (s.showToast m k).storedQueue = s.storedQueue := rfl

@[simp] theorem saveToStorage_queue (s : State) : (saveToStorage s).queue = s.queue := by
  unfold saveToStorage; split <;> rfl

@[simp] theorem saveToStorage_heap (s : State) : (saveToStorage s).heap = s.heap := by
  unfold saveToStorage; split <;> rfl

@[simp] theorem saveToStorage_currentDownload (s : State) :
    (saveToStorage s).currentDownload = s.currentDownload := by
  unfold saveToStorage; split <;> rfl

@[simp] theorem saveToStorage_downloadCalls (s : State) :
    (saveToStorage s).downloadCalls = s.downloadCalls := by
  unfold saveToStorage; split <;> rfl

@[simp] theorem saveToStorage_transfers (s : State) :
    (saveToStorage s).transfers = s.transfers := by
  unfold saveToStorage; split <;> rfl

@[simp] theorem saveToStorage_installs (s : State) :
    (saveToStorage s).installs = s.installs := by
  unfold saveToStorage; split <;> rfl

@[simp] theorem saveToStorage_timers (s : State) :
    (saveToStorage s).timers = s.timers := by
  unfold saveToStorage; split <;> rfl

@[simp] theorem saveToStorage_installCalls (s : State) :
    (saveToStorage s).installCalls = s.installCalls := by
  unfold saveToStorage; split <;> rfl

@[simp] theorem saveToStorage_history (s : State) :
    (saveToStorage s).history = s.history := by
  unfold saveToStorage; split <;> rfl

@[simp] theorem saveToStorage_storedHistory (s : State) :
    (saveToStorage s).storedHistory = s.storedHistory := by
  unfold saveToStorage; split <;> rfl

theorem addDownload_rejected (parseUrl : String → Option String) (s : State) (url : String)
    (filename title : Option String) (tId tAdded tStart : Nat)
    (h : (addDownload parseUrl s url filename title tId tAdded tStart).2 = false) :
    ∃ m k, (addDownload parseUrl s url filename title tId tAdded tStart).1 = s.showToast m k := by
  unfold addDownload at h ⊢
  by_cases hc : (url == "" || !isValidUrl parseUrl url) = true
  · rw [if_pos hc]
    exact ⟨_, _, rfl⟩
  · rw [if_neg hc] at h ⊢
    cases hf : s.find (fun d => d.url == url && d.status == Status.pending) with
    | some r => exact ⟨_, _, rfl⟩
    | none =>
      rw [hf] at h
      simp only at h
      split at h <;> simp at h

theorem addDownload_false_iff (parseUrl : String → Option String) (s : State) (url : String)
    (filename title : Option String) (tId tAdded tStart : Nat) :
    (addDownload parseUrl s url filename title tId tAdded tStart).2 = false ↔
      (url = "" ∨ isValidUrl parseUrl url = false ∨
        ∃ r ∈ s.queue, ∃ d, s.item r = some d ∧ d.url = url ∧ d.status = Status.pending) := by
  unfold addDownload
  by_cases hu : url = ""
  · simp [hu]
  by_cases hv : isValidUrl parseUrl url = false
  · simp [hv]
  have hv' : isValidUrl parseUrl url = true := by simpa using hv
  have hcond : (url == "" || !isValidUrl parseUrl url) = false := by simp [hu, hv']
  rw [if_neg (by simp [hcond])]
  cases hf : s.find (fun d => d.url == url && d.status == Status.pending) with
  | some r =>
    obtain ⟨⟨d, hd, hp⟩, -⟩ := find_some_spec s _ r hf
    have hmem : r ∈ s.queue := by
      obtain ⟨-, b, a, hq, -⟩ := find_some_spec s _ r hf
      rw [hq]; simp
    simp only [true_iff]
    right; right
    refine ⟨r, hmem, d, hd, ?_⟩
    simpa using hp
  | none =>
    have hn := (find_eq_none_iff s _).1 hf
    have hres : ∀ a b : State, (if (enqueue s url filename title tId tAdded).currentDownload.isNone
        then (a, true) else (b, true)).2 = true := by
      intro a b; split <;> rfl
    simp only [hres, Bool.true_eq_false, false_iff]
    rintro (h | h | ⟨r, hr, d, hd, hurl, hst⟩)
    · exact hu h
    · exact hv h
    · have := hn r hr d hd
      simp [hurl, hst] at this

/-! ## C1 -/

/-- C1: `addDownload` returns false exactly when the url is empty or is not accepted by
`isValidUrl` (it does not parse as an absolute http: or https: URL), or some queue item has
the same url and status pending; a rejected call leaves the queue, the items, the current
download and the persisted `downloadQueue` record unchanged (it only shows a toast); and a
valid url that only items with status completed, error or cancelled carry is admitted. -/
theorem addDownload_rejects_iff (parseUrl : String → Option String) (s : State) (url : String)
    (filename title : Option String) (tId tAdded tStart : Nat) :
    ((addDownload parseUrl s url filename title tId tAdded tStart).2 = false ↔
        (url = "" ∨ isValidUrl parseUrl url = false ∨
          ∃ r ∈ s.queue, ∃ d, s.item r = some d ∧ d.url = url ∧ d.status = Status.pending)) ∧
    ((addDownload parseUrl s url filename title tId tAdded tStart).2 = false →
        ∃ m k, (addDownload parseUrl s url filename title tId tAdded tStart).1 = s.showToast m k ∧
          (s.showToast m k).queue = s.queue ∧ (s.showToast m k).heap = s.heap ∧
          (s.showToast m k).currentDownload = s.currentDownload ∧
          (s.showToast m k).storedQueue = s.storedQueue) ∧
    (url ≠ "" → isValidUrl parseUrl url = true →
        (∀ r ∈ s.queue, ∀ d, s.item r = some d → d.url = url →
          d.status = Status.completed ∨ d.status = Status.error ∨
            d.status = Status.cancelled) →
        (addDownload parseUrl s url filename title tId tAdded tStart).2 = true) := by
  have key := addDownload_false_iff parseUrl s url filename title tId tAdded tStart
  refine ⟨key, ?_, ?_⟩
  · intro hrej
    obtain ⟨m, k, hmk⟩ := addDownload_rejected parseUrl s url filename title tId tAdded tStart hrej
    exact ⟨m, k, hmk, rfl, rfl, rfl, rfl⟩
  · intro hu hv hall
    by_contra hfalse
    have hfalse' : (addDownload parseUrl s url filename title tId tAdded tStart).2 = false := by
      simpa using hfalse
    rcases key.1 hfalse' with h | h | ⟨r, hr, d, hd, hurl, hst⟩
    · exact hu h
    · simp [hv] at h
    · rcases hall r hr d hd hurl with h | h | h <;> simp [hst] at h

/-! ## C2 -/

@[simp] theorem update_queue (s : State) (r : Nat) (f : Item → Item) :
    (s.update r f).queue = s.queue := rfl

@[simp] theorem update_currentDownload (s : State) (r : Nat) (f : Item → Item) :
    (s.update r f).currentDownload = s.currentDownload := rfl

@[simp] theorem update_downloadCalls (s : State) (r : Nat) (f : Item → Item) :
    (s.update r f).downloadCalls = s.downloadCalls := rfl

@[simp] theorem update_transfers (s : State) (r : Nat) (f : Item → Item) :
    (s.update r f).transfers = s.transfers := rfl

@[simp] theorem update_installs (s : State) (r : Nat) (f : Item → Item) :
    (s.update r f).installs = s.installs := rfl

@[simp] theorem update_timers (s : State) (r : Nat) (f : Item → Item) :
    (s.update r f).timers = s.timers := rfl

@[simp] theorem update_installCalls (s : State) (r : Nat) (f : Item → Item) :
    (s.update r f).installCalls = s.installCalls := rfl

@[simp] theorem update_history (s : State) (r : Nat) (f : Item → Item) :
    (s.update r f).history = s.history := rfl

@[simp] theorem update_storedHistory (s : State) (r : Nat) (f : Item → Item) :
    (s.update r f).storedHistory = s.storedHistory := rfl

@[simp] theorem update_heap_length (s : State) (r : Nat) (f : Item → Item) :
    (s.update r f).heap.length = s.heap.length := by
  simp [State.update]

theorem update_item (s : State) (r : Nat) (f : Item → Item) (x : Nat) :
    (s.update r f).item x = if r = x then (s.item x).map f else s.item x := by
  unfold State.update State.item
  simp only [List.getElem?_modify]
  split
  · rfl
  · cases s.heap[x]? <;> rfl

theorem saveToStorage_item (s : State) (x : Nat) : (saveToStorage s).item x = s.item x := by
  unfold State.item; rw [saveToStorage_heap]

@[simp] theorem beginDownload_queue (s : State) (r now : Nat) :
    (beginDownload s r now).queue = s.queue := by
  simp [beginDownload]

theorem startNextDownload_queue (s : State) (now : Nat) :
    (startNextDownload s now).queue = s.queue := by
  unfold startNextDownload
  split
  · rfl
  · split
    · rfl
    · simp

theorem enqueue_queue (s : State) (url : String) (filename title : Option String)
    (tId tAdded : Nat) :
    (enqueue s url filename title tId tAdded).queue = s.queue ++ [s.heap.length] := by
  simp [enqueue]

theorem enqueue_heap (s : State) (url : String) (filename title : Option String)
    (tId tAdded : Nat) :
    (enqueue s url filename title tId tAdded).heap =
      s.heap ++ [newItem url filename title tId tAdded] := by
  simp [enqueue]

theorem enqueue_currentDownload (s : State) (url : String) (filename title : Option String)
    (tId tAdded : Nat) :
    (enqueue s url filename title tId tAdded).currentDownload = s.currentDownload := by
  simp [enqueue]

theorem enqueue_queueItems (s : State) (url : String) (filename title : Option String)
    (tId tAdded : Nat) (hv : s.valid) :
    (enqueue s url filename title tId tAdded).queueItems =
      s.queueItems ++ [newItem url filename title tId tAdded] := by
  unfold State.queueItems
  rw [enqueue_queue, List.filterMap_append]
  congr 1
  · apply List.filterMap_congr
    intro r hr
    unfold State.item
    rw [enqueue_heap, List.getElem?_append_left (hv r hr)]
  · simp [State.item, enqueue_heap]

theorem addDownload_admitted (parseUrl : String → Option String) (s : State) (url : String)
    (filename title : Option String) (tId tAdded tStart : Nat)
    (h : (addDownload parseUrl s url filename title tId tAdded tStart).2 = true) :
    (addDownload parseUrl s url filename title tId tAdded tStart).1 =
      if s.currentDownload = none then
        startNextDownload (enqueue s url filename title tId tAdded) tStart
      else enqueue s url filename title tId tAdded := by
  unfold addDownload at h ⊢
  by_cases hc : (url == "" || !isValidUrl parseUrl url) = true
  · rw [if_pos hc] at h; simp at h
  · rw [if_neg hc] at h ⊢
    cases hf : s.find (fun d => d.url == url && d.status == Status.pending) with
    | some r => rw [hf] at h; simp at h
    | none =>
      simp only [enqueue_currentDownload]
      cases hcur : s.currentDownload <;> simp

theorem find?_congr_mem {α : Type} (p q : α → Bool) (l : List α)
    (h : ∀ a ∈ l, p a = q a) : l.find? p = l.find? q := by
  induction l with
  | nil => rfl
  | cons a t ih =>
    simp only [List.find?_cons, h a (by simp)]
    rw [ih (fun b hb => h b (by simp [hb]))]

theorem beginDownload_heap (s : State) (r now : Nat) :
    (beginDownload s r now).heap =
      s.heap.modify (fun d =>
        { d with status := Status.downloading, startedAt := some now,
                 abortController := some (AbortController.controller false) }) r := by
  simp only [beginDownload, State.update, saveToStorage_heap]
  apply List.ext_getElem?
  intro x
  simp only [List.getElem?_modify]
  by_cases hx : r = x
  · simp only [hx, if_true]
    cases s.heap[x]? <;> rfl
  · simp only [hx, if_false]
    cases s.heap[x]? <;> rfl

theorem beginDownload_item (s : State) (r now x : Nat) :
    (beginDownload s r now).item x =
      if r = x then (s.item x).map (fun d =>
        { d with status := Status.downloading, startedAt := some now,
                 abortController := some (AbortController.controller false) })
      else s.item x := by
  have := update_item s r (fun d =>
    { d with status := Status.downloading, startedAt := some now,
             abortController := some (AbortController.controller false) }) x
  simp only [State.item, State.update] at this ⊢
  rw [beginDownload_heap]; exact this

theorem enqueue_item_of_lt (s : State) (url : String) (filename title : Option String)
    (tId tAdded x : Nat) (hx : x < s.heap.length) :
    (enqueue s url filename title tId tAdded).item x = s.item x := by
  unfold State.item
  rw [enqueue_heap, List.getElem?_append_left hx]

theorem enqueue_find (s : State) (url : String) (filename title : Option String)
    (tId tAdded : Nat) (p : Item → Bool) (hv : s.valid) (x : Nat) (hx : x < s.heap.length)
    (h : (enqueue s url filename title tId tAdded).find p = some x) : s.find p = some x := by
  unfold State.find at h ⊢
  rw [enqueue_queue, List.find?_append] at h
  have hcongr : List.find? (fun r => match (enqueue s url filename title tId tAdded).item r with
      | some it => p it
      | none => false) s.queue =
      List.find? (fun r => match s.item r with
      | some it => p it
      | none => false) s.queue := by
    apply find?_congr_mem
    intro r hr
    rw [enqueue_item_of_lt s url filename title tId tAdded r (hv r hr)]
  rw [hcongr] at h
  cases hs : List.find? (fun r => match s.item r with
      | some it => p it
      | none => false) s.queue with
  | some y => rw [hs] at h; simpa using h
  | none =>
    rw [hs] at h
    simp only [Option.none_or] at h
    have := List.mem_of_find?_eq_some h
    simp at this
    omega

theorem enqueue_find_of_find (s : State) (url : String) (filename title : Option String)
    (tId tAdded : Nat) (p : Item → Bool) (hv : s.valid) (x : Nat)
    (h : s.find p = some x) : (enqueue s url filename title tId tAdded).find p = some x := by
  unfold State.find at h ⊢
  rw [enqueue_queue, List.find?_append]
  have hcongr : List.find? (fun r => match (enqueue s url filename title tId tAdded).item r with
      | some it => p it
      | none => false) s.queue =
      List.find? (fun r => match s.item r with
      | some it => p it
      | none => false) s.queue := by
    apply find?_congr_mem
    intro r hr
    rw [enqueue_item_of_lt s url filename title tId tAdded r (hv r hr)]
  rw [hcongr, h]
  rfl

theorem startNextDownload_item (s : State) (now x : Nat) :
    (startNextDownload s now).item x = s.item x ∨
      s.find (fun d => d.status == Status.pending) = some x := by
  unfold startNextDownload
  split
  · left; rfl
  · cases hf : s.find (fun d => d.status == Status.pending) with
    | none => left; rfl
    | some r =>
      by_cases hrx : r = x
      · right; rw [hrx]
      · left
        simp only []
        rw [beginDownload_item, if_neg hrx]

theorem startNextDownload_of_find (s : State) (now r : Nat)
    (h : s.find (fun d => d.status == Status.pending) = some r) :
    startNextDownload s now = beginDownload s r now := by
  obtain ⟨-, before, after, hq, -⟩ := find_some_spec s _ r h
  unfold startNextDownload
  rw [if_neg (by rw [hq]; simp), h]

/-- C2, refuted as stated: the page is reloaded while the only item is downloading, so that
the item is back to pending and nothing is current; the next admitted `addDownload` appends
its item and then starts the earlier one, whose status, `startedAt` and `abortController`
change. -/
theorem addDownload_starts_earlier_item :
    (restart (run sampleParseUrl State.empty [addA])).queueItems.map Item.status =
      [Status.pending] ∧
    (restart (run sampleParseUrl State.empty [addA])).currentDownload = none ∧
    (addDownload sampleParseUrl (restart (run sampleParseUrl State.empty [addA]))
      "https://x/b.pkg" (some "b.pkg") (some "B") 2 2 2).2 = true ∧
    (addDownload sampleParseUrl (restart (run sampleParseUrl State.empty [addA]))
      "https://x/b.pkg" (some "b.pkg") (some "B") 2 2 2).1.queueItems.map Item.status =
      [Status.downloading, Status.pending] ∧
    (addDownload sampleParseUrl (restart (run sampleParseUrl State.empty [addA]))
      "https://x/b.pkg" (some "b.pkg") (some "B") 2 2 2).1.item 0 ≠
      (restart (run sampleParseUrl State.empty [addA])).item 0 := by
  decide

/-- C2, amended: every admitted `addDownload` appends exactly one new item at the end of the
queue and keeps every earlier item at its position: the append step of the call (`enqueue`,
lines 42-60) leaves the queue items equal to the old ones followed by the new item, and the
call returns with the same queue entries followed by the new one.  The new item is created
with status pending, the given url, the given filename or `game.pkg` when the filename
argument is falsy, the given title or the filename argument when the title is falsy, progress
0, downloadedBytes 0, totalBytes 0, speed 0, eta 0 and error null.  When a download is
current the call ends with the append and every earlier item keeps its fields; otherwise it
goes on with `startNextDownload`, which starts the first pending item of the queue: if that
is an earlier item, it becomes `downloading` with its `startedAt` and `abortController` set,
and every other earlier item keeps its fields. -/
theorem addDownload_appends_pending_item (parseUrl : String → Option String) (s : State)
    (url : String) (filename title : Option String) (tId tAdded tStart : Nat)
    (hv : s.valid)
    (h : (addDownload parseUrl s url filename title tId tAdded tStart).2 = true) :
    (enqueue s url filename title tId tAdded).queue = s.queue ++ [s.heap.length] ∧
    (enqueue s url filename title tId tAdded).queueItems =
      s.queueItems ++ [newItem url filename title tId tAdded] ∧
    (newItem url filename title tId tAdded).status = Status.pending ∧
    (newItem url filename title tId tAdded).url = url ∧
    (newItem url filename title tId tAdded).filename =
      (if truthy filename then jsString filename else "game.pkg") ∧
    (newItem url filename title tId tAdded).title = (if truthy title then title else filename) ∧
    (newItem url filename title tId tAdded).progress = 0 ∧
    (newItem url filename title tId tAdded).downloadedBytes = 0 ∧
    (newItem url filename title tId tAdded).totalBytes = 0 ∧
    (newItem url filename title tId tAdded).speed = 0 ∧
    (newItem url filename title tId tAdded).eta = 0 ∧
    (newItem url filename title tId tAdded).error = none ∧
    (addDownload parseUrl s url filename title tId tAdded tStart).1 =
      (if s.currentDownload = none then
        startNextDownload (enqueue s url filename title tId tAdded) tStart
      else enqueue s url filename title tId tAdded) ∧
    (addDownload parseUrl s url filename title tId tAdded tStart).1.queue =
      s.queue ++ [s.heap.length] ∧
    (s.currentDownload ≠ none →
      (addDownload parseUrl s url filename title tId tAdded tStart).1.queueItems =
        s.queueItems ++ [newItem url filename title tId tAdded]) ∧
    (∀ x, x < s.heap.length →
      (addDownload parseUrl s url filename title tId tAdded tStart).1.item x = s.item x ∨
        (s.currentDownload = none ∧
          s.find (fun d => d.status == Status.pending) = some x)) ∧
    (∀ x, x < s.heap.length → s.currentDownload = none →
      s.find (fun d => d.status == Status.pending) = some x →
      (addDownload parseUrl s url filename title tId tAdded tStart).1.item x =
        (s.item x).map (fun d =>
          { d with status := Status.downloading, startedAt := some tStart,
                   abortController := some (AbortController.controller false) })) := by
  have hadm := addDownload_admitted parseUrl s url filename title tId tAdded tStart h
  refine ⟨enqueue_queue .., enqueue_queueItems _ _ _ _ _ _ hv, rfl, rfl, rfl, rfl, rfl, rfl,
    rfl, rfl, rfl, rfl, hadm, ?_, ?_, ?_, ?_⟩
  · rw [hadm]
    split
    · rw [startNextDownload_queue, enqueue_queue]
    · exact enqueue_queue ..
  · intro hcur
    rw [hadm, if_neg hcur]
    exact enqueue_queueItems _ _ _ _ _ _ hv
  · intro x hx
    rw [hadm]
    by_cases hcur : s.currentDownload = none
    · rw [if_pos hcur]
      rcases startNextDownload_item (enqueue s url filename title tId tAdded) tStart x
        with hsame | hpick
      · left; rw [hsame]; exact enqueue_item_of_lt s url filename title tId tAdded x hx
      · right
        exact ⟨hcur, enqueue_find s url filename title tId tAdded _ hv x hx hpick⟩
    · rw [if_neg hcur]
      left; exact enqueue_item_of_lt s url filename title tId tAdded x hx
  · intro x hx hcur hfind
    rw [hadm, if_pos hcur,
      startNextDownload_of_find (enqueue s url filename title tId tAdded) tStart x
        (enqueue_find_of_find s url filename title tId tAdded _ hv x hfind),
      beginDownload_item, if_pos rfl, enqueue_item_of_lt s url filename title tId tAdded x hx]

/-- A witness for the amended C2: the call made after a reload of the page that found the
only item downloading; the new item is appended, with the default filename, and the earlier
item is started. -/
theorem addDownload_appends_pending_item_witness :
    (restart (run sampleParseUrl State.empty [addA])).valid ∧
    (addDownload sampleParseUrl (restart (run sampleParseUrl State.empty [addA]))
      "https://x/b.pkg" none none 2 2 2).2 = true ∧
    (addDownload sampleParseUrl (restart (run sampleParseUrl State.empty [addA]))
      "https://x/b.pkg" none none 2 2 2).1.queue = [0, 1] ∧
    (newItem "https://x/b.pkg" none none 2 2).filename = "game.pkg" ∧
    ((addDownload sampleParseUrl (restart (run sampleParseUrl State.empty [addA]))
      "https://x/b.pkg" none none 2 2 2).1.item 0).map Item.status =
      some Status.downloading := by
  have hw := addDownload_appends_pending_item sampleParseUrl
    (restart (run sampleParseUrl State.empty [addA])) "https://x/b.pkg" none none 2 2 2
    (by decide) (by decide)
  refine ⟨by decide, by decide, hw.2.2.2.2.2.2.2.2.2.2.2.2.2.1, hw.2.2.2.2.1, ?_⟩
  rw [hw.2.2.2.2.2.2.2.2.2.2.2.2.2.2.2.2 0 (by decide) (by decide) (by decide)]
  decide

/-! ## C3 -/

theorem item_eq_some_lt (s : State) (r : Nat) (d : Item) (h : s.item r = some d) :
    r < s.heap.length := by
  unfold State.item at h
  by_contra hlt
  rw [List.getElem?_eq_none (by omega)] at h
  exact absurd h (by simp)

theorem item_isSome_of_lt (s : State) (r : Nat) (h : r < s.heap.length) :
    ∃ d, s.item r = some d := by
  unfold State.item
  exact ⟨s.heap[r], List.getElem?_eq_getElem h⟩

theorem range_split (k n : Nat) (h : k < n) :
    ∃ after, List.range n = List.range k ++ k :: after := by
  obtain ⟨m, rfl⟩ : ∃ m, n = k + (m + 1) := ⟨n - k - 1, by omega⟩
  refine ⟨List.map (fun x => k + x) (List.map Nat.succ (List.range m)), ?_⟩
  rw [List.range_add, List.range_succ_eq_map]
  simp

theorem Fifo.find_pending (s : State) (h : Fifo s) :
    s.find (fun d => d.status == Status.pending) =
      if s.downloadCalls.length < s.heap.length then some s.downloadCalls.length else none := by
  split
  · rename_i hlt
    obtain ⟨d, hd⟩ := item_isSome_of_lt s _ hlt
    have hp := h.waiting _ d (le_refl _) hd
    obtain ⟨after, hsplit⟩ := range_split _ _ hlt
    unfold State.find
    rw [List.find?_eq_some]
    refine ⟨by simp [hd, hp], List.range s.downloadCalls.length, after, ?_, ?_⟩
    · rw [h.queue_eq, hsplit]
    · intro a ha
      rw [List.mem_range] at ha
      cases hda : s.item a with
      | none => simp
      | some da =>
        have := h.started a da ha hda
        simpa using this
  · rename_i hge
    rw [find_eq_none_iff]
    intro r hr d hd
    rw [h.queue_eq, List.mem_range] at hr
    have := h.started r d (by have := h.calls_le; omega) hd
    simpa using this

theorem Fifo.of_same (s t : State) (h : Fifo s) (hheap : t.heap = s.heap)
    (hq : t.queue = s.queue) (hc : t.downloadCalls = s.downloadCalls)
    (ht : ∀ r ∈ t.transfers, r ∈ s.transfers) : Fifo t := by
  have hitem : ∀ r, t.item r = s.item r := by intro r; unfold State.item; rw [hheap]
  refine ⟨?_, ?_, ?_, ?_, ?_, ?_⟩
  · rw [hq, hheap]; exact h.queue_eq
  · rw [hc]; exact h.calls_eq
  · rw [hc, hheap]; exact h.calls_le
  · intro r d hr hd; rw [hc] at hr; rw [hitem] at hd; exact h.started r d hr hd
  · intro r d hr hd; rw [hc] at hr; rw [hitem] at hd; exact h.waiting r d hr hd
  · intro r hr; rw [hc]; exact h.running r (ht r hr)

theorem Fifo.of_update (s t : State) (h : Fifo s) (r : Nat) (f : Item → Item)
    (hr : r < s.downloadCalls.length) (hf : ∀ d, (f d).status ≠ Status.pending)
    (hheap : t.heap = s.heap.modify f r)
    (hq : t.queue = s.queue) (hc : t.downloadCalls = s.downloadCalls)
    (ht : ∀ x ∈ t.transfers, x ∈ s.transfers) : Fifo t := by
  have hitem : ∀ x, t.item x = if r = x then (s.item x).map f else s.item x := by
    intro x
    have := update_item s r f x
    simp only [State.item, State.update] at this ⊢
    rw [hheap]; exact this
  refine ⟨?_, ?_, ?_, ?_, ?_, ?_⟩
  · rw [hq, hheap, List.length_modify]; exact h.queue_eq
  · rw [hc]; exact h.calls_eq
  · rw [hc, hheap, List.length_modify]; exact h.calls_le
  · intro x d hx hd
    rw [hc] at hx; rw [hitem] at hd
    split at hd
    · cases hsx : s.item x with
      | none => simp [hsx] at hd
      | some d0 =>
        simp [hsx] at hd
        rw [← hd]; exact hf d0
    · exact h.started x d hx hd
  · intro x d hx hd
    rw [hc] at hx; rw [hitem] at hd
    rw [if_neg (by omega)] at hd
    exact h.waiting x d hx hd
  · intro x hx; rw [hc]; exact h.running x (ht x hx)

theorem Fifo.startNextDownload (s : State) (now : Nat) (h : Fifo s) :
    Fifo (startNextDownload s now) := by
  unfold DownloadManager.startNextDownload
  split
  · exact Fifo.of_same s _ h rfl rfl rfl (fun r hr => hr)
  · rw [h.find_pending]
    by_cases hlt : s.downloadCalls.length < s.heap.length
    · rw [if_pos hlt]
      simp only
      have hitem : ∀ x, (beginDownload s s.downloadCalls.length now).item x =
          if s.downloadCalls.length = x then (s.item x).map (fun d =>
            { d with status := Status.downloading, startedAt := some now,
                     abortController := some (AbortController.controller false) })
          else s.item x := by
        intro x
        have := update_item s s.downloadCalls.length (fun d =>
            { d with status := Status.downloading, startedAt := some now,
                     abortController := some (AbortController.controller false) }) x
        simp only [State.item, State.update] at this ⊢
        rw [beginDownload_heap]; exact this
      have hcalls : (beginDownload s s.downloadCalls.length now).downloadCalls =
          s.downloadCalls ++ [s.downloadCalls.length] := by
        simp [beginDownload, State.update, saveToStorage]
        split <;> rfl
      have htr : (beginDownload s s.downloadCalls.length now).transfers =
          s.transfers ++ [s.downloadCalls.length] := by
        simp [beginDownload, State.update, saveToStorage]
        split <;> rfl
      refine ⟨?_, ?_, ?_, ?_, ?_, ?_⟩
      · rw [beginDownload_queue, beginDownload_heap, List.length_modify]; exact h.queue_eq
      · rw [hcalls, List.length_append, List.length_singleton, List.range_succ, ← h.calls_eq]
      · rw [hcalls, List.length_append, List.length_singleton, beginDownload_heap,
          List.length_modify]
        omega
      · intro x d hx hd
        rw [hcalls, List.length_append, List.length_singleton] at hx
        rw [hitem] at hd
        split at hd
        · cases hsx : s.item x with
          | none => simp [hsx] at hd
          | some d0 =>
            simp [hsx] at hd
            rw [← hd]; simp
        · exact h.started x d (by omega) hd
      · intro x d hx hd
        rw [hcalls, List.length_append, List.length_singleton] at hx
        rw [hitem, if_neg (by omega)] at hd
        exact h.waiting x d (by omega) hd
      · intro x hx
        rw [htr] at hx
        rw [hcalls, List.length_append, List.length_singleton]
        rcases List.mem_append.1 hx with hx | hx
        · have := h.running x hx; omega
        · simp at hx; omega
    · rw [if_neg hlt]
      exact h

theorem Fifo.enqueue (s : State) (url : String) (filename title : Option String)
    (tId tAdded : Nat) (h : Fifo s) : Fifo (enqueue s url filename title tId tAdded) := by
  have hcalls : (DownloadManager.enqueue s url filename title tId tAdded).downloadCalls =
      s.downloadCalls := by
    simp [DownloadManager.enqueue, State.showToast]
  have htr : (DownloadManager.enqueue s url filename title tId tAdded).transfers =
      s.transfers := by
    simp [DownloadManager.enqueue, State.showToast]
  have hitem : ∀ x, (DownloadManager.enqueue s url filename title tId tAdded).item x =
      (s.heap ++ [newItem url filename title tId tAdded])[x]? := by
    intro x; unfold State.item; rw [enqueue_heap]
  refine ⟨?_, ?_, ?_, ?_, ?_, ?_⟩
  · rw [enqueue_queue, enqueue_heap, List.length_append, List.length_singleton,
      List.range_succ, ← h.queue_eq]
  · rw [hcalls]; exact h.calls_eq
  · rw [hcalls, enqueue_heap, List.length_append, List.length_singleton]
    have := h.calls_le; omega
  · intro x d hx hd
    rw [hcalls] at hx
    rw [hitem, List.getElem?_append_left (by have := h.calls_le; omega)] at hd
    exact h.started x d hx hd
  · intro x d hx hd
    rw [hcalls] at hx
    rw [hitem] at hd
    by_cases hlt : x < s.heap.length
    · rw [List.getElem?_append_left hlt] at hd
      exact h.waiting x d hx hd
    · rw [List.getElem?_append_right (by omega)] at hd
      by_cases hx0 : x - s.heap.length = 0
      · rw [hx0] at hd
        simp at hd
        rw [← hd]; rfl
      · obtain ⟨m, hm⟩ : ∃ m, x - s.heap.length = m + 1 := ⟨x - s.heap.length - 1, by omega⟩
        rw [hm] at hd
        simp at hd
  · intro x hx
    rw [htr] at hx; rw [hcalls]
    exact h.running x hx

theorem Fifo.addDownload (parseUrl : String → Option String) (s : State) (url : String)
    (filename title : Option String) (tId tAdded tStart : Nat) (h : Fifo s) :
    Fifo (addDownload parseUrl s url filename title tId tAdded tStart).1 := by
  cases hres : (DownloadManager.addDownload parseUrl s url filename title tId tAdded tStart).2 with
  | false =>
    obtain ⟨m, k, hmk⟩ := addDownload_rejected parseUrl s url filename title tId tAdded tStart hres
    rw [hmk]
    exact Fifo.of_same s _ h rfl rfl rfl (fun r hr => hr)
  | true =>
    rw [addDownload_admitted parseUrl s url filename title tId tAdded tStart hres]
    split
    · exact Fifo.startNextDownload _ _ (Fifo.enqueue s url filename title tId tAdded h)
    · exact Fifo.enqueue s url filename title tId tAdded h

theorem Fifo.transferSucceeded (s : State) (r : Nat) (res : TransferResult) (now : Nat)
    (h : Fifo s) : Fifo (transferSucceeded s r res now) := by
  unfold DownloadManager.transferSucceeded
  split
  · exact h
  · split
    · rename_i hen
      refine Fifo.of_update s _ h r (fun d =>
        { d with
          totalBytes := res.totalBytes
          downloadedBytes := res.downloadedBytes
          speed := res.speed
          eta := res.eta
          downloadedBlob := some (Blob.blob res.blobSize)
          downloadedUrl := some "blob:"
          status := Status.completed
          completedAt := some now
          progress := 100 }) (h.running r hen.1) ?_ ?_ ?_ ?_ ?_
      rotate_left
      · simp [State.showToast, State.update]
      · simp [State.showToast]
      · simp [State.showToast]
      · intro x hx
        simp [State.showToast] at hx
        exact List.mem_of_mem_erase hx
      · intro d; simp
    · exact h

theorem Fifo.transferFailed (s : State) (r : Nat) (message : String) (h : Fifo s) :
    Fifo (transferFailed s r message) := by
  unfold DownloadManager.transferFailed
  split
  · rename_i hen
    refine Fifo.of_update s _ h r
      (fun d => { d with status := Status.error, error := some message })
      (h.running r hen) ?_ ?_ ?_ ?_ ?_
    rotate_left
    · simp [State.showToast, State.update]
    · simp [State.showToast]
    · simp [State.showToast]
    · intro x hx
      simp [State.showToast] at hx
      exact List.mem_of_mem_erase hx
    · intro d; simp
  · exact h

theorem Fifo.installSettled (s : State) (r : Nat) (o : InstallOutcome) (h : Fifo s) :
    Fifo (installSettled s r o) := by
  unfold DownloadManager.installSettled
  split
  · exact h
  · split
    · refine Fifo.of_same s _ h ?_ ?_ ?_ ?_
      · simp only []; split <;> rfl
      · simp only []; split <;> rfl
      · simp only []; split <;> rfl
      · intro x hx
        have : x ∈ s.transfers := by
          revert hx
          simp only []
          split <;> exact id
        exact this
    · exact h

theorem Fifo.timerFired (s : State) (i now : Nat) (h : Fifo s) :
    Fifo (timerFired s i now) := by
  unfold DownloadManager.timerFired
  split
  · exact Fifo.startNextDownload _ _ (Fifo.of_same s _ h rfl rfl rfl (fun r hr => hr))
  · exact h

theorem Fifo.step (parseUrl : String → Option String) (s : State) (e : Event)
    (he : e.isScheduling = true) (h : Fifo s) : Fifo (step parseUrl s e) := by
  cases e with
  | addDownload url filename title tId tAdded tStart =>
    exact Fifo.addDownload parseUrl s url filename title tId tAdded tStart h
  | transferSucceeded r res now => exact Fifo.transferSucceeded s r res now h
  | transferFailed r message => exact Fifo.transferFailed s r message h
  | installSettled r o => exact Fifo.installSettled s r o h
  | timerFired i now => exact Fifo.timerFired s i now h
  | cancelDownload id => simp [Event.isScheduling] at he
  | cancelCurrentDownload => simp [Event.isScheduling] at he
  | removeFromQueue id => simp [Event.isScheduling] at he
  | clearQueue => simp [Event.isScheduling] at he

theorem Fifo.empty : Fifo State.empty := by
  refine ⟨rfl, rfl, le_refl _, ?_, ?_, ?_⟩
  · intro r d hr; simp [State.empty] at hr
  · intro r d _ hd; simp [State.empty, State.item] at hd
  · intro r hr; simp [State.empty] at hr

theorem Fifo.run (parseUrl : String → Option String) (es : List Event)
    (hes : ∀ e ∈ es, e.isScheduling = true) : Fifo (run parseUrl State.empty es) := by
  induction es using List.reverseRecOn with
  | nil => exact Fifo.empty
  | append_singleton l a ih =>
    unfold DownloadManager.run
    rw [List.foldl_concat]
    exact Fifo.step parseUrl _ a (hes a (by simp)) (ih (fun e he => hes e (by simp [he])))

theorem modify_map_url (l : List Item) (f : Item → Item) (r : Nat)
    (hf : ∀ d, (f d).url = d.url) :
    (l.modify f r).map Item.url = l.map Item.url := by
  apply List.ext_getElem?
  intro x
  simp only [List.getElem?_map, List.getElem?_modify]
  cases l[x]? with
  | none => rfl
  | some d =>
    by_cases hx : r = x
    · simp [hx, hf]
    · simp [hx]

theorem startNextDownload_urls (s : State) (now : Nat) :
    (startNextDownload s now).heap.map Item.url = s.heap.map Item.url := by
  unfold startNextDownload
  split
  · rfl
  · split
    · rfl
    · rw [beginDownload_heap]
      exact modify_map_url _ _ _ (fun d => rfl)

theorem mem_heap_of_item (s : State) (r : Nat) (d : Item) (h : s.item r = some d) :
    d ∈ s.heap := by
  unfold State.item at h
  obtain ⟨hlt, hget⟩ := List.getElem?_eq_some.1 h
  rw [← hget]
  exact List.getElem_mem hlt

theorem addDownload_urls (parseUrl : String → Option String) (s : State) (url : String)
    (filename title : Option String) (tId tAdded tStart : Nat)
    (hu : url ≠ "") (hv : isValidUrl parseUrl url = true) (hnew : url ∉ s.heap.map Item.url) :
    (addDownload parseUrl s url filename title tId tAdded tStart).1.heap.map Item.url =
      s.heap.map Item.url ++ [url] := by
  have hadm : (addDownload parseUrl s url filename title tId tAdded tStart).2 = true := by
    by_contra hfalse
    have hfalse' : (addDownload parseUrl s url filename title tId tAdded tStart).2 = false := by
      simpa using hfalse
    rcases (addDownload_false_iff parseUrl s url filename title tId tAdded tStart).1 hfalse'
      with h | h | ⟨r, _, d, hd, hurl, _⟩
    · exact hu h
    · simp [hv] at h
    · apply hnew
      rw [← hurl]
      exact List.mem_map_of_mem _ (mem_heap_of_item s r d hd)
  rw [addDownload_admitted parseUrl s url filename title tId tAdded tStart hadm]
  split
  · rw [startNextDownload_urls, enqueue_heap]
    simp [newItem]
  · rw [enqueue_heap]
    simp [newItem]

theorem step_urls (parseUrl : String → Option String) (s : State) (e : Event)
    (he : e.isScheduling = true)
    (hadd : ∀ u, e.addedUrl = some u →
      u ≠ "" ∧ isValidUrl parseUrl u = true ∧ u ∉ s.heap.map Item.url) :
    (step parseUrl s e).heap.map Item.url = s.heap.map Item.url ++ e.addedUrl.toList := by
  cases e with
  | addDownload url filename title tId tAdded tStart =>
    obtain ⟨hu, hv, hnew⟩ := hadd url rfl
    simpa [step, Event.addedUrl] using
      addDownload_urls parseUrl s url filename title tId tAdded tStart hu hv hnew
  | transferSucceeded r res now =>
    simp only [step, Event.addedUrl, Option.toList, List.append_nil]
    unfold DownloadManager.transferSucceeded
    split
    · rfl
    · split
      · simp only [State.showToast, saveToStorage_heap, State.update]
        exact modify_map_url _ _ _ (fun d => rfl)
      · rfl
  | transferFailed r message =>
    simp only [step, Event.addedUrl, Option.toList, List.append_nil]
    unfold DownloadManager.transferFailed
    split
    · simp only [State.showToast, saveToStorage_heap, State.update]
      exact modify_map_url _ _ _ (fun d => rfl)
    · rfl
  | installSettled r o =>
    simp only [step, Event.addedUrl, Option.toList, List.append_nil]
    unfold DownloadManager.installSettled
    split
    · rfl
    · split
      · simp only []
        split <;> rfl
      · rfl
  | timerFired i now =>
    simp only [step, Event.addedUrl, Option.toList, List.append_nil]
    unfold DownloadManager.timerFired
    split
    · rw [startNextDownload_urls]
    · rfl
  | cancelDownload id => simp [Event.isScheduling] at he
  | cancelCurrentDownload => simp [Event.isScheduling] at he
  | removeFromQueue id => simp [Event.isScheduling] at he
  | clearQueue => simp [Event.isScheduling] at he

theorem run_urls (parseUrl : String → Option String) (es : List Event)
    (hes : ∀ e ∈ es, e.isScheduling = true)
    (hnodup : (es.filterMap Event.addedUrl).Nodup)
    (hvalid : ∀ u ∈ es.filterMap Event.addedUrl, u ≠ "" ∧ isValidUrl parseUrl u = true) :
    (run parseUrl State.empty es).heap.map Item.url = es.filterMap Event.addedUrl := by
  induction es using List.reverseRecOn with
  | nil => rfl
  | append_singleton l a ih =>
    rw [List.filterMap_append] at hnodup hvalid ⊢
    have hl := ih (fun e he => hes e (by simp [he])) (List.nodup_append.1 hnodup).1
      (fun u hu => hvalid u (by simp [hu]))
    unfold DownloadManager.run at hl ⊢
    rw [List.foldl_concat, step_urls parseUrl _ a (hes a (by simp)), hl]
    · cases ha : a.addedUrl <;> simp [ha]
    · intro u hua
      have hmem : u ∈ List.filterMap Event.addedUrl [a] := by simp [hua]
      obtain ⟨h1, h2⟩ := hvalid u (List.mem_append_right _ hmem)
      refine ⟨h1, h2, ?_⟩
      rw [hl]
      intro hin
      exact (List.nodup_append.1 hnodup).2.2 hin hmem

theorem filterMap_range_getElem (l : List Item) :
    (List.range l.length).filterMap (fun i => l[i]?) = l := by
  induction l using List.reverseRecOn with
  | nil => rfl
  | append_singleton l a ih =>
    rw [List.length_append, List.length_singleton, List.range_succ, List.filterMap_append]
    congr 1
    · have : List.filterMap (fun i => (l ++ [a])[i]?) (List.range l.length) =
          List.filterMap (fun i => l[i]?) (List.range l.length) := by
        apply List.filterMap_congr
        intro i hi
        rw [List.mem_range] at hi
        exact List.getElem?_append_left hi
      rw [this, ih]
    · simp

theorem Fifo.queueItems (s : State) (h : Fifo s) : s.queueItems = s.heap := by
  unfold State.queueItems
  rw [h.queue_eq]
  exact filterMap_range_getElem s.heap

theorem beginDownload_currentDownload (s : State) (r now : Nat) :
    (beginDownload s r now).currentDownload = some r := by
  simp [beginDownload]

/-- C3: while the manager is fed with `addDownload` calls only (the calls interleaved in any
way with the outcomes of the transfers and installs and with the settle timers), the items
are handed to `downloadFile`, that is moved to downloading, in the order of the queue
(`downloadCalls` is an initial segment of `queue`), and when the urls of the calls are valid
and pairwise distinct every call is admitted and the queue lists the urls in the order of the
calls.  Each `startNextDownload` step that finds a pending item picks the one with the
smallest queue index: the item is pending, no item before it in the queue is pending, and the
step makes it current and downloading. -/
theorem startNextDownload_fifo (parseUrl : String → Option String) (es : List Event)
    (hes : ∀ e ∈ es, e.isScheduling = true) :
    (run parseUrl State.empty es).downloadCalls <+: (run parseUrl State.empty es).queue ∧
    ((es.filterMap Event.addedUrl).Nodup →
      (∀ u ∈ es.filterMap Event.addedUrl, u ≠ "" ∧ isValidUrl parseUrl u = true) →
      (run parseUrl State.empty es).queueItems.map Item.url = es.filterMap Event.addedUrl) ∧
    (∀ (s : State) (now r : Nat), s.find (fun d => d.status == Status.pending) = some r →
      (∃ before after, s.queue = before ++ r :: after ∧
        ∀ x ∈ before, ∀ d, s.item x = some d → d.status ≠ Status.pending) ∧
      (∃ d, s.item r = some d ∧ d.status = Status.pending) ∧
      (startNextDownload s now).currentDownload = some r ∧
      (startNextDownload s now).downloadCalls = s.downloadCalls ++ [r] ∧
      ∃ d, (startNextDownload s now).item r = some d ∧ d.status = Status.downloading) := by
  have hfifo := Fifo.run parseUrl es hes
  refine ⟨?_, ?_, ?_⟩
  · rw [hfifo.queue_eq, hfifo.calls_eq]
    have hle := hfifo.calls_le
    rw [List.prefix_iff_eq_take, List.length_range, List.take_range, min_eq_left hle]
  · intro hnodup hvalid
    rw [hfifo.queueItems]
    exact run_urls parseUrl es hes hnodup hvalid
  · intro s now r hfind
    obtain ⟨⟨d, hd, hp⟩, before, after, hq, hbefore⟩ := find_some_spec s _ r hfind
    have hp' : d.status = Status.pending := by simpa using hp
    refine ⟨⟨before, after, hq, ?_⟩, ⟨d, hd, hp'⟩, ?_, ?_, ?_⟩
    · intro x hx dx hdx
      have := hbefore x hx dx hdx
      simpa using this
    · rw [startNextDownload_of_find s now r hfind, beginDownload_currentDownload]
    · rw [startNextDownload_of_find s now r hfind]
      simp [beginDownload]
    · rw [startNextDownload_of_find s now r hfind, beginDownload_item, if_pos rfl, hd]
      exact ⟨_, rfl, rfl⟩

/-- A witness for C3: two calls, the first transfer and its install, then the settle timer. -/
theorem startNextDownload_fifo_witness :
    (run sampleParseUrl State.empty
        [addA, addB, Event.transferSucceeded 0 fullTransfer 5, Event.installSettled 0 installOk,
          Event.timerFired 0 6]).downloadCalls = [0, 1] ∧
    (run sampleParseUrl State.empty
        [addA, addB, Event.transferSucceeded 0 fullTransfer 5, Event.installSettled 0 installOk,
          Event.timerFired 0 6]).queueItems.map Item.url =
      ["https://x/a.pkg", "https://x/b.pkg"] := by
  have hw := startNextDownload_fifo sampleParseUrl
    [addA, addB, Event.transferSucceeded 0 fullTransfer 5, Event.installSettled 0 installOk,
      Event.timerFired 0 6] (by decide)
  exact ⟨by decide, hw.2.1 (by decide) (by decide)⟩

/-! ## C4 -/

/-- C4, evaluated: after `addDownload(a)`, the end of its transfer and install (which leaves
a 500 ms timer), `clearQueue()`, `addDownload(b)` (started at once, nothing being current)
and `addDownload(c)`, the stale timer fires and `startNextDownload` starts `c` while `b` is
still being transferred: two items have status downloading and two transfers are active. -/
theorem two_items_downloading :
    (run sampleParseUrl State.empty
        [addA, Event.transferSucceeded 0 fullTransfer 5, Event.installSettled 0 installOk,
          Event.clearQueue, addB, addC, Event.timerFired 0 6]).count Status.downloading = 2 ∧
    (run sampleParseUrl State.empty
        [addA, Event.transferSucceeded 0 fullTransfer 5, Event.installSettled 0 installOk,
          Event.clearQueue, addB, addC, Event.timerFired 0 6]).transfers = [1, 2] ∧
    (run sampleParseUrl State.empty
        [addA, Event.transferSucceeded 0 fullTransfer 5, Event.installSettled 0 installOk,
          Event.clearQueue, addB, addC]).count Status.downloading = 1 := by
  decide

/-! ## C5 -/

/-- C5, evaluated: after `addDownload(a)`, the end of its transfer and install and the firing
of the settle timer, the queue is idle (nothing downloading, no transfer, no timer) but
`currentDownload` still holds the completed item; the admitted `addDownload(b)` therefore
does not call `startNextDownload`: `b` stays pending and nothing is left to start it. -/
theorem idle_addDownload_does_not_start :
    (run sampleParseUrl State.empty
        [addA, Event.transferSucceeded 0 fullTransfer 5, Event.installSettled 0 installOk,
          Event.timerFired 0 6]).count Status.downloading = 0 ∧
    (run sampleParseUrl State.empty
        [addA, Event.transferSucceeded 0 fullTransfer 5, Event.installSettled 0 installOk,
          Event.timerFired 0 6]).timers = [] ∧
    (run sampleParseUrl State.empty
        [addA, Event.transferSucceeded 0 fullTransfer 5, Event.installSettled 0 installOk,
          Event.timerFired 0 6]).statusOf 0 = some Status.completed ∧
    (run sampleParseUrl State.empty
        [addA, Event.transferSucceeded 0 fullTransfer 5, Event.installSettled 0 installOk,
          Event.timerFired 0 6]).currentDownload = some 0 ∧
    (addDownload sampleParseUrl
        (run sampleParseUrl State.empty
          [addA, Event.transferSucceeded 0 fullTransfer 5, Event.installSettled 0 installOk,
            Event.timerFired 0 6])
        "https://x/b.pkg" (some "b.pkg") (some "B") 7 7 7).2 = true ∧
    (addDownload sampleParseUrl
        (run sampleParseUrl State.empty
          [addA, Event.transferSucceeded 0 fullTransfer 5, Event.installSettled 0 installOk,
            Event.timerFired 0 6])
        "https://x/b.pkg" (some "b.pkg") (some "B") 7 7 7).1.statusOf 1 = some Status.pending ∧
    (addDownload sampleParseUrl
        (run sampleParseUrl State.empty
          [addA, Event.transferSucceeded 0 fullTransfer 5, Event.installSettled 0 installOk,
            Event.timerFired 0 6])
        "https://x/b.pkg" (some "b.pkg") (some "B") 7 7 7).1.count Status.downloading = 0 ∧
    (addDownload sampleParseUrl
        (run sampleParseUrl State.empty
          [addA, Event.transferSucceeded 0 fullTransfer 5, Event.installSettled 0 installOk,
            Event.timerFired 0 6])
        "https://x/b.pkg" (some "b.pkg") (some "B") 7 7 7).1.transfers = [] ∧
    (addDownload sampleParseUrl
        (run sampleParseUrl State.empty
          [addA, Event.transferSucceeded 0 fullTransfer 5, Event.installSettled 0 installOk,
            Event.timerFired 0 6])
        "https://x/b.pkg" (some "b.pkg") (some "B") 7 7 7).1.timers = [] := by
  decide

/-! ## C6 -/

/-- C6, refuted as stated: from the empty, idle manager, the second `addDownload` of
`https://x/a.pkg`, made before the first transfer has produced a result, does not return
false with a queue of length 1: it returns true and the queue has length 2. -/
theorem second_addDownload_not_rejected :
    ¬ ((addDownload sampleParseUrl
          (addDownload sampleParseUrl State.empty "https://x/a.pkg" (some "a.pkg") (some "A")
            1 1 1).1
          "https://x/a.pkg" (some "a.pkg") (some "A") 2 2 2).2 = false ∧
        (addDownload sampleParseUrl
          (addDownload sampleParseUrl State.empty "https://x/a.pkg" (some "a.pkg") (some "A")
            1 1 1).1
          "https://x/a.pkg" (some "a.pkg") (some "A") 2 2 2).1.queue.length = 1) := by
  decide

/-- C6, amended: from the empty, idle manager the first `addDownload` of `https://x/a.pkg` is
admitted and returns with its item already downloading (nothing was current, so
`startNextDownload` ran); the second call with the same url, made before the first transfer
has produced a result, finds no pending item with that url: it returns true and the queue
length becomes 2, the second item being pending. -/
theorem second_addDownload_admitted (parseUrl : String → Option String)
    (filename1 title1 filename2 title2 : Option String) (a1 b1 c1 a2 b2 c2 : Nat)
    (hparse : parseUrl "https://x/a.pkg" = some "https:") :
    (addDownload parseUrl State.empty "https://x/a.pkg" filename1 title1 a1 b1 c1).2 = true ∧
    (addDownload parseUrl State.empty "https://x/a.pkg" filename1 title1 a1 b1 c1).1.queue.length
      = 1 ∧
    (addDownload parseUrl State.empty "https://x/a.pkg" filename1 title1 a1 b1 c1).1.statusOf 0
      = some Status.downloading ∧
    (addDownload parseUrl
      (addDownload parseUrl State.empty "https://x/a.pkg" filename1 title1 a1 b1 c1).1
      "https://x/a.pkg" filename2 title2 a2 b2 c2).2 = true ∧
    (addDownload parseUrl
      (addDownload parseUrl State.empty "https://x/a.pkg" filename1 title1 a1 b1 c1).1
      "https://x/a.pkg" filename2 title2 a2 b2 c2).1.queue.length = 2 ∧
    (addDownload parseUrl
      (addDownload parseUrl State.empty "https://x/a.pkg" filename1 title1 a1 b1 c1).1
      "https://x/a.pkg" filename2 title2 a2 b2 c2).1.statusOf 1 = some Status.pending := by
  have hv : isValidUrl parseUrl "https://x/a.pkg" = true := by
    simp [isValidUrl, hparse]
  have hne : ("https://x/a.pkg" == "") = false := by decide
  have h1 : addDownload parseUrl State.empty "https://x/a.pkg" filename1 title1 a1 b1 c1 =
      (beginDownload (enqueue State.empty "https://x/a.pkg" filename1 title1 a1 b1) 0 c1,
        true) := by
    simp [addDownload, hv, hne, State.find, State.empty, enqueue, saveToStorage,
      State.showToast, startNextDownload, State.item, newItem]
  rw [h1]
  have h2 : addDownload parseUrl
      (beginDownload (enqueue State.empty "https://x/a.pkg" filename1 title1 a1 b1) 0 c1)
      "https://x/a.pkg" filename2 title2 a2 b2 c2 =
      (enqueue (beginDownload (enqueue State.empty "https://x/a.pkg" filename1 title1 a1 b1)
        0 c1) "https://x/a.pkg" filename2 title2 a2 b2, true) := by
    simp [addDownload, hv, hne, State.find, State.empty, enqueue, saveToStorage,
      State.showToast, beginDownload, State.update, State.item, newItem, List.modify]
  rw [h2]
  refine ⟨rfl, ?_, ?_, rfl, ?_, ?_⟩
  · simp [enqueue, State.empty]
  · unfold State.statusOf
    rw [beginDownload_item, if_pos rfl]
    simp [State.item, enqueue_heap, State.empty]
  · simp [enqueue, State.empty]
  · simp [State.statusOf, enqueue, State.empty, State.item, newItem, beginDownload,
      State.update, saveToStorage, State.showToast]

/-- A witness for the amended C6, with the sample parser. -/
theorem second_addDownload_admitted_witness :
    sampleParseUrl "https://x/a.pkg" = some "https:" ∧
    (addDownload sampleParseUrl
      (addDownload sampleParseUrl State.empty "https://x/a.pkg" (some "a.pkg") (some "A")
        1 1 1).1
      "https://x/a.pkg" (some "a.pkg") (some "A") 2 2 2).2 = true ∧
    (addDownload sampleParseUrl
      (addDownload sampleParseUrl State.empty "https://x/a.pkg" (some "a.pkg") (some "A")
        1 1 1).1
      "https://x/a.pkg" (some "a.pkg") (some "A") 2 2 2).1.queue.length = 2 := by
  have hw := second_addDownload_admitted sampleParseUrl (some "a.pkg") (some "A")
    (some "a.pkg") (some "A") 1 1 1 2 2 2 (by decide)
  exact ⟨by decide, hw.2.2.2.1, hw.2.2.2.2.1⟩

/-! ## C7 -/

/-- C7, evaluated: with `a` downloading and current, `cancelCurrentDownload()` (and
`cancelDownload` with the id of `a`) finds no item, since `activeDownloads` is empty and the
queue is searched for pending items only, and throws a `TypeError` at `item.id`: the state is
left as it was, the controller of `a` is not aborted and `a` is still downloading.  When the
transfer then ends, the payload of `a` is passed to `installFromBlob`. -/
theorem cancel_of_active_download_throws :
    (step sampleParseUrl State.empty addA).statusOf 0 = some Status.downloading ∧
    (step sampleParseUrl State.empty addA).currentDownload = some 0 ∧
    (cancelCurrentDownload (step sampleParseUrl State.empty addA)).2 =
      some "TypeError: Cannot read properties of undefined (reading id)" ∧
    cancelDownload (step sampleParseUrl State.empty addA) 1 =
      cancelCurrentDownload (step sampleParseUrl State.empty addA) ∧
    (cancelCurrentDownload (step sampleParseUrl State.empty addA)).1 =
      step sampleParseUrl State.empty addA ∧
    ((cancelCurrentDownload (step sampleParseUrl State.empty addA)).1.item 0).map
      Item.abortController = some (some (AbortController.controller false)) ∧
    (cancelCurrentDownload (step sampleParseUrl State.empty addA)).1.statusOf 0 =
      some Status.downloading ∧
    (transferSucceeded (cancelCurrentDownload (step sampleParseUrl State.empty addA)).1 0
      fullTransfer 5).installCalls = [0] := by
  decide

/-! ## C8 -/

/-- C8, refuted as stated: with `a` downloading and `b` pending, `cancelDownload` with the id
of `b` returns normally and `b` is still in the queue, still pending. -/
theorem cancel_of_pending_keeps_item :
    (run sampleParseUrl State.empty [addA, addB]).statusOf 1 = some Status.pending ∧
    ((run sampleParseUrl State.empty [addA, addB]).item 1).map Item.id = some 2 ∧
    (cancelDownload (run sampleParseUrl State.empty [addA, addB]) 2).2 = none ∧
    (cancelDownload (run sampleParseUrl State.empty [addA, addB]) 2).1.queue = [0, 1] ∧
    (cancelDownload (run sampleParseUrl State.empty [addA, addB]) 2).1.statusOf 1 =
      some Status.pending := by
  decide

theorem cancelDownload_without_controller (s : State) (id r : Nat) (d : Item)
    (hfind : s.find (fun d => d.id == id && d.status == Status.pending) = some r)
    (hd : s.item r = some d) (hnone : d.abortController = none) :
    (cancelDownload s id).1.heap = s.heap ∧
    (cancelDownload s id).1.queueItems = s.queueItems ∧
    (cancelDownload s id).2 = none := by
  unfold cancelDownload
  simp only [activeDownloadsGet, Option.orElse, hfind, hd, hnone]
  unfold State.queueItems State.item
  split <;> simp [State.showToast]

/-- C8, amended: for every state and every id of a pending item (`r` being the first pending
queue item with that id), `cancelDownload(id)` removes nothing from the queue: the queue
keeps the same entries in the same order, the addressed item among them, and every item other
than the addressed one is unchanged. -/
theorem cancelDownload_pending_keeps_queue (s : State) (id r : Nat)
    (hfind : s.find (fun d => d.id == id && d.status == Status.pending) = some r) :
    (cancelDownload s id).1.queue = s.queue ∧
    r ∈ (cancelDownload s id).1.queue ∧
    (∀ x, x ≠ r → (cancelDownload s id).1.item x = s.item x) := by
  obtain ⟨⟨d, hd, -⟩, before, after, hq, -⟩ := find_some_spec s _ r hfind
  have hmem : r ∈ s.queue := by rw [hq]; simp
  have hqueue : (cancelDownload s id).1.queue = s.queue := by
    unfold cancelDownload
    simp only [activeDownloadsGet, Option.orElse, hfind, hd]
    cases hc : d.abortController with
    | none =>
      simp only []
      split <;> simp
    | some c =>
      cases c with
      | controller b =>
        simp only []
        split <;> simp
      | plainObject => rfl
  refine ⟨hqueue, by rw [hqueue]; exact hmem, ?_⟩
  intro x hx
  unfold cancelDownload
  simp only [activeDownloadsGet, Option.orElse, hfind, hd]
  cases hc : d.abortController with
  | none =>
    simp only []
    split <;> simp [State.item, State.showToast]
  | some c =>
    cases c with
    | controller b =>
      simp only []
      have hup := update_item s r (fun d =>
        { d with abortController := some (AbortController.controller true)
                 status := Status.cancelled }) x
      rw [if_neg (fun h => hx h.symm)] at hup
      split <;> simpa [State.item, State.showToast, State.update] using hup
    | plainObject => rfl

/-- A witness for the amended C8: the pending item `b` behind the downloading item `a`. -/
theorem cancelDownload_pending_keeps_queue_witness :
    (run sampleParseUrl State.empty [addA, addB]).find
      (fun d => d.id == 2 && d.status == Status.pending) = some 1 ∧
    (cancelDownload (run sampleParseUrl State.empty [addA, addB]) 2).1.queue =
      (run sampleParseUrl State.empty [addA, addB]).queue ∧
    1 ∈ (cancelDownload (run sampleParseUrl State.empty [addA, addB]) 2).1.queue := by
  have hw := cancelDownload_pending_keeps_queue (run sampleParseUrl State.empty [addA, addB])
    2 1 (by decide)
  exact ⟨by decide, hw.1, hw.2.1⟩

/-! ## C9 -/

/-- C9, evaluated: `cancelDownload` with an id that belongs to no item (here on the empty
queue) and with the id of a completed item throws a `TypeError` at `item.id`, the lookup
having found nothing; the state is left unchanged. -/
theorem cancel_of_unknown_id_throws :
    cancelDownload State.empty 7 =
      (State.empty, some "TypeError: Cannot read properties of undefined (reading id)") ∧
    (run sampleParseUrl State.empty
      [addA, Event.transferSucceeded 0 fullTransfer 5]).statusOf 0 = some Status.completed ∧
    ((run sampleParseUrl State.empty
      [addA, Event.transferSucceeded 0 fullTransfer 5]).item 0).map Item.id = some 1 ∧
    cancelDownload (run sampleParseUrl State.empty
        [addA, Event.transferSucceeded 0 fullTransfer 5]) 1 =
      (run sampleParseUrl State.empty [addA, Event.transferSucceeded 0 fullTransfer 5],
        some "TypeError: Cannot read properties of undefined (reading id)") := by
  decide

/-! ## C10 -/

/-- C10, evaluated on two states.  (1) After `addDownload(a)` and `removeFromQueue` with the
id of `a`, the transfer of `a` is still active (`a` is current, downloading, its fetch in
flight) but `a` is no longer in the queue; `clearQueue()` walks the queue only, so it returns
without signalling the controller of `a`: the transfer goes on and, when it ends, `a` is
completed and its payload passed to `installFromBlob`.  (2) After `addDownload(a)`,
`addDownload(b)` and a reload of the page, the item `a` read back from the record carries the
empty object that its controller was serialised to; `clearQueue()` calls `abort` on it and
throws a `TypeError` before it empties anything: both items are still pending. -/
theorem clearQueue_misses_removed_active_item :
    (run sampleParseUrl State.empty [addA, Event.removeFromQueue 1]).currentDownload = some 0 ∧
    (run sampleParseUrl State.empty [addA, Event.removeFromQueue 1]).transfers = [0] ∧
    (run sampleParseUrl State.empty [addA, Event.removeFromQueue 1]).statusOf 0 =
      some Status.downloading ∧
    (clearQueue (run sampleParseUrl State.empty [addA, Event.removeFromQueue 1])).2 = none ∧
    (clearQueue (run sampleParseUrl State.empty [addA, Event.removeFromQueue 1])).1.currentDownload
      = none ∧
    ((clearQueue (run sampleParseUrl State.empty [addA, Event.removeFromQueue 1])).1.item 0).map
      Item.abortController = some (some (AbortController.controller false)) ∧
    (clearQueue (run sampleParseUrl State.empty [addA, Event.removeFromQueue 1])).1.transfers
      = [0] ∧
    (run sampleParseUrl State.empty
      [addA, Event.removeFromQueue 1, Event.clearQueue,
        Event.transferSucceeded 0 fullTransfer 5]).statusOf 0 = some Status.completed ∧
    (run sampleParseUrl State.empty
      [addA, Event.removeFromQueue 1, Event.clearQueue,
        Event.transferSucceeded 0 fullTransfer 5]).installCalls = [0] ∧
    (restart (run sampleParseUrl State.empty [addA, addB])).queue = [0, 1] ∧
    ((restart (run sampleParseUrl State.empty [addA, addB])).item 0).map Item.abortController =
      some (some AbortController.plainObject) ∧
    (clearQueue (restart (run sampleParseUrl State.empty [addA, addB]))).2 =
      some "TypeError: item.abortController.abort is not a function" ∧
    (clearQueue (restart (run sampleParseUrl State.empty [addA, addB]))).1.count Status.pending
      = 2 := by
  decide

end DownloadManager

namespace PKGInstaller

open DownloadManager (Toast ToastKind Blob jsString truthy)

/-! ## C21 -/

/-- C21: on the device, when no install is in progress and the `POST` of channel (1) is
answered with `ok`, `installFromBlob` returns `success: true`, the only channel block that
ran is the one of HTTP (no socket is created, no record written, no message posted, no media
trigger), and `isInstalling` is false on return. -/
theorem installFromBlob_http_ok (dev : Device) (p : Installer) (size : Nat)
    (filename title : Option String)
    (hps4 : dev.isPS4 = true) (hidle : p.isInstalling = false)
    (hhttp : dev.http = HttpOutcome.ok) :
    (installFromBlob dev p (some (Blob.blob size)) filename title).2.success = true ∧
    (installFromBlob dev p (some (Blob.blob size)) filename title).1.actions =
      p.actions ++ [Action.http (some HttpOutcome.ok)] ∧
    (installFromBlob dev p (some (Blob.blob size)) filename title).1.attemptedChannels =
      p.attemptedChannels ++ [Channel.http] ∧
    (installFromBlob dev p (some (Blob.blob size)) filename title).1.sockets = p.sockets ∧
    (installFromBlob dev p (some (Blob.blob size)) filename title).1.installRequest =
      p.installRequest ∧
    (installFromBlob dev p (some (Blob.blob size)) filename title).1.isInstalling = false := by
  simp [installFromBlob, hps4, hidle, hhttp, Installer.showToast, Installer.attemptedChannels,
    Action.channel]

/-- A witness for C21: the first dispatch of a new installer on a device that answers `ok`. -/
theorem installFromBlob_http_ok_witness :
    (installFromBlob deviceHttpOk Installer.new (some (Blob.blob 1000)) (some "a.pkg")
      (some "A")).2.success = true ∧
    (installFromBlob deviceHttpOk Installer.new (some (Blob.blob 1000)) (some "a.pkg")
      (some "A")).1.attemptedChannels = [Channel.http] :=
  have hw := installFromBlob_http_ok deviceHttpOk Installer.new 1000 (some "a.pkg") (some "A")
    rfl rfl rfl
  ⟨hw.1, hw.2.2.1⟩

/-! ## C22 -/

/-- C22: on the device, when no install is in progress and channel (1) fails (no `ok`
answer), then whatever becomes of channel (2), in particular when it fails too (the
constructor throws or the socket errors), and for every pattern of exceptions in channels
(3), (4) and (5), the blocks of (3), (4) and (5) run, in that order, and `installFromBlob`
returns `success: true` with the message `Installation signal sent` and the note `Check PS4
notification center`, `isInstalling` being false on return. -/
theorem installFromBlob_fallbacks_all_run (dev : Device) (p : Installer) (blob : Blob)
    (filename title : Option String)
    (hps4 : dev.isPS4 = true) (hidle : p.isInstalling = false)
    (hhttp : dev.http ≠ HttpOutcome.ok) :
    (installFromBlob dev p (some blob) filename title).2 = signalSent ∧
    signalSent.success = true ∧
    signalSent.note = some "Check PS4 notification center" ∧
    (installFromBlob dev p (some blob) filename title).1.attemptedChannels =
      p.attemptedChannels ++
        [Channel.http, Channel.socket, Channel.storage, Channel.message, Channel.media] ∧
    (installFromBlob dev p (some blob) filename title).1.isInstalling = false := by
  have hsock : ∀ q : Installer, ∀ f t : Option String,
      (trySocket dev q f t).attemptedChannels = q.attemptedChannels ++ [Channel.socket] ∧
      (trySocket dev q f t).isInstalling = q.isInstalling := by
    intro q f t
    unfold trySocket
    cases dev.socket <;> simp [Installer.attemptedChannels, Action.channel]
  have hfb : ∀ q : Installer, ∀ t : Option String,
      (fallbackChannels dev q (some blob) filename t).2 = signalSent ∧
      (fallbackChannels dev q (some blob) filename t).1.attemptedChannels =
        q.attemptedChannels ++
          [Channel.socket, Channel.storage, Channel.message, Channel.media] ∧
      (fallbackChannels dev q (some blob) filename t).1.isInstalling = false := by
    intro q t
    obtain ⟨h1, -⟩ := hsock q filename t
    unfold fallbackChannels tryStorage
    by_cases hset : dev.setItemThrows = true
    · simp [hset, tryMessage, tryMedia, Installer.showToast, Installer.attemptedChannels,
        Action.channel] at h1 ⊢
      rw [h1]; simp
    · simp [hset, tryMessage, tryMedia, Installer.showToast, Installer.attemptedChannels,
        Action.channel] at h1 ⊢
      rw [h1]; simp
  refine ⟨?_, rfl, rfl, ?_, ?_⟩
  · unfold installFromBlob
    cases blob with
    | blob size =>
      cases hh : dev.http with
      | ok => exact absurd hh hhttp
      | notOk => simp [hps4, hidle, (hfb _ _).1]
      | rejected => simp [hps4, hidle, (hfb _ _).1]
    | plainObject => simp [hps4, hidle, (hfb _ _).1]
  · unfold installFromBlob
    cases blob with
    | blob size =>
      cases hh : dev.http with
      | ok => exact absurd hh hhttp
      | notOk =>
        simp [hps4, hidle, (hfb _ _).2.1]
        simp [Installer.attemptedChannels, Installer.showToast, Action.channel]
      | rejected =>
        simp [hps4, hidle, (hfb _ _).2.1]
        simp [Installer.attemptedChannels, Installer.showToast, Action.channel]
    | plainObject =>
      simp [hps4, hidle, (hfb _ _).2.1]
      simp [Installer.attemptedChannels, Installer.showToast, Action.channel]
  · unfold installFromBlob
    cases blob with
    | blob size =>
      cases hh : dev.http with
      | ok => exact absurd hh hhttp
      | notOk => simp [hps4, hidle, (hfb _ _).2.2]
      | rejected => simp [hps4, hidle, (hfb _ _).2.2]
    | plainObject => simp [hps4, hidle, (hfb _ _).2.2]

/-- A witness for C22: channels (1) and (2) fail and (3), (4) and (5) all throw. -/
theorem installFromBlob_fallbacks_all_run_witness :
    (installFromBlob deviceAllFail Installer.new (some (Blob.blob 1000)) (some "a.pkg")
      (some "A")).2 = signalSent ∧
    (installFromBlob deviceAllFail Installer.new (some (Blob.blob 1000)) (some "a.pkg")
      (some "A")).1.attemptedChannels =
      [Channel.http, Channel.socket, Channel.storage, Channel.message, Channel.media] :=
  have hw := installFromBlob_fallbacks_all_run deviceAllFail Installer.new (Blob.blob 1000)
    (some "a.pkg") (some "A") rfl rfl (by decide)
  ⟨hw.1, hw.2.2.2.1⟩

/-- When channel (1) does not return, the rest of `installFromBlob` is `fallbackChannels`,
run on the installer in which the block of channel (1) is recorded. -/
theorem installFromBlob_falls_back (dev : Device) (p : Installer) (blob : Blob)
    (filename title : Option String)
    (hps4 : dev.isPS4 = true) (hidle : p.isInstalling = false)
    (hhttp : dev.http ≠ HttpOutcome.ok) :
    ∃ q : Installer, q.sockets = p.sockets ∧
      q.attemptedChannels = p.attemptedChannels ++ [Channel.http] ∧
      installFromBlob dev p (some blob) filename title =
        fallbackChannels dev q (some blob) filename
          (if truthy title then title else filename) := by
  unfold installFromBlob
  cases blob with
  | blob size =>
    cases hh : dev.http with
    | ok => exact absurd hh hhttp
    | notOk =>
      refine ⟨({ ({ p with isInstalling := true }).showToast
          ("Installing: " ++ jsString (if truthy title then title else filename))
          ToastKind.info with
        actions := p.actions ++ [Action.http (some HttpOutcome.notOk)] } : Installer), rfl, ?_, ?_⟩
      · simp [Installer.attemptedChannels, Installer.showToast, Action.channel]
      · simp only [hps4, hidle, Bool.false_eq_true, if_false, Bool.not_true]
        rfl
    | rejected =>
      refine ⟨({ ({ p with isInstalling := true }).showToast
          ("Installing: " ++ jsString (if truthy title then title else filename))
          ToastKind.info with
        actions := p.actions ++ [Action.http (some HttpOutcome.rejected)] } : Installer), rfl, ?_, ?_⟩
      · simp [Installer.attemptedChannels, Installer.showToast, Action.channel]
      · simp only [hps4, hidle, Bool.false_eq_true, if_false, Bool.not_true]
        rfl
  | plainObject =>
    refine ⟨({ ({ p with isInstalling := true }).showToast
        ("Installing: " ++ jsString (if truthy title then title else filename))
        ToastKind.info with
      actions := p.actions ++ [Action.http none] } : Installer), rfl, ?_, ?_⟩
    · simp [Installer.attemptedChannels, Installer.showToast, Action.channel]
    · simp only [hps4, hidle, Bool.false_eq_true, if_false, Bool.not_true]
      rfl

/-! ## C23 -/

/-- C23, refuted as stated: on a device where channel (1) is rejected and the socket of
channel (2) opens, the dispatch does not stop at channel (2): the blocks of (3), (4) and (5)
have run when `installFromBlob` returns, the record of channel (3) is written, and the
socket has not sent anything yet. -/
theorem installFromBlob_does_not_stop_at_socket :
    (installFromBlob deviceSocketOpens Installer.new (some (Blob.blob 1000)) (some "a.pkg")
      (some "A")).1.attemptedChannels =
      [Channel.http, Channel.socket, Channel.storage, Channel.message, Channel.media] ∧
    (installFromBlob deviceSocketOpens Installer.new (some (Blob.blob 1000)) (some "a.pkg")
      (some "A")).1.actions =
      [Action.http (some HttpOutcome.rejected), Action.socket true, Action.storage true,
        Action.message true, Action.media true] ∧
    (installFromBlob deviceSocketOpens Installer.new (some (Blob.blob 1000)) (some "a.pkg")
      (some "A")).1.installRequest ≠ none ∧
    ¬ ((installFromBlob deviceSocketOpens Installer.new (some (Blob.blob 1000)) (some "a.pkg")
      (some "A")).1.attemptedChannels = [Channel.http, Channel.socket]) := by
  decide

/-- C23, amended: on the device, when no install is in progress, channel (1) fails and the
socket of channel (2) is created and later opens, `installFromBlob` does not wait for the
socket: it goes on with the blocks of channels (3), (4) and (5), in that order, and returns
`success: true` with the note of an unconfirmed delivery while the socket is still pending;
the install directive is sent afterwards, when the socket opens. -/
theorem installFromBlob_socket_not_awaited (dev : Device) (p : Installer) (blob : Blob)
    (filename title : Option String)
    (hps4 : dev.isPS4 = true) (hidle : p.isInstalling = false)
    (hhttp : dev.http ≠ HttpOutcome.ok) (hsocket : dev.socket = SocketOutcome.opens)
    (hnone : p.sockets = []) :
    (installFromBlob dev p (some blob) filename title).2 = signalSent ∧
    (installFromBlob dev p (some blob) filename title).1.attemptedChannels =
      p.attemptedChannels ++
        [Channel.http, Channel.socket, Channel.storage, Channel.message, Channel.media] ∧
    (installFromBlob dev p (some blob) filename title).1.sockets =
      [(filename, if truthy title then title else filename)] ∧
    (socketSettled (installFromBlob dev p (some blob) filename title).1 true).actions =
      (installFromBlob dev p (some blob) filename title).1.actions ++
        [Action.directive filename (if truthy title then title else filename)] ∧
    (socketSettled (installFromBlob dev p (some blob) filename title).1 true).attemptedChannels
      = (installFromBlob dev p (some blob) filename title).1.attemptedChannels := by
  have hfb : ∀ q : Installer, ∀ t : Option String, q.sockets = [] →
      (fallbackChannels dev q (some blob) filename t).2 = signalSent ∧
      (fallbackChannels dev q (some blob) filename t).1.attemptedChannels =
        q.attemptedChannels ++
          [Channel.socket, Channel.storage, Channel.message, Channel.media] ∧
      (fallbackChannels dev q (some blob) filename t).1.sockets = [(filename, t)] := by
    intro q t hq
    unfold fallbackChannels tryStorage trySocket
    by_cases hset : dev.setItemThrows = true
    · simp [hset, hsocket, hq, tryMessage, tryMedia, Installer.showToast,
        Installer.attemptedChannels, Action.channel]
    · simp [hset, hsocket, hq, tryMessage, tryMedia, Installer.showToast,
        Installer.attemptedChannels, Action.channel]
  have hmain : (installFromBlob dev p (some blob) filename title).2 = signalSent ∧
      (installFromBlob dev p (some blob) filename title).1.attemptedChannels =
        p.attemptedChannels ++
          [Channel.http, Channel.socket, Channel.storage, Channel.message, Channel.media] ∧
      (installFromBlob dev p (some blob) filename title).1.sockets =
        [(filename, if truthy title then title else filename)] := by
    obtain ⟨q, hq1, hq2, hq3⟩ :=
      installFromBlob_falls_back dev p blob filename title hps4 hidle hhttp
    obtain ⟨h1, h2, h3⟩ := hfb q (if truthy title then title else filename)
      (by rw [hq1]; exact hnone)
    rw [hq3]
    refine ⟨h1, ?_, h3⟩
    rw [h2, hq2]
    simp
  obtain ⟨h1, h2, h3⟩ := hmain
  refine ⟨h1, h2, h3, ?_, ?_⟩
  · unfold socketSettled
    rw [h3]
    simp
  · unfold socketSettled
    rw [h3]
    simp [Installer.attemptedChannels, Action.channel]

/-- A witness for the amended C23: channel (1) is rejected and the socket opens. -/
theorem installFromBlob_socket_not_awaited_witness :
    (installFromBlob deviceSocketOpens Installer.new (some (Blob.blob 1000)) (some "a.pkg")
      (some "A")).2 = signalSent ∧
    (socketSettled (installFromBlob deviceSocketOpens Installer.new (some (Blob.blob 1000))
      (some "a.pkg") (some "A")).1 true).actions =
      (installFromBlob deviceSocketOpens Installer.new (some (Blob.blob 1000)) (some "a.pkg")
        (some "A")).1.actions ++ [Action.directive (some "a.pkg") (some "A")] :=
  have hw := installFromBlob_socket_not_awaited deviceSocketOpens Installer.new
    (Blob.blob 1000) (some "a.pkg") (some "A") rfl rfl (by decide) rfl rfl
  ⟨hw.1, hw.2.2.2.1⟩

/-! ## C24 -/

/-- C24, evaluated: on the device, with no install in progress and a `fetch` of the url that
succeeds, `installFromUrl` sets `isInstalling` and then calls `installFromBlob`, whose
first test finds `isInstalling` set: the payload is dispatched through no channel, the call
returns `success: false` with `Installation already in progress`, and `isInstalling` is left
true, so that the next call of `installFromUrl` or `installFromBlob` is refused as well. -/
theorem installFromUrl_never_dispatches :
    (installFromUrl deviceHttpOk (UrlFetch.ok 1000) Installer.new (some "a.pkg")
      (some "A")).2 = alreadyInProgress ∧
    alreadyInProgress.success = false ∧
    (installFromUrl deviceHttpOk (UrlFetch.ok 1000) Installer.new (some "a.pkg")
      (some "A")).1.actions = [] ∧
    (installFromUrl deviceHttpOk (UrlFetch.ok 1000) Installer.new (some "a.pkg")
      (some "A")).1.isInstalling = true ∧
    (installFromBlob deviceHttpOk
      (installFromUrl deviceHttpOk (UrlFetch.ok 1000) Installer.new (some "a.pkg")
        (some "A")).1 (some (Blob.blob 1000)) (some "a.pkg") (some "A")).2
      = alreadyInProgress ∧
    (installFromBlob deviceHttpOk Installer.new (some (Blob.blob 1000)) (some "a.pkg")
      (some "A")).2.success = true := by
  decide

end PKGInstaller

namespace DownloadManager

/-! ## C25 -/

theorem saveToHistory_history (s : State) (x : Item) (now : Nat) :
    (saveToHistory s x now).1.history =
      (s.history ++ [{ x with completedAt := some now }]).drop (s.history.length + 1 - 50) := by
  unfold saveToHistory
  simp only [List.length_append, List.length_singleton]
  by_cases hlen : s.history.length + 1 > 50
  · simp only [hlen, if_true]
    split <;> rfl
  · simp only [hlen, if_false]
    have h0 : s.history.length + 1 - 50 = 0 := by omega
    rw [h0, List.drop_zero]
    split <;> rfl

/-- C25: for every history list `h` and item `x`, `saveToHistory(x)` leaves the history equal
to the last 50 entries of `h` followed by the copy of `x` stamped with `completedAt`, that is
the last 49 entries of `h` followed by that copy: its length is `min (|h| + 1) 50`, the newest
entry is last, the entries dropped are the oldest ones and the order of the others is kept
(the result is a final segment of `h` followed by the copy), and the record written under
`downloadHistory` is the serialisation of that same list (when `setItem` throws, the record
is left as it was and the exception escapes). -/
theorem saveToHistory_keeps_last_50 (s : State) (x : Item) (now : Nat) :
    (saveToHistory s x now).1.history =
      (s.history ++ [{ x with completedAt := some now }]).drop (s.history.length + 1 - 50) ∧
    (saveToHistory s x now).1.history =
      s.history.drop (s.history.length - 49) ++ [{ x with completedAt := some now }] ∧
    (saveToHistory s x now).1.history.length = min (s.history.length + 1) 50 ∧
    (saveToHistory s x now).1.history.getLast? = some { x with completedAt := some now } ∧
    (saveToHistory s x now).1.history <:+ s.history ++ [{ x with completedAt := some now }] ∧
    (saveToHistory s x now).1.storedHistory =
      (if s.quotaExceeded then s.storedHistory
        else some ((saveToHistory s x now).1.history.map Item.serialize)) ∧
    ((saveToHistory s x now).2 = none ↔ s.quotaExceeded = false) := by
  have hh := saveToHistory_history s x now
  have h2 : (saveToHistory s x now).1.history =
      s.history.drop (s.history.length - 49) ++ [{ x with completedAt := some now }] := by
    rw [hh, List.drop_append_of_le_length (by omega)]
    congr 2
  refine ⟨hh, h2, ?_, ?_, ?_, ?_, ?_⟩
  · rw [hh, List.length_drop, List.length_append, List.length_singleton]
    omega
  · rw [h2, List.getLast?_append]
    simp
  · rw [hh]
    exact List.drop_suffix _ _
  · unfold saveToHistory
    cases hq : s.quotaExceeded <;> simp
  · unfold saveToHistory
    cases hq : s.quotaExceeded <;> simp

/-! ## C26 -/

theorem abortAll_history (rs : List Nat) (s : State) :
    (abortAll s rs).1.history = s.history ∧
      (abortAll s rs).1.storedHistory = s.storedHistory := by
  induction rs generalizing s with
  | nil => exact ⟨rfl, rfl⟩
  | cons r rest ih =>
    cases hd : s.item r with
    | none => simp only [abortAll, hd]; exact ih s
    | some d =>
      cases hc : d.abortController with
      | none => simp only [abortAll, hd, hc]; exact ih s
      | some c =>
        cases c with
        | controller b => simp only [abortAll, hd, hc]; exact ih _
        | plainObject => simp [abortAll, hd, hc]

theorem startNextDownload_history (s : State) (now : Nat) :
    (startNextDownload s now).history = s.history ∧
      (startNextDownload s now).storedHistory = s.storedHistory := by
  unfold startNextDownload
  split
  · exact ⟨rfl, rfl⟩
  · split
    · exact ⟨rfl, rfl⟩
    · simp [beginDownload]

theorem addDownload_history (parseUrl : String → Option String) (s : State) (url : String)
    (filename title : Option String) (tId tAdded tStart : Nat) :
    (addDownload parseUrl s url filename title tId tAdded tStart).1.history = s.history ∧
      (addDownload parseUrl s url filename title tId tAdded tStart).1.storedHistory =
        s.storedHistory := by
  cases hres : (addDownload parseUrl s url filename title tId tAdded tStart).2 with
  | false =>
    obtain ⟨m, k, hmk⟩ := addDownload_rejected parseUrl s url filename title tId tAdded tStart hres
    rw [hmk]
    exact ⟨rfl, rfl⟩
  | true =>
    rw [addDownload_admitted parseUrl s url filename title tId tAdded tStart hres]
    split
    · rw [(startNextDownload_history _ _).1, (startNextDownload_history _ _).2]
      simp [enqueue, State.showToast]
    · simp [enqueue, State.showToast]

theorem cancelDownload_history (s : State) (id : Nat) :
    (cancelDownload s id).1.history = s.history ∧
      (cancelDownload s id).1.storedHistory = s.storedHistory := by
  unfold cancelDownload
  cases hf : s.find (fun d => d.id == id && d.status == Status.pending) with
  | none => simp [activeDownloadsGet, Option.orElse, hf]
  | some r =>
    cases hd : s.item r with
    | none => simp [activeDownloadsGet, Option.orElse, hf, hd]
    | some d =>
      simp only [activeDownloadsGet, Option.orElse, hf, hd]
      cases hc : d.abortController with
      | none =>
        simp only []
        split <;> simp [State.showToast]
      | some c =>
        cases c with
        | controller b =>
          simp only []
          split <;> simp [State.showToast]
        | plainObject => simp

theorem step_history (parseUrl : String → Option String) (s : State) (e : Event) :
    (step parseUrl s e).history = s.history ∧
      (step parseUrl s e).storedHistory = s.storedHistory := by
  cases e with
  | addDownload url filename title tId tAdded tStart =>
    exact addDownload_history parseUrl s url filename title tId tAdded tStart
  | transferSucceeded r res now =>
    simp only [step]
    unfold transferSucceeded
    split
    · exact ⟨rfl, rfl⟩
    · split
      · simp [State.showToast]
      · exact ⟨rfl, rfl⟩
  | transferFailed r message =>
    simp only [step]
    unfold transferFailed
    split
    · simp [State.showToast]
    · exact ⟨rfl, rfl⟩
  | installSettled r o =>
    simp only [step]
    unfold installSettled
    split
    · exact ⟨rfl, rfl⟩
    · split
      · simp only []
        constructor <;> split <;> rfl
      · exact ⟨rfl, rfl⟩
  | timerFired i now =>
    simp only [step]
    unfold timerFired
    split
    · rw [(startNextDownload_history _ _).1, (startNextDownload_history _ _).2]
      exact ⟨rfl, rfl⟩
    · exact ⟨rfl, rfl⟩
  | cancelDownload id => exact cancelDownload_history s id
  | cancelCurrentDownload =>
    simp only [step]
    unfold cancelCurrentDownload
    split
    · exact cancelDownload_history s _
    · exact ⟨rfl, rfl⟩
  | removeFromQueue id =>
    simp [step, removeFromQueue]
  | clearQueue =>
    simp only [step]
    unfold clearQueue
    have h := abortAll_history s.queue s
    cases hab : abortAll s s.queue with
    | mk s1 ok =>
      rw [hab] at h
      cases ok with
      | false => exact h
      | true => simpa [State.showToast] using h

/-- C26, evaluated: after `addDownload(a)`, the end of the transfer of `a` and of its install,
`a` is completed but the history is still empty and no `downloadHistory` record exists:
`startNextDownload` never calls `saveToHistory` (nothing in the repository does).  More
generally the history is empty and the record absent in every state that the method calls
and the resumptions of suspended runs lead to from the empty manager. -/
theorem completed_item_not_in_history (parseUrl : String → Option String) (es : List Event) :
    (run sampleParseUrl State.empty
      [addA, Event.transferSucceeded 0 fullTransfer 5, Event.installSettled 0 installOk]).statusOf
      0 = some Status.completed ∧
    (run sampleParseUrl State.empty
      [addA, Event.transferSucceeded 0 fullTransfer 5, Event.installSettled 0 installOk]).history
      = [] ∧
    (run parseUrl State.empty es).history = [] ∧
    (run parseUrl State.empty es).storedHistory = none := by
  have hrun : (run parseUrl State.empty es).history = [] ∧
      (run parseUrl State.empty es).storedHistory = none := by
    induction es using List.reverseRecOn with
    | nil => exact ⟨rfl, rfl⟩
    | append_singleton l a ih =>
      unfold run at ih ⊢
      rw [List.foldl_concat, (step_history parseUrl _ a).1, (step_history parseUrl _ a).2]
      exact ih
  exact ⟨by decide, by decide, hrun.1, hrun.2⟩

/-! ## C27 -/

theorem modify_map_id (l : List Item) (f : Item → Item) (r : Nat)
    (hf : ∀ d, (f d).id = d.id) :
    (l.modify f r).map Item.id = l.map Item.id := by
  apply List.ext_getElem?
  intro x
  simp only [List.getElem?_map, List.getElem?_modify]
  cases l[x]? with
  | none => rfl
  | some d =>
    by_cases hx : r = x
    · simp [hx, hf]
    · simp [hx]

theorem startNextDownload_ids (s : State) (now : Nat) :
    (startNextDownload s now).heap.map Item.id = s.heap.map Item.id := by
  unfold startNextDownload
  split
  · rfl
  · split
    · rfl
    · rw [beginDownload_heap]
      exact modify_map_id _ _ _ (fun d => rfl)

theorem addDownload_ids (parseUrl : String → Option String) (s : State) (url : String)
    (filename title : Option String) (tId tAdded tStart : Nat) :
    (addDownload parseUrl s url filename title tId tAdded tStart).1.heap.map Item.id =
      s.heap.map Item.id ++
        (if (addDownload parseUrl s url filename title tId tAdded tStart).2 then [tId]
          else []) := by
  cases hres : (addDownload parseUrl s url filename title tId tAdded tStart).2 with
  | false =>
    obtain ⟨m, k, hmk⟩ := addDownload_rejected parseUrl s url filename title tId tAdded tStart hres
    rw [hmk]
    simp [State.showToast]
  | true =>
    rw [addDownload_admitted parseUrl s url filename title tId tAdded tStart hres]
    split
    · rw [startNextDownload_ids, enqueue_heap]
      simp [newItem]
    · rw [enqueue_heap]
      simp [newItem]

theorem abortAll_ids (rs : List Nat) (s : State) :
    (abortAll s rs).1.heap.map Item.id = s.heap.map Item.id := by
  induction rs generalizing s with
  | nil => rfl
  | cons r rest ih =>
    cases hd : s.item r with
    | none => simp only [abortAll, hd]; exact ih s
    | some d =>
      cases hc : d.abortController with
      | none => simp only [abortAll, hd, hc]; exact ih s
      | some c =>
        cases c with
        | controller b =>
          simp only [abortAll, hd, hc]
          rw [ih]
          exact modify_map_id _ _ _ (fun d => rfl)
        | plainObject => simp [abortAll, hd, hc]

theorem cancelDownload_ids (s : State) (id : Nat) :
    (cancelDownload s id).1.heap.map Item.id = s.heap.map Item.id := by
  unfold cancelDownload
  cases hf : s.find (fun d => d.id == id && d.status == Status.pending) with
  | none => simp [activeDownloadsGet, Option.orElse, hf]
  | some r =>
    cases hd : s.item r with
    | none => simp [activeDownloadsGet, Option.orElse, hf, hd]
    | some d =>
      simp only [activeDownloadsGet, Option.orElse, hf, hd]
      cases hc : d.abortController with
      | none =>
        simp only []
        split <;> simp [State.showToast]
      | some c =>
        cases c with
        | controller b =>
          simp only []
          have hm := modify_map_id s.heap (fun d =>
            { d with abortController := some (AbortController.controller true)
                     status := Status.cancelled }) r (fun d => rfl)
          split <;> simpa [State.showToast, State.update] using hm
        | plainObject => simp

theorem step_ids (parseUrl : String → Option String) (s : State) (e : Event) :
    (step parseUrl s e).heap.map Item.id = s.heap.map Item.id ++ admittedIds parseUrl s [e] := by
  cases e with
  | addDownload url filename title tId tAdded tStart =>
    simpa [step, admittedIds] using
      addDownload_ids parseUrl s url filename title tId tAdded tStart
  | transferSucceeded r res now =>
    simp only [step, admittedIds, List.append_nil]
    unfold DownloadManager.transferSucceeded
    split
    · rfl
    · split
      · simp only [State.showToast, saveToStorage_heap, State.update]
        exact modify_map_id _ _ _ (fun d => rfl)
      · rfl
  | transferFailed r message =>
    simp only [step, admittedIds, List.append_nil]
    unfold DownloadManager.transferFailed
    split
    · simp only [State.showToast, saveToStorage_heap, State.update]
      exact modify_map_id _ _ _ (fun d => rfl)
    · rfl
  | installSettled r o =>
    simp only [step, admittedIds, List.append_nil]
    unfold DownloadManager.installSettled
    split
    · rfl
    · split
      · simp only []
        split <;> rfl
      · rfl
  | timerFired i now =>
    simp only [step, admittedIds, List.append_nil]
    unfold DownloadManager.timerFired
    split
    · rw [startNextDownload_ids]
    · rfl
  | cancelDownload id =>
    simp only [step, admittedIds, List.append_nil]
    exact cancelDownload_ids s id
  | cancelCurrentDownload =>
    simp only [step, admittedIds, List.append_nil]
    unfold DownloadManager.cancelCurrentDownload
    split
    · exact cancelDownload_ids s _
    · rfl
  | removeFromQueue id =>
    simp only [step, admittedIds, List.append_nil]
    unfold DownloadManager.removeFromQueue
    rw [saveToStorage_heap]
  | clearQueue =>
    simp only [step, admittedIds, List.append_nil]
    unfold DownloadManager.clearQueue
    have hab := abortAll_ids s.queue s
    cases hres : abortAll s s.queue with
    | mk s1 ok =>
      rw [hres] at hab
      cases ok with
      | false => exact hab
      | true =>
        simp only [State.showToast, saveToStorage_heap]
        exact hab

theorem run_ids (parseUrl : String → Option String) (es : List Event) (s : State) :
    (run parseUrl s es).heap.map Item.id = s.heap.map Item.id ++ admittedIds parseUrl s es := by
  induction es generalizing s with
  | nil => simp [run, admittedIds]
  | cons e rest ih =>
    have hrun : run parseUrl s (e :: rest) = run parseUrl (step parseUrl s e) rest := rfl
    have hadm : admittedIds parseUrl s (e :: rest) =
        admittedIds parseUrl s [e] ++ admittedIds parseUrl (step parseUrl s e) rest := by
      simp [admittedIds]
    rw [hrun, ih, step_ids, hadm, List.append_assoc]

/-- C27, refuted as stated: two admitted `addDownload` calls made within the same
millisecond (both read 5 from `Date.now()`) create two items with the same id. -/
theorem same_millisecond_same_id :
    (addDownload sampleParseUrl State.empty "https://x/a.pkg" (some "a.pkg") (some "A")
      5 5 5).2 = true ∧
    (addDownload sampleParseUrl
      (addDownload sampleParseUrl State.empty "https://x/a.pkg" (some "a.pkg") (some "A")
        5 5 5).1 "https://x/b.pkg" (some "b.pkg") (some "B") 5 5 5).2 = true ∧
    (addDownload sampleParseUrl
      (addDownload sampleParseUrl State.empty "https://x/a.pkg" (some "a.pkg") (some "A")
        5 5 5).1 "https://x/b.pkg" (some "b.pkg") (some "B") 5 5 5).1.queueItems.map Item.id
      = [5, 5] ∧
    ¬ ((addDownload sampleParseUrl
      (addDownload sampleParseUrl State.empty "https://x/a.pkg" (some "a.pkg") (some "A")
        5 5 5).1 "https://x/b.pkg" (some "b.pkg") (some "B") 5 5 5).1.queueItems.map
        Item.id).Nodup := by
  decide

/-- C27, amended: for every sequence of calls and resumptions played from the empty
manager, whatever the urls of the `addDownload` calls (repeated or not) and whatever happens
in between, the ids of the created items are, in creation order, the readings of
`Date.now()` at the admitted calls.  So the ids are pairwise distinct exactly when these
readings are, and strictly increasing exactly when these readings are; as long as nothing is
removed from the queue (no cancel, remove or clear call) the same holds of the ids of the
queue items. -/
theorem created_ids_are_clock_readings (parseUrl : String → Option String) (es : List Event) :
    (run parseUrl State.empty es).heap.map Item.id = admittedIds parseUrl State.empty es ∧
    (((run parseUrl State.empty es).heap.map Item.id).Nodup ↔
      (admittedIds parseUrl State.empty es).Nodup) ∧
    (((run parseUrl State.empty es).heap.map Item.id).Pairwise (fun a b => a < b) ↔
      (admittedIds parseUrl State.empty es).Pairwise (fun a b => a < b)) ∧
    ((∀ e ∈ es, e.isScheduling = true) →
      (run parseUrl State.empty es).queueItems.map Item.id =
        admittedIds parseUrl State.empty es) := by
  have hids : (run parseUrl State.empty es).heap.map Item.id =
      admittedIds parseUrl State.empty es := by
    rw [run_ids]
    rfl
  refine ⟨hids, by rw [hids], by rw [hids], ?_⟩
  intro hes
  rw [(Fifo.run parseUrl es hes).queueItems]
  exact hids

/-- The amended C27 at work: the same url is added again, at the reading 2, while its first
item is downloading; the call is admitted and the ids are the two readings, 1 and 2. -/
theorem created_ids_are_clock_readings_witness :
    (run sampleParseUrl State.empty
      [addA, Event.addDownload "https://x/a.pkg" (some "a.pkg") (some "A") 2 2 2]).heap.map
        Item.id = [1, 2] :=
  (created_ids_are_clock_readings sampleParseUrl
    [addA, Event.addDownload "https://x/a.pkg" (some "a.pkg") (some "A") 2 2 2]).1.trans
    (by decide)

/-! ## C28 -/

theorem status_counts_sum (l : List Item) :
    (l.filter (fun d => d.status == Status.pending)).length +
      (l.filter (fun d => d.status == Status.downloading)).length +
      (l.filter (fun d => d.status == Status.completed)).length +
      (l.filter (fun d => d.status == Status.error)).length +
      (l.filter (fun d => d.status == Status.cancelled)).length = l.length := by
  induction l with
  | nil => rfl
  | cons d t ih =>
    simp only [List.filter_cons, List.length_cons]
    cases hs : d.status <;> simp <;> omega

theorem queueItems_length (s : State) (hv : s.valid) : s.queueItems.length = s.queue.length := by
  unfold State.queueItems
  have h : ∀ q : List Nat, (∀ r ∈ q, r < s.heap.length) →
      (q.filterMap s.item).length = q.length := by
    intro q
    induction q with
    | nil => intro _; rfl
    | cons r t ih =>
      intro hq
      obtain ⟨d, hd⟩ := item_isSome_of_lt s r (hq r (by simp))
      rw [List.filterMap_cons, hd]
      simp only [List.length_cons]
      rw [ih (fun x hx => hq x (by simp [hx]))]
  exact h s.queue hv

/-- C28: for every queue, `getQueueStatus` returns in `pending`, `downloading`, `completed`
and `errors` the numbers of queue items with the status of that name and in `total` the
length of the queue; so the four counts add up to at most `total`, and to exactly `total` if
and only if no item has another status, that is `cancelled`. -/
theorem getQueueStatus_counts (s : State) (hv : s.valid) :
    (getQueueStatus s).pending = s.count Status.pending ∧
    (getQueueStatus s).downloading = s.count Status.downloading ∧
    (getQueueStatus s).completed = s.count Status.completed ∧
    (getQueueStatus s).errors = s.count Status.error ∧
    (getQueueStatus s).total = s.queue.length ∧
    (getQueueStatus s).total = s.queueItems.length ∧
    (getQueueStatus s).pending + (getQueueStatus s).downloading +
      (getQueueStatus s).completed + (getQueueStatus s).errors ≤ (getQueueStatus s).total ∧
    ((getQueueStatus s).pending + (getQueueStatus s).downloading +
        (getQueueStatus s).completed + (getQueueStatus s).errors = (getQueueStatus s).total ↔
      ∀ d ∈ s.queueItems, d.status ≠ Status.cancelled) := by
  have hsum := status_counts_sum s.queueItems
  have hlen := queueItems_length s hv
  have hcancel : (s.queueItems.filter (fun d => d.status == Status.cancelled)).length = 0 ↔
      ∀ d ∈ s.queueItems, d.status ≠ Status.cancelled := by
    rw [List.length_eq_zero, List.filter_eq_nil_iff]
    constructor
    · intro h d hd hst
      exact h d hd (by simp [hst])
    · intro h d hd hst
      exact h d hd (by simpa using hst)
  refine ⟨rfl, rfl, rfl, rfl, rfl, hlen.symm, ?_, ?_⟩
  · simp only [getQueueStatus]
    omega
  · simp only [getQueueStatus]
    rw [← hcancel]
    omega

/-- A witness for C28: one item downloading and one pending. -/
theorem getQueueStatus_counts_witness :
    (run sampleParseUrl State.empty [addA, addB]).valid ∧
    (getQueueStatus (run sampleParseUrl State.empty [addA, addB])).pending = 1 ∧
    (getQueueStatus (run sampleParseUrl State.empty [addA, addB])).downloading = 1 ∧
    (getQueueStatus (run sampleParseUrl State.empty [addA, addB])).total = 2 := by
  have hw := getQueueStatus_counts (run sampleParseUrl State.empty [addA, addB]) (by decide)
  exact ⟨by decide, hw.1.trans (by decide), hw.2.1.trans (by decide),
    hw.2.2.2.2.1.trans (by decide)⟩

/-! ## Rounding to binary64 -/

theorem roundHalfEven_cases (a : ℚ) :
    roundHalfEven a = ⌊a⌋ ∧ a - ⌊a⌋ ≤ 1 / 2 ∨ roundHalfEven a = ⌊a⌋ + 1 ∧ 1 / 2 ≤ a - ⌊a⌋ := by
  unfold roundHalfEven
  by_cases h1 : a - ⌊a⌋ < 1 / 2
  · left; rw [if_pos h1]; exact ⟨rfl, le_of_lt h1⟩
  · rw [if_neg h1]
    by_cases h2 : 1 / 2 < a - ⌊a⌋
    · right; rw [if_pos h2]; exact ⟨rfl, le_of_lt h2⟩
    · rw [if_neg h2]
      have heq : a - ⌊a⌋ = 1 / 2 := le_antisymm (not_lt.1 h2) (not_lt.1 h1)
      by_cases h3 : ⌊a⌋ % 2 = 0
      · left; rw [if_pos h3]; exact ⟨rfl, le_of_eq heq⟩
      · right; rw [if_neg h3]; exact ⟨rfl, le_of_eq heq.symm⟩

theorem roundHalfEven_le (a : ℚ) (z : ℤ) (h : a ≤ z) : roundHalfEven a ≤ z := by
  have hf : ⌊a⌋ ≤ z := by
    have := Int.floor_le a
    exact_mod_cast (le_trans this h)
  rcases roundHalfEven_cases a with ⟨hr, -⟩ | ⟨hr, hhalf⟩
  · rw [hr]; exact hf
  · rw [hr]
    have hlt : (⌊a⌋ : ℚ) < z := by linarith
    have : ⌊a⌋ < z := by exact_mod_cast hlt
    omega

theorem le_roundHalfEven (a : ℚ) (z : ℤ) (h : (z : ℚ) ≤ a) : z ≤ roundHalfEven a := by
  have hf : z ≤ ⌊a⌋ := Int.le_floor.2 h
  rcases roundHalfEven_cases a with ⟨hr, -⟩ | ⟨hr, -⟩ <;> rw [hr] <;> omega

theorem abs_roundHalfEven_sub (a : ℚ) : |(roundHalfEven a : ℚ) - a| ≤ 1 / 2 := by
  have h1 := Int.floor_le a
  have h2 := Int.lt_floor_add_one a
  rw [abs_le]
  rcases roundHalfEven_cases a with ⟨hr, hh⟩ | ⟨hr, hh⟩
  · rw [hr]; constructor <;> linarith
  · rw [hr]; push_cast; constructor <;> linarith

theorem roundHalfEven_lt (a : ℚ) (z : ℤ) (h : a < z - 1 / 2) : roundHalfEven a < z := by
  have h1 := abs_le.1 (abs_roundHalfEven_sub a)
  have : (roundHalfEven a : ℚ) < z := by linarith [h1.2]
  exact_mod_cast this

theorem roundHalfEven_eq (a : ℚ) (m : ℤ) (h1 : (m : ℚ) - 1 / 2 < a) (h2 : a < m + 1 / 2) :
    roundHalfEven a = m := by
  have h := abs_le.1 (abs_roundHalfEven_sub a)
  have hlt : (roundHalfEven a : ℚ) < m + 1 := by linarith [h.2]
  have hgt : (m : ℚ) - 1 < roundHalfEven a := by linarith [h.1]
  have hlt2 : roundHalfEven a < m + 1 := by exact_mod_cast hlt
  have hgt2 : m - 1 < roundHalfEven a := by exact_mod_cast hgt
  omega

theorem roundHalfEven_intCast (z : ℤ) : roundHalfEven (z : ℚ) = z :=
  roundHalfEven_eq _ z (by linarith) (by linarith)

theorem ulp_pos (x : ℚ) : (0 : ℚ) < 2 ^ ulpExponent x := zpow_pos (by norm_num) _

theorem roundDouble_le_of_grid (x y : ℚ) (z : ℤ) (hy : y = z * 2 ^ ulpExponent x)
    (h : x ≤ y) : roundDouble x ≤ y := by
  unfold roundDouble
  rw [hy]
  have hu := ulp_pos x
  have hle : x / 2 ^ ulpExponent x ≤ z := by
    rw [div_le_iff₀ hu, ← hy]; exact h
  have := roundHalfEven_le _ z hle
  have hc : (roundHalfEven (x / 2 ^ ulpExponent x) : ℚ) ≤ z := by exact_mod_cast this
  exact mul_le_mul_of_nonneg_right hc (le_of_lt hu)

theorem le_roundDouble_of_grid (x y : ℚ) (z : ℤ) (hy : y = z * 2 ^ ulpExponent x)
    (h : y ≤ x) : y ≤ roundDouble x := by
  unfold roundDouble
  rw [hy]
  have hu := ulp_pos x
  have hle : (z : ℚ) ≤ x / 2 ^ ulpExponent x := by
    rw [le_div_iff₀ hu, ← hy]; exact h
  have := le_roundHalfEven _ z hle
  have hc : (z : ℚ) ≤ roundHalfEven (x / 2 ^ ulpExponent x) := by exact_mod_cast this
  exact mul_le_mul_of_nonneg_right hc (le_of_lt hu)

theorem roundDouble_lt_of_grid (x y : ℚ) (z : ℤ) (hy : y = z * 2 ^ ulpExponent x)
    (h : x + 2 ^ ulpExponent x / 2 < y) : roundDouble x < y := by
  unfold roundDouble
  rw [hy]
  have hu := ulp_pos x
  have hlt : x / 2 ^ ulpExponent x < z - 1 / 2 := by
    rw [div_lt_iff₀ hu]
    have : (↑z - 1 / 2) * (2:ℚ) ^ ulpExponent x = z * 2 ^ ulpExponent x - 2 ^ ulpExponent x / 2 := by
      ring
    rw [this, ← hy]; linarith
  have := roundHalfEven_lt _ z hlt
  have hc : (roundHalfEven (x / 2 ^ ulpExponent x) : ℚ) < z := by exact_mod_cast this
  exact mul_lt_mul_of_pos_right hc hu

theorem abs_roundDouble_sub (x : ℚ) : |roundDouble x - x| ≤ 2 ^ ulpExponent x / 2 := by
  unfold roundDouble
  have hu := ulp_pos x
  have h := abs_roundHalfEven_sub (x / 2 ^ ulpExponent x)
  have hx : x = x / 2 ^ ulpExponent x * 2 ^ ulpExponent x := by
    field_simp
  have : (roundHalfEven (x / 2 ^ ulpExponent x) : ℚ) * 2 ^ ulpExponent x - x =
      ((roundHalfEven (x / 2 ^ ulpExponent x) : ℚ) - x / 2 ^ ulpExponent x) *
        2 ^ ulpExponent x := by
    rw [sub_mul, ← hx]
  rw [this, abs_mul, abs_of_pos hu]
  calc |(roundHalfEven (x / 2 ^ ulpExponent x) : ℚ) - x / 2 ^ ulpExponent x| * 2 ^ ulpExponent x
      ≤ 1 / 2 * 2 ^ ulpExponent x := mul_le_mul_of_nonneg_right h (le_of_lt hu)
    _ = 2 ^ ulpExponent x / 2 := by ring

theorem roundDouble_zero : roundDouble 0 = 0 := by
  unfold roundDouble
  rw [zero_div]
  have : roundHalfEven 0 = 0 := by
    have := roundHalfEven_intCast 0
    simpa using this
  rw [this]; simp

theorem int_on_grid (n k : ℤ) (hk : k ≤ 0) : ∃ z : ℤ, (n : ℚ) = z * 2 ^ k := by
  refine ⟨n * 2 ^ (-k).toNat, ?_⟩
  have hk2 : k = -((-k).toNat : ℤ) := by
    rw [Int.toNat_of_nonneg (by omega)]; ring
  have : (2 : ℚ) ^ k = ((2 : ℚ) ^ (-k).toNat)⁻¹ := by
    conv_lhs => rw [hk2]
    rw [zpow_neg, zpow_natCast]
  rw [this]
  push_cast
  field_simp

theorem intLog_lt (x : ℚ) (k : ℤ) (hx : 0 < x) (h : x < 2 ^ k) : Int.log 2 x < k :=
  (Int.lt_zpow_iff_log_lt (by norm_num) hx).1 (by exact_mod_cast h)

theorem le_intLog (x : ℚ) (k : ℤ) (hx : 0 < x) (h : 2 ^ k ≤ x) : k ≤ Int.log 2 x :=
  (Int.zpow_le_iff_le_log (by norm_num) hx).1 (by exact_mod_cast h)

theorem ulpExponent_eq (x : ℚ) (e : ℤ) (he : -1022 ≤ e) (h1 : 2 ^ e ≤ |x|)
    (h2 : |x| < 2 ^ (e + 1)) : ulpExponent x = e - 52 := by
  have hpos : 0 < |x| := lt_of_lt_of_le (zpow_pos (by norm_num) _) h1
  have ha := intLog_lt |x| (e + 1) hpos h2
  have hb := le_intLog |x| e hpos h1
  unfold ulpExponent
  have : Int.log 2 |x| = e := by omega
  rw [this, max_eq_left he]

theorem ulpExponent_le (x : ℚ) (k : ℤ) (hk : -1022 ≤ k) (hx : x ≠ 0) (h : |x| < 2 ^ (k + 1)) :
    ulpExponent x ≤ k - 52 := by
  have hpos : 0 < |x| := abs_pos.2 hx
  have ha := intLog_lt |x| (k + 1) hpos h
  unfold ulpExponent
  have : max (Int.log 2 |x|) (-1022) ≤ k := max_le (by omega) hk
  omega

theorem roundDouble_eq (x : ℚ) (e m : ℤ) (he : -1022 ≤ e) (h1 : 2 ^ e ≤ |x|)
    (h2 : |x| < 2 ^ (e + 1)) (hm1 : (m : ℚ) - 1 / 2 < x / 2 ^ (e - 52))
    (hm2 : x / 2 ^ (e - 52) < m + 1 / 2) : roundDouble x = m * 2 ^ (e - 52) := by
  unfold roundDouble
  rw [ulpExponent_eq x e he h1 h2, roundHalfEven_eq _ m hm1 hm2]

theorem ulpExponent_nonpos (x : ℚ) (hx : x ≠ 0) (hb : |x| < 2 ^ 53) : ulpExponent x ≤ 0 := by
  have := ulpExponent_le x 52 (by norm_num) hx (by norm_num; exact hb)
  omega

theorem roundDouble_le_intCast (x : ℚ) (n : ℤ) (hx : x ≤ n) (hb : |x| < 2 ^ 53) :
    roundDouble x ≤ n := by
  by_cases h0 : x = 0
  · rw [h0, roundDouble_zero]; rw [h0] at hx; exact hx
  · obtain ⟨z, hz⟩ := int_on_grid n (ulpExponent x) (ulpExponent_nonpos x h0 hb)
    exact roundDouble_le_of_grid x n z hz hx

theorem intCast_le_roundDouble (x : ℚ) (n : ℤ) (hx : (n : ℚ) ≤ x) (hb : |x| < 2 ^ 53) :
    (n : ℚ) ≤ roundDouble x := by
  by_cases h0 : x = 0
  · rw [h0, roundDouble_zero]; rw [h0] at hx; exact hx
  · obtain ⟨z, hz⟩ := int_on_grid n (ulpExponent x) (ulpExponent_nonpos x h0 hb)
    exact le_roundDouble_of_grid x n z hz hx

theorem floor_roundDouble (x : ℚ) (n : ℤ) (hn : (n : ℚ) ≤ x) (hb : |x| < 2 ^ 53)
    (hgap : x + 2 ^ ulpExponent x / 2 < n + 1) : ⌊roundDouble x⌋ = n := by
  rw [Int.floor_eq_iff]
  refine ⟨intCast_le_roundDouble x n hn hb, ?_⟩
  by_cases h0 : x = 0
  · rw [h0, roundDouble_zero]
    have := ulp_pos x
    rw [h0] at hgap
    have h1 := ulp_pos (0 : ℚ)
    linarith
  · obtain ⟨z, hz⟩ := int_on_grid (n + 1) (ulpExponent x) (ulpExponent_nonpos x h0 hb)
    have hz2 : (n : ℚ) + 1 = z * 2 ^ ulpExponent x := by
      rw [← hz]; push_cast; ring
    exact roundDouble_lt_of_grid x _ z hz2 hgap

theorem ulp_le_of_normal (x : ℚ) (hx : (2 : ℚ) ^ (-1022 : ℤ) ≤ |x|) :
    (2 : ℚ) ^ ulpExponent x ≤ |x| / 2 ^ 52 := by
  have hpos : 0 < |x| := lt_of_lt_of_le (zpow_pos (by norm_num) _) hx
  have hlog := le_intLog |x| (-1022) hpos hx
  unfold ulpExponent
  rw [max_eq_left hlog, zpow_sub₀ (by norm_num)]
  have h := Int.zpow_log_le_self (b := 2) (r := |x|) (by norm_num) hpos
  have h2 : (2 : ℚ) ^ Int.log 2 |x| ≤ |x| := by exact_mod_cast h
  have : (2 : ℚ) ^ (52 : ℤ) = 2 ^ 52 := by norm_num
  rw [this]
  exact div_le_div_of_nonneg_right h2 (by norm_num)

theorem abs_roundDouble_sub_le (x : ℚ) (hx : (2 : ℚ) ^ (-1022 : ℤ) ≤ |x|) :
    |roundDouble x - x| ≤ |x| / 2 ^ 53 := by
  have h1 := abs_roundDouble_sub x
  have h2 := ulp_le_of_normal x hx
  have : |x| / 2 ^ 53 = |x| / 2 ^ 52 / 2 := by ring
  rw [this]
  linarith

theorem floor_roundDouble_div (t : ℚ) (k : ℤ) (d j : ℕ) (ht0 : 0 ≤ t)
    (htk : t < 2 ^ (k + 53)) (hk : k ≤ 0) (hkj : -1022 ≤ k + 52 - j)
    (hgrid : ∃ M : ℤ, t = M * 2 ^ k) (hd1 : 2 ^ j ≤ d) (hd2 : d < 2 ^ (j + 1)) :
    ⌊roundDouble (t / d)⌋ = ⌊t / (d : ℚ)⌋ := by
  have hdpos : (0 : ℚ) < d := by
    have : 0 < d := lt_of_lt_of_le (Nat.pos_pow_of_pos j (by norm_num)) hd1
    exact_mod_cast this
  have hd1q : (2 : ℚ) ^ j ≤ d := by exact_mod_cast hd1
  have hd2q : (d : ℚ) < 2 ^ (j + 1) := by exact_mod_cast hd2
  have hx0 : 0 ≤ t / (d : ℚ) := div_nonneg ht0 (le_of_lt hdpos)
  -- the quotient is below 2 ^ (k + 53 - j)
  have hxlt : t / (d : ℚ) < 2 ^ (k + 53 - j) := by
    rw [div_lt_iff₀ hdpos]
    have h2 : (2 : ℚ) ^ (k + 53 - (j : ℤ)) * 2 ^ j = 2 ^ (k + 53) := by
      rw [← zpow_natCast, ← zpow_add₀ (by norm_num)]
      congr 1; ring
    calc t < 2 ^ (k + 53) := htk
      _ = 2 ^ (k + 53 - (j : ℤ)) * 2 ^ j := h2.symm
      _ ≤ 2 ^ (k + 53 - (j : ℤ)) * d :=
        mul_le_mul_of_nonneg_left hd1q (le_of_lt (zpow_pos (by norm_num) _))
  have hb : |t / (d : ℚ)| < 2 ^ 53 := by
    rw [abs_of_nonneg hx0]
    refine lt_of_lt_of_le hxlt ?_
    have h53 : (2 : ℚ) ^ (k + 53 - (j : ℤ)) ≤ 2 ^ (53 : ℤ) :=
      zpow_le_zpow_right₀ (by norm_num) (by omega)
    have e53 : (2 : ℚ) ^ (53 : ℤ) = 2 ^ 53 := by norm_num
    rw [e53] at h53
    exact h53
  apply floor_roundDouble _ _ (Int.floor_le _) hb
  by_cases h0 : t = 0
  · -- a zero dividend
    rw [h0, zero_div]
    have hu : (2 : ℚ) ^ ulpExponent 0 ≤ 1 := by
      have : ulpExponent (0 : ℚ) ≤ 0 := by
        unfold ulpExponent; simp
      have h := zpow_le_zpow_right₀ (a := (2 : ℚ)) (by norm_num) this
      simpa using h
    simp only [Int.floor_zero, Int.cast_zero]
    linarith
  · have htpos : 0 < t := lt_of_le_of_ne ht0 (Ne.symm h0)
    have hxpos : 0 < t / (d : ℚ) := div_pos htpos hdpos
    -- the unit in the last place of the quotient
    have hue : ulpExponent (t / (d : ℚ)) ≤ k - j := by
      have := ulpExponent_le (t / (d : ℚ)) (k + 52 - j) hkj (ne_of_gt hxpos)
        (by rw [abs_of_nonneg hx0]
            have : k + 52 - (j : ℤ) + 1 = k + 53 - j := by ring
            rw [this]; exact hxlt)
      omega
    have hulp : (2 : ℚ) ^ ulpExponent (t / (d : ℚ)) ≤ 2 ^ k / 2 ^ j := by
      have h := zpow_le_zpow_right₀ (a := (2 : ℚ)) (by norm_num) hue
      rw [zpow_sub₀ (by norm_num), zpow_natCast] at h
      exact h
    -- the next multiple of the divisor is at least one unit of the dividend away
    obtain ⟨M, hM⟩ := hgrid
    obtain ⟨K, hK⟩ := int_on_grid ((d : ℤ) * (⌊t / (d : ℚ)⌋ + 1)) k hk
    have hg : (0 : ℚ) < 2 ^ k := zpow_pos (by norm_num) _
    have hnext : t < (d : ℚ) * (⌊t / (d : ℚ)⌋ + 1) := by
      have := Int.lt_floor_add_one (t / (d : ℚ))
      rw [div_lt_iff₀ hdpos] at this
      linarith
    have hK2 : (d : ℚ) * (⌊t / (d : ℚ)⌋ + 1) = K * 2 ^ k := by
      rw [← hK]; push_cast; ring
    have hMK : M < K := by
      have : (M : ℚ) * 2 ^ k < K * 2 ^ k := by rw [← hM, ← hK2]; exact hnext
      have := lt_of_mul_lt_mul_right this (le_of_lt hg)
      exact_mod_cast this
    have hstep : t + 2 ^ k ≤ (d : ℚ) * (⌊t / (d : ℚ)⌋ + 1) := by
      rw [hK2, hM]
      have : (M : ℚ) + 1 ≤ K := by exact_mod_cast hMK
      nlinarith
    have hgap : t / (d : ℚ) + 2 ^ k / d ≤ ⌊t / (d : ℚ)⌋ + 1 := by
      rw [← add_div, div_le_iff₀ hdpos]
      linarith
    have hhalf : (2 : ℚ) ^ k / 2 ^ j / 2 < 2 ^ k / d := by
      have h2j : (0 : ℚ) < 2 ^ j := pow_pos (by norm_num) _
      rw [div_div, div_lt_div_iff₀ (by positivity) hdpos]
      have : (d : ℚ) < 2 ^ j * 2 := by
        rw [pow_succ] at hd2q; exact hd2q
      nlinarith
    linarith

theorem roundDouble_intCast (n : ℤ) (h : |(n : ℚ)| < 2 ^ 53) : roundDouble (n : ℚ) = n :=
  le_antisymm (roundDouble_le_intCast _ n le_rfl h) (intCast_le_roundDouble _ n le_rfl h)

theorem percent_bounds (r c : ℕ) (hc : 0 < c) (hrc : r ≤ c) :
    0 ≤ roundDouble (roundDouble ((r : ℚ) / (c : ℚ)) * 100) ∧
    roundDouble (roundDouble ((r : ℚ) / (c : ℚ)) * 100) ≤ 100 := by
  have hcq : (0 : ℚ) < c := by exact_mod_cast hc
  have hq0 : (0 : ℚ) ≤ (r : ℚ) / c := by positivity
  have hq1 : (r : ℚ) / c ≤ 1 := by
    rw [div_le_one hcq]; exact_mod_cast hrc
  have hqb : |(r : ℚ) / c| < 2 ^ 53 := by
    rw [abs_of_nonneg hq0]
    exact lt_of_le_of_lt hq1 (by norm_num)
  have h0 : (0 : ℚ) ≤ roundDouble ((r : ℚ) / c) := by
    have := intCast_le_roundDouble _ 0 (by simpa using hq0) hqb
    simpa using this
  have h1 : roundDouble ((r : ℚ) / c) ≤ 1 := by
    have := roundDouble_le_intCast _ 1 (by simpa using hq1) hqb
    simpa using this
  have hv0 : (0 : ℚ) ≤ roundDouble ((r : ℚ) / c) * 100 := by positivity
  have hv1 : roundDouble ((r : ℚ) / c) * 100 ≤ 100 := by linarith
  have hvb : |roundDouble ((r : ℚ) / c) * 100| < 2 ^ 53 := by
    rw [abs_of_nonneg hv0]
    exact lt_of_le_of_lt hv1 (by norm_num)
  constructor
  · have := intCast_le_roundDouble _ 0 (by simpa using hv0) hvb
    simpa using this
  · have := roundDouble_le_intCast _ 100 (by simpa using hv1) hvb
    simpa using this

theorem percent_error (r c : ℕ) (hc : 0 < c) (hr53 : r < 2 ^ 53) (hc53 : c < 2 ^ 53) :
    |roundDouble (roundDouble ((r : ℚ) / (c : ℚ)) * 100) - (r : ℚ) / (c : ℚ) * 100| ≤
      (r : ℚ) / (c : ℚ) * 100 / 2 ^ 51 := by
  have hcq : (0 : ℚ) < c := by exact_mod_cast hc
  rcases Nat.eq_zero_or_pos r with hr0 | hrpos
  · subst hr0
    simp [roundDouble_zero]
  have hrq : (1 : ℚ) ≤ r := by exact_mod_cast hrpos
  have hc53q : (c : ℚ) < 2 ^ 53 := by exact_mod_cast hc53
  have hqpos : (0 : ℚ) < (r : ℚ) / c := by positivity
  have hqlow : (1 : ℚ) / 2 ^ 53 < (r : ℚ) / c := by
    rw [div_lt_div_iff₀ (by positivity) hcq]
    nlinarith
  have hsmall : (2 : ℚ) ^ (-1022 : ℤ) ≤ 1 / 2 ^ 54 := by
    rw [zpow_neg, one_div]
    apply inv_anti₀ (by positivity)
    have h := zpow_le_zpow_right₀ (a := (2 : ℚ)) (by norm_num) (show (54 : ℤ) ≤ 1022 by norm_num)
    exact_mod_cast h
  have hn1 : (2 : ℚ) ^ (-1022 : ℤ) ≤ |(r : ℚ) / c| := by
    rw [abs_of_pos hqpos]
    have : (1 : ℚ) / 2 ^ 54 ≤ 1 / 2 ^ 53 := by norm_num
    linarith
  have he1 := abs_le.1 (abs_roundDouble_sub_le _ hn1)
  rw [abs_of_pos hqpos] at he1
  have hhalf : (r : ℚ) / c / 2 ≤ roundDouble ((r : ℚ) / c) := by
    have : (r : ℚ) / c / 2 ^ 53 ≤ (r : ℚ) / c / 2 := by
      apply div_le_div_of_nonneg_left (le_of_lt hqpos) (by norm_num) (by norm_num)
    linarith [he1.1]
  have hvpos : (0 : ℚ) < roundDouble ((r : ℚ) / c) * 100 := by
    have : (0 : ℚ) < roundDouble ((r : ℚ) / c) := by linarith
    positivity
  have hn2 : (2 : ℚ) ^ (-1022 : ℤ) ≤ |roundDouble ((r : ℚ) / c) * 100| := by
    rw [abs_of_pos hvpos]
    have h54 : (1 : ℚ) / 2 ^ 54 = 1 / 2 ^ 53 / 2 := by norm_num
    nlinarith
  have he2 := abs_le.1 (abs_roundDouble_sub_le _ hn2)
  rw [abs_of_pos hvpos] at he2
  have e53 : (0 : ℚ) < 2 ^ 53 := by positivity
  have key1 : roundDouble ((r : ℚ) / c) ≤ (r : ℚ) / c * (1 + 1 / 2 ^ 53) := by
    have : (r : ℚ) / c * (1 + 1 / 2 ^ 53) = (r : ℚ) / c + (r : ℚ) / c / 2 ^ 53 := by ring
    rw [this]; linarith [he1.2]
  have key2 : (r : ℚ) / c * (1 - 1 / 2 ^ 53) ≤ roundDouble ((r : ℚ) / c) := by
    have : (r : ℚ) / c * (1 - 1 / 2 ^ 53) = (r : ℚ) / c - (r : ℚ) / c / 2 ^ 53 := by ring
    rw [this]; linarith [he1.1]
  rw [abs_le]
  generalize roundDouble (roundDouble ((r : ℚ) / c) * 100) = P at he2 ⊢
  generalize roundDouble ((r : ℚ) / c) = Q at he2 key1 key2 hvpos hhalf
  generalize (r : ℚ) / c = q at hqpos key1 key2 ⊢
  have hQ : 0 < Q := by linarith
  constructor
  · -- P ≥ Q*100*(1 - 1/2^53) ≥ q*100*(1-1/2^53)^2
    have h1 : Q * 100 * (1 - 1 / 2 ^ 53) ≤ P := by
      have : Q * 100 * (1 - 1 / 2 ^ 53) = Q * 100 - Q * 100 / 2 ^ 53 := by ring
      rw [this]; linarith [he2.1]
    have h2 : q * (1 - 1 / 2 ^ 53) * 100 * (1 - 1 / 2 ^ 53) ≤ Q * 100 * (1 - 1 / 2 ^ 53) := by
      have : (0 : ℚ) ≤ 100 * (1 - 1 / 2 ^ 53) := by norm_num
      nlinarith
    have h3 : q * 100 - q * 100 / 2 ^ 51 ≤ q * (1 - 1 / 2 ^ 53) * 100 * (1 - 1 / 2 ^ 53) := by
      have : q * (1 - 1 / 2 ^ 53) * 100 * (1 - 1 / 2 ^ 53) - (q * 100 - q * 100 / 2 ^ 51) =
          q * 100 * (1 / 2 ^ 51 - 2 / 2 ^ 53 + 1 / 2 ^ 106) := by ring
      have hpos : (0 : ℚ) ≤ q * 100 * (1 / 2 ^ 51 - 2 / 2 ^ 53 + 1 / 2 ^ 106) := by
        have : (0 : ℚ) ≤ 1 / 2 ^ 51 - 2 / 2 ^ 53 + 1 / 2 ^ 106 := by norm_num
        positivity
      linarith
    linarith
  · have h1 : P ≤ Q * 100 * (1 + 1 / 2 ^ 53) := by
      have : Q * 100 * (1 + 1 / 2 ^ 53) = Q * 100 + Q * 100 / 2 ^ 53 := by ring
      rw [this]; linarith [he2.2]
    have h2 : Q * 100 * (1 + 1 / 2 ^ 53) ≤ q * (1 + 1 / 2 ^ 53) * 100 * (1 + 1 / 2 ^ 53) := by
      have : (0 : ℚ) ≤ 100 * (1 + 1 / 2 ^ 53) := by norm_num
      nlinarith
    have h3 : q * (1 + 1 / 2 ^ 53) * 100 * (1 + 1 / 2 ^ 53) ≤ q * 100 + q * 100 / 2 ^ 51 := by
      have : q * 100 + q * 100 / 2 ^ 51 - q * (1 + 1 / 2 ^ 53) * 100 * (1 + 1 / 2 ^ 53) =
          q * 100 * (1 / 2 ^ 51 - 2 / 2 ^ 53 - 1 / 2 ^ 106) := by ring
      have hpos : (0 : ℚ) ≤ q * 100 * (1 / 2 ^ 51 - 2 / 2 ^ 53 - 1 / 2 ^ 106) := by
        have : (0 : ℚ) ≤ 1 / 2 ^ 51 - 2 / 2 ^ 53 - 1 / 2 ^ 106 := by norm_num
        positivity
      linarith
    linarith

/-! ## C30 -/

theorem floor_div_nat_of_nonneg (q : ℚ) (k : ℕ) (hq : 0 ≤ q) :
    ⌊q / (k : ℚ)⌋ = ((⌊q⌋₊ / k : ℕ) : ℤ) := by
  rw [← Nat.floor_div_nat, Int.natCast_floor_eq_floor]
  exact div_nonneg hq (Nat.cast_nonneg k)

theorem jsRemainder_of_nonneg (q : ℚ) (k : ℕ) (hq : 0 ≤ q) :
    jsRemainder q (k : ℚ) = q - ((k * (⌊q⌋₊ / k) : ℕ) : ℚ) := by
  unfold jsRemainder
  rw [if_pos (div_nonneg hq (Nat.cast_nonneg k)), floor_div_nat_of_nonneg q k hq,
    Nat.cast_mul, Int.cast_natCast]

theorem floor_sub_natCast (q : ℚ) (m : ℕ) (hm : m ≤ ⌊q⌋₊) (hq : 0 ≤ q) :
    ⌊q - (m : ℚ)⌋₊ = ⌊q⌋₊ - m := by
  have hmq : (m : ℚ) ≤ q := (Nat.le_floor_iff hq).1 hm
  rw [Nat.floor_eq_iff (sub_nonneg.2 hmq)]
  have h1 := Nat.floor_le hq
  have h2 := Nat.lt_floor_add_one q
  have hcast : ((⌊q⌋₊ - m : ℕ) : ℚ) = (⌊q⌋₊ : ℚ) - (m : ℚ) := by
    rw [Nat.cast_sub hm]
  rw [hcast]
  constructor <;> linarith

theorem padStart2_toString : ∀ m, m < 60 → padStart2 (toString m) = twoDigits m := by
  decide

theorem formatTime_parts (q : ℚ) (hq : 1 ≤ q) :
    ⌊q / 3600⌋ = ((⌊q⌋₊ / 3600 : ℕ) : ℤ) ∧
    ⌊jsRemainder q 3600 / 60⌋ = ((⌊q⌋₊ % 3600 / 60 : ℕ) : ℤ) ∧
    ⌊jsRemainder q 60⌋ = ((⌊q⌋₊ % 60 : ℕ) : ℤ) := by
  have hq0 : (0 : ℚ) ≤ q := by linarith
  refine ⟨?_, ?_, ?_⟩
  · have := floor_div_nat_of_nonneg q 3600 hq0
    simpa using this
  · have hrem := jsRemainder_of_nonneg q 3600 hq0
    have hle : 3600 * (⌊q⌋₊ / 3600) ≤ ⌊q⌋₊ := Nat.mul_div_le _ _
    have hnn : (0 : ℚ) ≤ q - ((3600 * (⌊q⌋₊ / 3600) : ℕ) : ℚ) :=
      sub_nonneg.2 ((Nat.le_floor_iff hq0).1 hle)
    have h1 := floor_div_nat_of_nonneg _ 60 hnn
    rw [floor_sub_natCast q _ hle hq0] at h1
    have hmod : ⌊q⌋₊ - 3600 * (⌊q⌋₊ / 3600) = ⌊q⌋₊ % 3600 := by
      have := Nat.div_add_mod ⌊q⌋₊ 3600
      omega
    rw [hmod] at h1
    have hcast : ((3600 : ℕ) : ℚ) = 3600 := by norm_num
    rw [hcast] at hrem
    rw [hrem]
    simpa using h1
  · have hrem := jsRemainder_of_nonneg q 60 hq0
    have hle : 60 * (⌊q⌋₊ / 60) ≤ ⌊q⌋₊ := Nat.mul_div_le _ _
    have hnn : (0 : ℚ) ≤ q - ((60 * (⌊q⌋₊ / 60) : ℕ) : ℚ) :=
      sub_nonneg.2 ((Nat.le_floor_iff hq0).1 hle)
    have h1 := floor_sub_natCast q _ hle hq0
    have hmod : ⌊q⌋₊ - 60 * (⌊q⌋₊ / 60) = ⌊q⌋₊ % 60 := by
      have := Nat.div_add_mod ⌊q⌋₊ 60
      omega
    rw [hmod] at h1
    have hcast : ((60 : ℕ) : ℚ) = 60 := by norm_num
    rw [hcast] at hrem
    rw [hrem, ← Int.natCast_floor_eq_floor hnn, h1]

theorem double_on_grid (q : ℚ) (hd : roundDouble q = q) :
    ∃ M : ℤ, q = M * 2 ^ ulpExponent q :=
  ⟨roundHalfEven (q / 2 ^ ulpExponent q), hd.symm⟩

theorem formatTime_quotients (q : ℚ) (hq1 : 1 ≤ q) (hq2 : q < 2 ^ 53)
    (hd : roundDouble q = q) :
    ⌊roundDouble (q / 3600)⌋ = ⌊q / 3600⌋ ∧
    ⌊roundDouble (jsRemainder q 3600 / 60)⌋ = ⌊jsRemainder q 3600 / 60⌋ := by
  have hq0 : (0 : ℚ) ≤ q := by linarith
  have hqpos : (0 : ℚ) < q := by linarith
  have habs : |q| = q := abs_of_nonneg hq0
  have hk : ulpExponent q ≤ 0 := ulpExponent_nonpos q (ne_of_gt hqpos) (by rw [habs]; exact hq2)
  have hlog : 0 ≤ Int.log 2 |q| := le_intLog |q| 0 (by rw [habs]; exact hqpos)
    (by rw [habs]; simpa using hq1)
  have hkeq : ulpExponent q = Int.log 2 |q| - 52 := by
    unfold ulpExponent
    rw [max_eq_left (by omega)]
  have htk : q < 2 ^ (ulpExponent q + 53) := by
    have h := Int.lt_zpow_succ_log_self (b := 2) (by norm_num) |q|
    have h2 : |q| < (2 : ℚ) ^ (Int.log 2 |q| + 1) := by exact_mod_cast h
    have : ulpExponent q + 53 = Int.log 2 |q| + 1 := by omega
    rw [this]
    exact lt_of_le_of_lt (le_abs_self q) h2
  obtain ⟨M, hM⟩ := double_on_grid q hd
  constructor
  · have h := floor_roundDouble_div q (ulpExponent q) 3600 11 hq0 htk hk (by omega) ⟨M, hM⟩
      (by norm_num) (by norm_num)
    simpa using h
  · have hrem := jsRemainder_of_nonneg q 3600 hq0
    have hcast : ((3600 : ℕ) : ℚ) = 3600 := by norm_num
    rw [hcast] at hrem
    have hle : 3600 * (⌊q⌋₊ / 3600) ≤ ⌊q⌋₊ := Nat.mul_div_le _ _
    have hnn : (0 : ℚ) ≤ q - ((3600 * (⌊q⌋₊ / 3600) : ℕ) : ℚ) :=
      sub_nonneg.2 ((Nat.le_floor_iff hq0).1 hle)
    have hlt : q - ((3600 * (⌊q⌋₊ / 3600) : ℕ) : ℚ) < 2 ^ (ulpExponent q + 53) := by
      have : (0 : ℚ) ≤ ((3600 * (⌊q⌋₊ / 3600) : ℕ) : ℚ) := Nat.cast_nonneg _
      linarith
    obtain ⟨K, hK⟩ := int_on_grid ((3600 * (⌊q⌋₊ / 3600) : ℕ) : ℤ) (ulpExponent q) hk
    have hgrid : ∃ N : ℤ, q - ((3600 * (⌊q⌋₊ / 3600) : ℕ) : ℚ) = N * 2 ^ ulpExponent q := by
      refine ⟨M - K, ?_⟩
      have hK2 : ((3600 * (⌊q⌋₊ / 3600) : ℕ) : ℚ) = K * 2 ^ ulpExponent q := by
        rw [← hK]; norm_cast
      rw [hK2]
      push_cast
      rw [sub_mul, ← hM]
    have h := floor_roundDouble_div _ (ulpExponent q) 60 5 hnn hlt hk (by omega) hgrid
      (by norm_num) (by norm_num)
    rw [hrem]
    simpa using h

theorem jsToString_natCast (k : ℕ) (hk : k < 2 ^ 53) : jsToString ((k : ℕ) : ℤ) = toString k := by
  unfold jsToString
  rw [if_pos (by simpa using hk)]
  rfl

theorem floor_large_hours : ⌊((10 : ℚ) ^ 19) / 3600⌋ = 2777777777777777 := by
  rw [Int.floor_eq_iff]
  constructor <;> norm_num

/-- C30, refuted as stated: `1e19` is a double and at least 1, but `1e19 / 3600` is rounded
up to `2777777777777778` before `Math.floor`, where `floor(1e19 / 3600)` is
`2777777777777777`: `formatTime(1e19)` is `2777777777777778:46:40`, and
`3600 * h + 60 * m + s` exceeds `floor(seconds)`.  And the infinite value `-Infinity` is not
caught by the guard: it is rendered `NaN:NaN`, not `--:--`. -/
theorem formatTime_large_seconds :
    roundDouble (10 ^ 19) = 10 ^ 19 ∧
    formatTime (JsNumber.num (10 ^ 19)) = "2777777777777778:46:40" ∧
    ⌊((10 : ℚ) ^ 19) / 3600⌋ = 2777777777777777 ∧
    (3600 * 2777777777777778 + 60 * 46 + 40 : ℤ) ≠ ⌊((10 : ℚ) ^ 19)⌋ ∧
    formatTime JsNumber.negInfinity = "NaN:NaN" := by
  have hdouble : roundDouble (10 ^ 19) = 10 ^ 19 := by
    rw [roundDouble_eq (10 ^ 19) 63 4882812500000000 (by norm_num) (by norm_num [abs_of_pos])
      (by norm_num [abs_of_pos]) (by norm_num) (by norm_num)]
    norm_num
  have hhrs : ⌊roundDouble ((10 : ℚ) ^ 19 / 3600)⌋ = 2777777777777778 := by
    rw [roundDouble_eq (10 ^ 19 / 3600) 51 5555555555555556 (by norm_num)
      (by norm_num [abs_of_pos]) (by norm_num [abs_of_pos]) (by norm_num) (by norm_num)]
    rw [Int.floor_eq_iff]
    constructor <;> norm_num
  have hrem : jsRemainder ((10 : ℚ) ^ 19) 3600 = 2800 := by
    unfold jsRemainder
    rw [if_pos (by norm_num), floor_large_hours]
    norm_num
  have hmins : ⌊roundDouble (jsRemainder ((10 : ℚ) ^ 19) 3600 / 60)⌋ = 46 := by
    rw [hrem]
    have hu : ulpExponent ((2800 : ℚ) / 60) = 5 - 52 :=
      ulpExponent_eq _ 5 (by norm_num) (by norm_num [abs_of_pos]) (by norm_num [abs_of_pos])
    apply floor_roundDouble _ 46 (by norm_num) (by norm_num [abs_of_pos])
    rw [hu]
    norm_num
  have hsecs : ⌊jsRemainder ((10 : ℚ) ^ 19) 60⌋ = 40 := by
    unfold jsRemainder
    have hf : ⌊((10 : ℚ) ^ 19) / 60⌋ = 166666666666666666 := by
      rw [Int.floor_eq_iff]
      constructor <;> norm_num
    rw [if_pos (by norm_num), hf]
    rw [Int.floor_eq_iff]
    constructor <;> norm_num
  refine ⟨hdouble, ?_, floor_large_hours, ?_, rfl⟩
  · unfold formatTime
    simp only [hhrs, hmins, hsecs]
    rw [if_neg (by norm_num)]
    decide
  · have : ⌊((10 : ℚ) ^ 19)⌋ = 10 ^ 19 := by
      rw [Int.floor_eq_iff]
      constructor <;> norm_num
    rw [this]
    norm_num

/-- C30, amended: for every finite `seconds` with `1 ≤ seconds < 2 ^ 53` (`seconds` being a
double), with `n = floor(seconds)`, `h = n / 3600`, `m = n % 3600 / 60` and `s = n % 60`
(so that `m < 60`, `s < 60` and `3600 * h + 60 * m + s = n`), `formatTime` returns `m:ss`
when `h = 0` and `h:mm:ss` when `h > 0`, minutes (after hours) and seconds being written
with two digits; and it returns `--:--` when `seconds` is 0, missing or `Infinity`. -/
theorem formatTime_spec (q : ℚ) (hq : 1 ≤ q) (hlt : q < 2 ^ 53) (hd : roundDouble q = q) :
    ⌊q⌋₊ % 3600 / 60 < 60 ∧ ⌊q⌋₊ % 60 < 60 ∧
    3600 * (⌊q⌋₊ / 3600) + 60 * (⌊q⌋₊ % 3600 / 60) + ⌊q⌋₊ % 60 = ⌊q⌋₊ ∧
    formatTime (JsNumber.num q) =
      (if ⌊q⌋₊ / 3600 = 0 then
        toString (⌊q⌋₊ % 3600 / 60) ++ ":" ++ twoDigits (⌊q⌋₊ % 60)
      else
        toString (⌊q⌋₊ / 3600) ++ ":" ++ twoDigits (⌊q⌋₊ % 3600 / 60) ++ ":" ++
          twoDigits (⌊q⌋₊ % 60)) ∧
    formatTime (JsNumber.num 0) = "--:--" ∧
    formatTime JsNumber.missing = "--:--" ∧
    formatTime JsNumber.infinity = "--:--" := by
  have hm : ⌊q⌋₊ % 3600 / 60 < 60 := by omega
  have hs : ⌊q⌋₊ % 60 < 60 := by omega
  refine ⟨hm, hs, by omega, ?_, ?_, rfl, rfl⟩
  · obtain ⟨h1, h2, h3⟩ := formatTime_parts q hq
    obtain ⟨r1, r2⟩ := formatTime_quotients q hq hlt hd
    have hq0 : q ≠ 0 := by
      intro h0; rw [h0] at hq; norm_num at hq
    have hfl : ⌊q⌋₊ < 2 ^ 53 := by
      have : (⌊q⌋₊ : ℚ) ≤ q := Nat.floor_le (by linarith)
      have : (⌊q⌋₊ : ℚ) < 2 ^ 53 := by linarith
      exact_mod_cast this
    unfold formatTime
    simp only [hq0, if_false, r1, r2, h1, h2, h3]
    rw [jsToString_natCast _ (by omega), jsToString_natCast _ (by omega),
      jsToString_natCast _ (by omega)]
    simp only [padStart2_toString _ hm, padStart2_toString _ hs]
    by_cases hh : ⌊q⌋₊ / 3600 = 0
    · have hnot : ¬ ((⌊q⌋₊ / 3600 : ℕ) : ℤ) > 0 := by
        rw [hh]; simp
      rw [if_neg hnot, if_pos hh]
    · have hpos : ((⌊q⌋₊ / 3600 : ℕ) : ℤ) > 0 := by
        exact_mod_cast Nat.pos_of_ne_zero hh
      rw [if_pos hpos, if_neg hh]
  · simp [formatTime]


/-- A witness for the amended C30: 3725.5 seconds, a double, are written `1:02:05`. -/
theorem formatTime_spec_witness :
    roundDouble (7451 / 2) = 7451 / 2 ∧ formatTime (JsNumber.num (7451 / 2)) = "1:02:05" := by
  have hd : roundDouble (7451 / 2) = 7451 / 2 := by
    rw [roundDouble_eq (7451 / 2) 11 8192461138558976 (by norm_num) (by norm_num [abs_of_pos])
      (by norm_num [abs_of_pos]) (by norm_num) (by norm_num)]
    norm_num
  have h := (formatTime_spec (7451 / 2) (by norm_num) (by norm_num) hd).2.2.2.1
  have hf : ⌊(7451 / 2 : ℚ)⌋₊ = 3725 := by
    rw [Nat.floor_eq_iff (by norm_num)]
    constructor <;> norm_num
  rw [hf] at h
  exact ⟨hd, h.trans (by decide)⟩

/-! ## The read loop of downloadFile -/

theorem elapsed_ge_half_iff (l : ReadLoop) (now : Nat) :
    elapsedSeconds l now ≥ 1 / 2 ↔ l.lastUpdate + 500 ≤ now := by
  unfold elapsedSeconds
  rw [ge_iff_le, le_div_iff₀ (by norm_num : (0 : ℚ) < 1000)]
  constructor
  · intro h
    have h' : ((l.lastUpdate + 500 : ℕ) : ℚ) ≤ (now : ℚ) := by
      push_cast; linarith
    exact_mod_cast h'
  · intro h
    have h' : ((l.lastUpdate + 500 : ℕ) : ℚ) ≤ (now : ℚ) := by exact_mod_cast h
    push_cast at h'
    linarith

theorem readChunk_receivedLength (cl : Nat) (l : ReadLoop) (len now : Nat) :
    (readChunk cl l len now).receivedLength = l.receivedLength + len := by
  unfold readChunk
  simp only []
  split <;> rfl

theorem readChunk_downloadedBytes (cl : Nat) (l : ReadLoop) (len now : Nat) :
    (readChunk cl l len now).item.downloadedBytes = l.receivedLength + len := by
  unfold readChunk
  simp only []
  split <;> split <;> rfl

theorem readChunk_progress (cl : Nat) (l : ReadLoop) (len now : Nat) :
    (readChunk cl l len now).item.progress =
      if cl > 0 then
        (mathRound (roundDouble
          (roundDouble (((l.receivedLength + len : ℕ) : ℚ) / (cl : ℚ)) * 100))).toNat
      else l.item.progress := by
  unfold readChunk
  simp only []
  split <;> split <;> rfl

theorem readChunk_sample (cl : Nat) (l : ReadLoop) (len now : Nat)
    (h : elapsedSeconds l now ≥ 1 / 2) :
    (readChunk cl l len now).item.speed =
      (((l.receivedLength + len : ℕ) : ℚ) - (l.lastBytes : ℚ)) / elapsedSeconds l now ∧
    (readChunk cl l len now).item.eta =
      (if (readChunk cl l len now).item.speed > 0 then
        ((cl : ℚ) - ((l.receivedLength + len : ℕ) : ℚ)) / (readChunk cl l len now).item.speed
      else 0) ∧
    (readChunk cl l len now).lastUpdate = now ∧
    (readChunk cl l len now).lastBytes = l.receivedLength + len ∧
    (readChunk cl l len now).uiCalls = l.uiCalls ++ [(readChunk cl l len now).item] := by
  unfold readChunk
  dsimp only
  rw [if_pos h]
  exact ⟨rfl, rfl, rfl, rfl, rfl⟩

theorem readChunk_quiet (cl : Nat) (l : ReadLoop) (len now : Nat)
    (h : ¬ elapsedSeconds l now ≥ 1 / 2) :
    (readChunk cl l len now).item.speed = l.item.speed ∧
    (readChunk cl l len now).item.eta = l.item.eta ∧
    (readChunk cl l len now).lastUpdate = l.lastUpdate ∧
    (readChunk cl l len now).lastBytes = l.lastBytes ∧
    (readChunk cl l len now).uiCalls = l.uiCalls := by
  unfold readChunk
  dsimp only
  rw [if_neg h]
  refine ⟨?_, ?_, rfl, rfl, rfl⟩ <;> dsimp only <;> split <;> rfl

theorem readLoop_concat (cl : Nat) (l : ReadLoop) (cs : List (Nat × Nat)) (c : Nat × Nat) :
    readLoop cl l (cs ++ [c]) = readChunk cl (readLoop cl l cs) c.1 c.2 := by
  unfold readLoop
  rw [List.foldl_concat]

theorem readLoop_append (cl : Nat) (l : ReadLoop) (cs ds : List (Nat × Nat)) :
    readLoop cl l (cs ++ ds) = readLoop cl (readLoop cl l cs) ds := by
  unfold readLoop
  rw [List.foldl_append]

theorem readLoop_receivedLength (cl : Nat) (cs : List (Nat × Nat)) (l : ReadLoop) :
    (readLoop cl l cs).receivedLength = l.receivedLength + (cs.map Prod.fst).sum := by
  induction cs generalizing l with
  | nil => simp [readLoop]
  | cons c t ih =>
    have : readLoop cl l (c :: t) = readLoop cl (readChunk cl l c.1 c.2) t := rfl
    rw [this, ih, readChunk_receivedLength]
    simp [Nat.add_assoc]

theorem readLoop_lastBytes_le (cl : Nat) (cs : List (Nat × Nat)) (l : ReadLoop)
    (h : l.lastBytes ≤ l.receivedLength) :
    (readLoop cl l cs).lastBytes ≤ (readLoop cl l cs).receivedLength := by
  induction cs generalizing l with
  | nil => exact h
  | cons c t ih =>
    have hcons : readLoop cl l (c :: t) = readLoop cl (readChunk cl l c.1 c.2) t := rfl
    rw [hcons]
    apply ih
    rw [readChunk_receivedLength]
    by_cases hs : elapsedSeconds l c.2 ≥ 1 / 2
    · rw [(readChunk_sample cl l c.1 c.2 hs).2.2.2.1]
    · rw [(readChunk_quiet cl l c.1 c.2 hs).2.2.2.1]
      omega

theorem readChunk_counters (cl : Nat) (l : ReadLoop) (len now : Nat) :
    (readChunk cl l len now).counters = countersStep l.counters (len, now) := by
  unfold ReadLoop.counters countersStep
  rw [readChunk_receivedLength]
  by_cases hs : elapsedSeconds l now ≥ 1 / 2
  · obtain ⟨-, -, h3, h4, h5⟩ := readChunk_sample cl l len now hs
    rw [h3, h4, h5, if_pos ((elapsed_ge_half_iff l now).1 hs)]
    simp
  · obtain ⟨-, -, h3, h4, h5⟩ := readChunk_quiet cl l len now hs
    rw [h3, h4, h5, if_neg (fun h => hs ((elapsed_ge_half_iff l now).2 h))]

theorem readLoop_counters (cl : Nat) (cs : List (Nat × Nat)) (l : ReadLoop) :
    (readLoop cl l cs).counters = cs.foldl countersStep l.counters := by
  induction cs generalizing l with
  | nil => rfl
  | cons c t ih =>
    have hcons : readLoop cl l (c :: t) = readLoop cl (readChunk cl l c.1 c.2) t := rfl
    rw [hcons, ih, readChunk_counters]
    rfl

theorem readChunk_uiCalls_length_le (cl : Nat) (l : ReadLoop) (len now : Nat) :
    l.uiCalls.length ≤ (readChunk cl l len now).uiCalls.length := by
  by_cases hs : elapsedSeconds l now ≥ 1 / 2
  · rw [(readChunk_sample cl l len now hs).2.2.2.2]
    simp
  · rw [(readChunk_quiet cl l len now hs).2.2.2.2]

theorem readLoop_uiCalls_length_le (cl : Nat) (cs : List (Nat × Nat)) (l : ReadLoop) :
    l.uiCalls.length ≤ (readLoop cl l cs).uiCalls.length := by
  induction cs generalizing l with
  | nil => exact le_refl _
  | cons c t ih =>
    have hcons : readLoop cl l (c :: t) = readLoop cl (readChunk cl l c.1 c.2) t := rfl
    rw [hcons]
    exact le_trans (readChunk_uiCalls_length_le cl l c.1 c.2) (ih _)

theorem readLoop_no_sample (cl : Nat) (cs : List (Nat × Nat)) (l : ReadLoop)
    (h : (readLoop cl l cs).uiCalls.length = l.uiCalls.length) :
    (readLoop cl l cs).item.speed = l.item.speed ∧
    (readLoop cl l cs).item.eta = l.item.eta ∧
    (readLoop cl l cs).uiCalls = l.uiCalls := by
  induction cs generalizing l with
  | nil => exact ⟨rfl, rfl, rfl⟩
  | cons c t ih =>
    have hcons : readLoop cl l (c :: t) = readLoop cl (readChunk cl l c.1 c.2) t := rfl
    rw [hcons] at h ⊢
    have h1 := readChunk_uiCalls_length_le cl l c.1 c.2
    have h2 := readLoop_uiCalls_length_le cl t (readChunk cl l c.1 c.2)
    have hq : ¬ elapsedSeconds l c.2 ≥ 1 / 2 := by
      intro hs
      have := (readChunk_sample cl l c.1 c.2 hs).2.2.2.2
      rw [this] at h2
      simp at h2
      omega
    obtain ⟨q1, q2, -, -, q5⟩ := readChunk_quiet cl l c.1 c.2 hq
    obtain ⟨i1, i2, i3⟩ := ih (readChunk cl l c.1 c.2) (by rw [h, q5])
    exact ⟨i1.trans q1, i2.trans q2, i3.trans q5⟩

theorem mathRound_nearest (x : ℚ) (hx : 0 ≤ x) :
    (((mathRound x).toNat : ℕ) : ℚ) - 1 / 2 ≤ x ∧ x < (((mathRound x).toNat : ℕ) : ℚ) + 1 / 2 := by
  unfold mathRound
  have hnn : (0 : ℚ) ≤ x + 1 / 2 := by linarith
  have hcast : (((⌊x + 1 / 2⌋).toNat : ℕ) : ℚ) = ((⌊x + 1 / 2⌋ : ℤ) : ℚ) := by
    have h0 : (0 : ℤ) ≤ ⌊x + 1 / 2⌋ := Int.floor_nonneg.2 hnn
    have : ((⌊x + 1 / 2⌋.toNat : ℕ) : ℤ) = ⌊x + 1 / 2⌋ := Int.toNat_of_nonneg h0
    exact_mod_cast congrArg (fun z : ℤ => (z : ℚ)) this
  rw [hcast]
  have h1 := Int.floor_le (x + 1 / 2)
  have h2 := Int.lt_floor_add_one (x + 1 / 2)
  constructor <;> linarith

theorem mathRound_toNat_le (x : ℚ) (n : ℕ) (h : x ≤ n) : (mathRound x).toNat ≤ n := by
  unfold mathRound
  rw [Int.toNat_le]
  have : ⌊x + 1 / 2⌋ < (n : ℤ) + 1 := by
    rw [Int.floor_lt]
    push_cast
    linarith
  omega

theorem mathRound_toNat_eq (x : ℚ) (n : ℕ) (h1 : (n : ℚ) - 1 / 2 ≤ x) (h2 : x < n + 1 / 2) :
    (mathRound x).toNat = n := by
  unfold mathRound
  have : ⌊x + 1 / 2⌋ = (n : ℤ) := by
    rw [Int.floor_eq_iff]
    push_cast
    constructor <;> linarith
  rw [this]
  rfl

theorem percent_rounded (r c : ℕ) (hc : 0 < c) (hr53 : r < 2 ^ 53) (hc53 : c < 2 ^ 53) :
    |(((mathRound (roundDouble (roundDouble ((r : ℚ) / (c : ℚ)) * 100))).toNat : ℕ) : ℚ) -
        (r : ℚ) / (c : ℚ) * 100| ≤ 1 / 2 + (r : ℚ) / (c : ℚ) * 100 / 2 ^ 51 ∧
    ∀ n : ℕ, (n : ℚ) - 1 / 2 + (r : ℚ) / (c : ℚ) * 100 / 2 ^ 51 ≤ (r : ℚ) / (c : ℚ) * 100 →
      (r : ℚ) / (c : ℚ) * 100 + (r : ℚ) / (c : ℚ) * 100 / 2 ^ 51 < n + 1 / 2 →
      (mathRound (roundDouble (roundDouble ((r : ℚ) / (c : ℚ)) * 100))).toNat = n := by
  have herr := abs_le.1 (percent_error r c hc hr53 hc53)
  have hp0 : (0 : ℚ) ≤ (r : ℚ) / (c : ℚ) * 100 := by positivity
  have hsmall : (r : ℚ) / (c : ℚ) * 100 / 2 ^ 51 ≤ (r : ℚ) / (c : ℚ) * 100 := by
    apply div_le_self hp0
    norm_num
  have hP0 : (0 : ℚ) ≤ roundDouble (roundDouble ((r : ℚ) / (c : ℚ)) * 100) := by linarith [herr.1]
  have hnear := mathRound_nearest _ hP0
  constructor
  · rw [abs_le]
    constructor <;> linarith [herr.1, herr.2, hnear.1, hnear.2]
  · intro n h1 h2
    apply mathRound_toNat_eq
    · linarith [herr.1]
    · linarith [herr.2]

theorem percent_23_of_40 : mathRound (roundDouble (roundDouble ((23 : ℚ) / 40) * 100)) = 57 := by
  rw [roundDouble_eq (23 / 40) (-1) 5179139571476070 (by norm_num) (by norm_num [abs_of_pos])
    (by norm_num [abs_of_pos]) (by norm_num) (by norm_num)]
  rw [roundDouble_eq _ 5 8092405580431359 (by norm_num) (by norm_num [abs_of_pos])
    (by norm_num [abs_of_pos]) (by norm_num) (by norm_num)]
  unfold mathRound
  rw [Int.floor_eq_iff]
  constructor <;> norm_num

theorem percent_7_of_8 : mathRound (roundDouble (roundDouble ((7 : ℚ) / 8) * 100)) = 88 := by
  rw [roundDouble_eq (7 / 8) (-1) 7881299347898368 (by norm_num) (by norm_num [abs_of_pos])
    (by norm_num [abs_of_pos]) (by norm_num) (by norm_num)]
  rw [roundDouble_eq _ 6 6157265115545600 (by norm_num) (by norm_num [abs_of_pos])
    (by norm_num [abs_of_pos]) (by norm_num) (by norm_num)]
  unfold mathRound
  rw [Int.floor_eq_iff]
  constructor <;> norm_num

theorem percent_20_of_10 : mathRound (roundDouble (roundDouble ((20 : ℚ) / 10) * 100)) = 200 := by
  rw [roundDouble_eq (20 / 10) 1 4503599627370496 (by norm_num) (by norm_num [abs_of_pos])
    (by norm_num [abs_of_pos]) (by norm_num) (by norm_num)]
  rw [roundDouble_eq _ 7 7036874417766400 (by norm_num) (by norm_num [abs_of_pos])
    (by norm_num [abs_of_pos]) (by norm_num) (by norm_num)]
  unfold mathRound
  rw [Int.floor_eq_iff]
  constructor <;> norm_num

theorem readLoop_progress_unknown (cs : List (Nat × Nat)) (l : ReadLoop) :
    (readLoop 0 l cs).item.progress = l.item.progress := by
  induction cs generalizing l with
  | nil => rfl
  | cons c t ih =>
    have hcons : readLoop 0 l (c :: t) = readLoop 0 (readChunk 0 l c.1 c.2) t := rfl
    rw [hcons, ih, readChunk_progress]
    simp

/-! ## C16 -/

/-- C16, refuted as stated: with a total of 8 bytes, after a first chunk of 7 bytes the
progress is 88, while `floor(7 / 8 * 100)` is 87 (the quotient 0.875 and the product 87.5
are exact in binary64). -/
theorem progress_is_not_floor :
    (readChunk 8 (ReadLoop.start itemA 0) 7 1).item.progress = 88 ∧
    ⌊((7 : ℚ) / 8 * 100)⌋₊ = 87 ∧
    (readChunk 8 (ReadLoop.start itemA 0) 7 1).item.progress ≠ ⌊((7 : ℚ) / 8 * 100)⌋₊ := by
  have h1 : (readChunk 8 (ReadLoop.start itemA 0) 7 1).item.progress = 88 := by
    rw [readChunk_progress, if_pos (by decide)]
    have hq : (((ReadLoop.start itemA 0).receivedLength + 7 : ℕ) : ℚ) / ((8 : ℕ) : ℚ) =
        7 / 8 := by
      norm_num [ReadLoop.start]
    rw [hq, percent_7_of_8]
    rfl
  have h2 : ⌊((7 : ℚ) / 8 * 100)⌋₊ = 87 := by
    rw [Nat.floor_eq_iff (by norm_num)]
    constructor <;> norm_num
  exact ⟨h1, h2, by rw [h1, h2]; decide⟩

/-- C16, amended: for every chunk sequence and every known total size `total > 0`, after each
chunk `downloadFile` sets the item's progress to `Math.round(downloaded / total * 100)`
evaluated in binary64 arithmetic (the quotient is rounded, then the product, then
`Math.round` takes the nearest integer, halves going up), where `downloaded` is the number
of bytes received so far, both sizes being below `2 ^ 53`.  The progress differs from the
exact percentage `p` by at most `1 / 2 + p / 2 ^ 51`, and it is the integer `n` nearest to
`p` whenever `p` is away from the two halves next to `n` by more than `p / 2 ^ 51`. -/
theorem progress_is_rounded (item : Item) (t0 total : Nat) (cs : List (Nat × Nat))
    (c : Nat × Nat) (htotal : 0 < total) (ht : total < 2 ^ 53)
    (hs : ((cs ++ [c]).map Prod.fst).sum < 2 ^ 53) :
    (readLoop total (ReadLoop.start item t0) (cs ++ [c])).receivedLength =
      ((cs ++ [c]).map Prod.fst).sum ∧
    (readLoop total (ReadLoop.start item t0) (cs ++ [c])).item.downloadedBytes =
      ((cs ++ [c]).map Prod.fst).sum ∧
    (readLoop total (ReadLoop.start item t0) (cs ++ [c])).item.progress =
      (mathRound (roundDouble
        (roundDouble (((((cs ++ [c]).map Prod.fst).sum : ℕ) : ℚ) / (total : ℚ)) * 100))).toNat ∧
    |(((readLoop total (ReadLoop.start item t0) (cs ++ [c])).item.progress : ℕ) : ℚ) -
        ((((cs ++ [c]).map Prod.fst).sum : ℕ) : ℚ) / (total : ℚ) * 100| ≤
      1 / 2 + ((((cs ++ [c]).map Prod.fst).sum : ℕ) : ℚ) / (total : ℚ) * 100 / 2 ^ 51 ∧
    (∀ n : ℕ,
      (n : ℚ) - 1 / 2 + ((((cs ++ [c]).map Prod.fst).sum : ℕ) : ℚ) / (total : ℚ) * 100 / 2 ^ 51 ≤
        ((((cs ++ [c]).map Prod.fst).sum : ℕ) : ℚ) / (total : ℚ) * 100 →
      ((((cs ++ [c]).map Prod.fst).sum : ℕ) : ℚ) / (total : ℚ) * 100 +
          ((((cs ++ [c]).map Prod.fst).sum : ℕ) : ℚ) / (total : ℚ) * 100 / 2 ^ 51 <
        n + 1 / 2 →
      (readLoop total (ReadLoop.start item t0) (cs ++ [c])).item.progress = n) := by
  have hsum : (readLoop total (ReadLoop.start item t0) cs).receivedLength + c.1 =
      ((cs ++ [c]).map Prod.fst).sum := by
    rw [readLoop_receivedLength]
    simp [ReadLoop.start]
  have hp : (readLoop total (ReadLoop.start item t0) (cs ++ [c])).item.progress =
      (mathRound (roundDouble
        (roundDouble (((((cs ++ [c]).map Prod.fst).sum : ℕ) : ℚ) / (total : ℚ)) * 100))).toNat := by
    rw [readLoop_concat, readChunk_progress, if_pos htotal, hsum]
  refine ⟨?_, ?_, hp, ?_, ?_⟩
  · rw [readLoop_concat, readChunk_receivedLength, hsum]
  · rw [readLoop_concat, readChunk_downloadedBytes, hsum]
  · rw [hp]
    exact (percent_rounded _ _ htotal hs ht).1
  · intro n h1 h2
    rw [hp]
    exact (percent_rounded _ _ htotal hs ht).2 n h1 h2

/-- A witness for the amended C16: 20 and 3 bytes of 40; the quotient 0.575 and the product
57.49999999999999 are rounded in binary64, and the progress is 57, although the exact
percentage is 57.5. -/
theorem progress_is_rounded_witness :
    (readLoop 40 (ReadLoop.start itemA 0) ([(20, 1)] ++ [(3, 2)])).item.progress = 57 ∧
    (23 : ℚ) / 40 * 100 = 115 / 2 := by
  have h := (progress_is_rounded itemA 0 40 [(20, 1)] (3, 2) (by decide) (by decide)
    (by decide)).2.2.1
  have hq : (((([(20, 1)] ++ [((3 : ℕ), (2 : ℕ))]).map Prod.fst).sum : ℕ) : ℚ) / ((40 : ℕ) : ℚ) =
      23 / 40 := by
    norm_num
  rw [hq, percent_23_of_40] at h
  exact ⟨h, by norm_num⟩

/-! ## C17 -/

/-- C17, refuted as stated: with a declared total of 10 bytes, after a chunk of 20 bytes the
progress is 200. -/
theorem progress_exceeds_100 :
    (readChunk 10 (ReadLoop.start itemA 0) 20 1).item.progress = 200 ∧
    ¬ (readChunk 10 (ReadLoop.start itemA 0) 20 1).item.progress ≤ 100 := by
  have h1 : (readChunk 10 (ReadLoop.start itemA 0) 20 1).item.progress = 200 := by
    rw [readChunk_progress, if_pos (by decide)]
    have hq : (((ReadLoop.start itemA 0).receivedLength + 20 : ℕ) : ℚ) / ((10 : ℕ) : ℚ) =
        20 / 10 := by
      norm_num [ReadLoop.start]
    rw [hq, percent_20_of_10]
    rfl
  exact ⟨h1, by rw [h1]; decide⟩

/-- C17, amended: for every transfer (every declared total size and every sequence of
received chunks), after each chunk the item's progress is within 0..100 as long as the bytes
received so far do not exceed the declared total size, and while the total size is unknown
(0) the progress keeps the value it had when the transfer began, which is 0 for an item made
by `addDownload`. -/
theorem progress_within_bounds (item : Item) (t0 total : Nat) (cs : List (Nat × Nat))
    (c : Nat × Nat) :
    (0 < total →
      (readLoop total (ReadLoop.start item t0) (cs ++ [c])).receivedLength ≤ total →
      (readLoop total (ReadLoop.start item t0) (cs ++ [c])).item.progress ≤ 100) ∧
    (readLoop 0 (ReadLoop.start item t0) (cs ++ [c])).item.progress = item.progress ∧
    (∀ (url : String) (filename title : Option String) (tId tAdded : Nat),
      (readLoop 0 (ReadLoop.start (newItem url filename title tId tAdded) t0)
        (cs ++ [c])).item.progress = 0) := by
  refine ⟨?_, ?_, ?_⟩
  · intro htotal hle
    have hr : (readLoop total (ReadLoop.start item t0) (cs ++ [c])).receivedLength =
        (readLoop total (ReadLoop.start item t0) cs).receivedLength + c.1 := by
      rw [readLoop_concat, readChunk_receivedLength]
    rw [hr] at hle
    rw [readLoop_concat, readChunk_progress, if_pos htotal]
    apply mathRound_toNat_le
    have := (percent_bounds _ _ htotal hle).2
    simpa using this
  · rw [readLoop_progress_unknown]
    rfl
  · intro url filename title tId tAdded
    rw [readLoop_progress_unknown]
    rfl

/-! ## C18 -/

/-- C18: the sampling step of `downloadFile`.  A chunk is a sample exactly when at least
500 ms have passed since the anchor (`elapsed >= 0.5`).  On such a chunk the speed becomes
`(downloaded - lastBytes) / elapsedSeconds`, the eta becomes `(total - downloaded) / speed`
when that speed is positive, the anchor becomes `(now, downloaded)` and the progress sink is
called once, with the updated item.  On a chunk read less than 500 ms after the anchor, the
speed, the eta and the anchor are left as they were and the sink is not called. -/
theorem sampling_step (total : Nat) (l : ReadLoop) (len now : Nat) :
    (elapsedSeconds l now ≥ 1 / 2 ↔ l.lastUpdate + 500 ≤ now) ∧
    (l.lastUpdate + 500 ≤ now →
      (readChunk total l len now).item.speed =
        (((l.receivedLength + len : ℕ) : ℚ) - (l.lastBytes : ℚ)) / elapsedSeconds l now ∧
      ((readChunk total l len now).item.speed > 0 →
        (readChunk total l len now).item.eta =
          ((total : ℚ) - ((l.receivedLength + len : ℕ) : ℚ)) /
            (readChunk total l len now).item.speed) ∧
      (readChunk total l len now).lastUpdate = now ∧
      (readChunk total l len now).lastBytes = l.receivedLength + len ∧
      (readChunk total l len now).uiCalls = l.uiCalls ++ [(readChunk total l len now).item]) ∧
    (now < l.lastUpdate + 500 →
      (readChunk total l len now).item.speed = l.item.speed ∧
      (readChunk total l len now).item.eta = l.item.eta ∧
      (readChunk total l len now).lastUpdate = l.lastUpdate ∧
      (readChunk total l len now).lastBytes = l.lastBytes ∧
      (readChunk total l len now).uiCalls = l.uiCalls) := by
  refine ⟨elapsed_ge_half_iff l now, ?_, ?_⟩
  · intro h
    obtain ⟨h1, h2, h3, h4, h5⟩ :=
      readChunk_sample total l len now ((elapsed_ge_half_iff l now).2 h)
    refine ⟨h1, ?_, h3, h4, h5⟩
    intro hpos
    rw [h2, if_pos hpos]
  · intro h
    exact readChunk_quiet total l len now
      (fun hs => absurd ((elapsed_ge_half_iff l now).1 hs) (by omega))

/-! ## C19 -/

/-- C19, refuted as stated: a sample at which the speed is 0 (an empty chunk read 500 ms
after the loop began, nothing having been received) records the number 0 as eta. -/
theorem eta_is_zero_not_undefined :
    (readChunk 1000 (ReadLoop.start itemA 0) 0 500).uiCalls.length = 1 ∧
    (readChunk 1000 (ReadLoop.start itemA 0) 0 500).item.speed = 0 ∧
    (readChunk 1000 (ReadLoop.start itemA 0) 0 500).item.eta = 0 := by
  have hs : elapsedSeconds (ReadLoop.start itemA 0) 500 ≥ 1 / 2 :=
    (elapsed_ge_half_iff _ _).2 (by decide)
  obtain ⟨h1, h2, -, -, h5⟩ := readChunk_sample 1000 (ReadLoop.start itemA 0) 0 500 hs
  have hspeed : (readChunk 1000 (ReadLoop.start itemA 0) 0 500).item.speed = 0 := by
    rw [h1]
    simp [ReadLoop.start]
  refine ⟨by rw [h5]; rfl, hspeed, ?_⟩
  rw [h2, hspeed]
  simp

/-- C19, amended: for every sample at which the instantaneous speed is 0 (no bytes received
since the previous sample), the eta recorded on the item is the number 0. -/
theorem eta_zero_when_speed_zero (total : Nat) (l : ReadLoop) (len now : Nat)
    (hsample : elapsedSeconds l now ≥ 1 / 2)
    (hspeed : (readChunk total l len now).item.speed = 0) :
    (readChunk total l len now).item.eta = 0 := by
  rw [(readChunk_sample total l len now hsample).2.1, hspeed]
  simp

/-- A witness for the amended C19: an empty chunk read 500 ms after the loop began. -/
theorem eta_zero_when_speed_zero_witness :
    elapsedSeconds (ReadLoop.start itemA 0) 500 ≥ 1 / 2 ∧
    (readChunk 1000 (ReadLoop.start itemA 0) 0 500).item.eta = 0 := by
  have hs : elapsedSeconds (ReadLoop.start itemA 0) 500 ≥ 1 / 2 :=
    (elapsed_ge_half_iff _ _).2 (by decide)
  have hspeed : (readChunk 1000 (ReadLoop.start itemA 0) 0 500).item.speed = 0 := by
    rw [(readChunk_sample 1000 (ReadLoop.start itemA 0) 0 500 hs).1]
    simp [ReadLoop.start]
  exact ⟨hs, eta_zero_when_speed_zero 1000 (ReadLoop.start itemA 0) 0 500 hs hspeed⟩

/-! ## C29 -/

/-- C29: for every sample computed by `downloadFile` (a chunk read at least 0.5 s after the
anchor, after any sequence of earlier chunks), the eta is non-negative if and only if the
speed is 0 or the bytes received do not exceed the content length used for the transfer; in
particular, when the content length is 0 (total size unknown) and bytes were received since
the anchor, the eta is negative. -/
theorem eta_sign (item : Item) (t0 total : Nat) (cs : List (Nat × Nat)) (len now : Nat)
    (hsample : elapsedSeconds (readLoop total (ReadLoop.start item t0) cs) now ≥ 1 / 2) :
    (0 ≤ (readChunk total (readLoop total (ReadLoop.start item t0) cs) len now).item.eta ↔
      (readChunk total (readLoop total (ReadLoop.start item t0) cs) len now).item.speed = 0 ∨
      (readChunk total (readLoop total (ReadLoop.start item t0) cs) len now).receivedLength
        ≤ total) ∧
    (total = 0 →
      (readLoop total (ReadLoop.start item t0) cs).lastBytes <
        (readChunk total (readLoop total (ReadLoop.start item t0) cs) len now).receivedLength →
      (readChunk total (readLoop total (ReadLoop.start item t0) cs) len now).item.eta < 0) := by
  have hle := readLoop_lastBytes_le total cs (ReadLoop.start item t0) (le_refl _)
  obtain ⟨h1, h2, -, -, -⟩ :=
    readChunk_sample total (readLoop total (ReadLoop.start item t0) cs) len now hsample
  have hr := readChunk_receivedLength total (readLoop total (ReadLoop.start item t0) cs) len now
  have hepos : (0 : ℚ) < elapsedSeconds (readLoop total (ReadLoop.start item t0) cs) now := by
    have : (1 : ℚ) / 2 ≤ elapsedSeconds (readLoop total (ReadLoop.start item t0) cs) now :=
      hsample
    linarith
  have hdelta : (0 : ℚ) ≤
      (((readLoop total (ReadLoop.start item t0) cs).receivedLength + len : ℕ) : ℚ) -
        ((readLoop total (ReadLoop.start item t0) cs).lastBytes : ℚ) := by
    have : (readLoop total (ReadLoop.start item t0) cs).lastBytes ≤
        (readLoop total (ReadLoop.start item t0) cs).receivedLength + len := by omega
    have hc : (((readLoop total (ReadLoop.start item t0) cs).lastBytes : ℕ) : ℚ) ≤
        (((readLoop total (ReadLoop.start item t0) cs).receivedLength + len : ℕ) : ℚ) := by
      exact_mod_cast this
    linarith
  have hspeed_nn : (0 : ℚ) ≤
      (readChunk total (readLoop total (ReadLoop.start item t0) cs) len now).item.speed := by
    rw [h1]
    exact div_nonneg hdelta hepos.le
  constructor
  · rw [h2, hr]
    by_cases hpos :
        (readChunk total (readLoop total (ReadLoop.start item t0) cs) len now).item.speed > 0
    · rw [if_pos hpos]
      constructor
      · intro h
        right
        have h0 : (0 : ℚ) ≤ (total : ℚ) -
            (((readLoop total (ReadLoop.start item t0) cs).receivedLength + len : ℕ) : ℚ) := by
          by_contra hneg
          push_neg at hneg
          have := div_neg_of_neg_of_pos hneg hpos
          linarith
        have h0' : (((readLoop total (ReadLoop.start item t0) cs).receivedLength + len : ℕ) : ℚ)
            ≤ (total : ℚ) := by linarith
        exact_mod_cast h0'
      · rintro (h | h)
        · exact absurd h hpos.ne'
        · apply div_nonneg _ hpos.le
          have : (((readLoop total (ReadLoop.start item t0) cs).receivedLength + len : ℕ) : ℚ)
              ≤ (total : ℚ) := by exact_mod_cast h
          linarith
    · rw [if_neg hpos]
      have hzero :
          (readChunk total (readLoop total (ReadLoop.start item t0) cs) len now).item.speed
            = 0 := le_antisymm (not_lt.1 hpos) hspeed_nn
      simp [hzero]
  · intro htotal hrecv
    rw [hr] at hrecv
    have hdpos : (0 : ℚ) <
        (((readLoop total (ReadLoop.start item t0) cs).receivedLength + len : ℕ) : ℚ) -
          ((readLoop total (ReadLoop.start item t0) cs).lastBytes : ℚ) := by
      have hc : (((readLoop total (ReadLoop.start item t0) cs).lastBytes : ℕ) : ℚ) <
          (((readLoop total (ReadLoop.start item t0) cs).receivedLength + len : ℕ) : ℚ) := by
        exact_mod_cast hrecv
      linarith
    have hpos :
        (readChunk total (readLoop total (ReadLoop.start item t0) cs) len now).item.speed > 0
        := by
      rw [h1]
      exact div_pos hdpos hepos
    rw [h2, if_pos hpos]
    apply div_neg_of_neg_of_pos _ hpos
    have hc : (0 : ℚ) <
        (((readLoop total (ReadLoop.start item t0) cs).receivedLength + len : ℕ) : ℚ) := by
      have : 0 < (readLoop total (ReadLoop.start item t0) cs).receivedLength + len := by omega
      exact_mod_cast this
    have ht : (total : ℚ) = 0 := by exact_mod_cast htotal
    linarith

/-- A witness for C29: total size unknown, a first chunk of 4 bytes read after 500 ms: the
eta is negative. -/
theorem eta_sign_witness :
    elapsedSeconds (readLoop 0 (ReadLoop.start itemA 0) []) 500 ≥ 1 / 2 ∧
    (readChunk 0 (readLoop 0 (ReadLoop.start itemA 0) []) 4 500).item.eta < 0 := by
  have hs : elapsedSeconds (readLoop 0 (ReadLoop.start itemA 0) []) 500 ≥ 1 / 2 :=
    (elapsed_ge_half_iff _ _).2 (by decide)
  exact ⟨hs, (eta_sign itemA 0 0 [] 4 500 hs).2 rfl (by
    rw [readChunk_receivedLength]
    decide)⟩

/-! ## C20 -/

set_option maxRecDepth 100000 in
theorem steadyChunks_split :
    steadyChunks.take 125 = steadyChunks.take 124 ++ [(4, 500)] ∧
    steadyChunks =
      steadyChunks.take 125 ++ ((steadyChunks.drop 125).take 124 ++ [(4, 1000)]) := by
  decide

set_option maxRecDepth 100000 in
theorem steadyChunks_counters :
    (steadyChunks.take 124).foldl countersStep (0, 0, 0, 0) = (496, 0, 0, 0) ∧
    ((steadyChunks.drop 125).take 124).foldl countersStep (500, 500, 500, 1) =
      (996, 500, 500, 1) := by
  decide

theorem counters_eq (l : ReadLoop) (a b c d : Nat) (h : l.counters = (a, b, c, d)) :
    l.receivedLength = a ∧ l.lastUpdate = b ∧ l.lastBytes = c ∧ l.uiCalls.length = d := by
  unfold ReadLoop.counters at h
  simp only [Prod.mk.injEq] at h
  exact h

theorem steady_first_window (item : Item) :
    (readLoop 1000 (ReadLoop.start item 0) (steadyChunks.take 125)).counters =
      (500, 500, 500, 1) ∧
    (readLoop 1000 (ReadLoop.start item 0) (steadyChunks.take 125)).item.speed = 1000 ∧
    (readLoop 1000 (ReadLoop.start item 0) (steadyChunks.take 125)).item.eta = 1 / 2 := by
  have hc : (readLoop 1000 (ReadLoop.start item 0) (steadyChunks.take 124)).counters =
      (496, 0, 0, 0) := by
    rw [readLoop_counters]
    exact steadyChunks_counters.1
  obtain ⟨c1, c2, c3, -⟩ := counters_eq _ _ _ _ _ hc
  have hs : elapsedSeconds (readLoop 1000 (ReadLoop.start item 0) (steadyChunks.take 124)) 500
      ≥ 1 / 2 := (elapsed_ge_half_iff _ _).2 (by rw [c2])
  have he : elapsedSeconds (readLoop 1000 (ReadLoop.start item 0) (steadyChunks.take 124)) 500
      = 1 / 2 := by
    unfold elapsedSeconds
    rw [c2]
    norm_num
  obtain ⟨h1, h2, -, -, -⟩ := readChunk_sample 1000
    (readLoop 1000 (ReadLoop.start item 0) (steadyChunks.take 124)) 4 500 hs
  rw [c1, c3, he] at h1
  have hspeed : (readChunk 1000 (readLoop 1000 (ReadLoop.start item 0)
      (steadyChunks.take 124)) 4 500).item.speed = 1000 := by
    rw [h1]; norm_num
  rw [hspeed, c1] at h2
  rw [steadyChunks_split.1, readLoop_concat]
  refine ⟨?_, hspeed, ?_⟩
  · rw [readChunk_counters, hc]
    rfl
  · rw [h2]; norm_num

theorem steady_second_window (item : Item) :
    (readLoop 1000 (ReadLoop.start item 0) steadyChunks).counters = (1000, 1000, 1000, 2) ∧
    (readLoop 1000 (ReadLoop.start item 0) steadyChunks).item.speed = 1000 ∧
    (readLoop 1000 (ReadLoop.start item 0) steadyChunks).item.eta = 0 := by
  obtain ⟨f1, -, -⟩ := steady_first_window item
  have hc : (readLoop 1000 (readLoop 1000 (ReadLoop.start item 0) (steadyChunks.take 125))
      ((steadyChunks.drop 125).take 124)).counters = (996, 500, 500, 1) := by
    rw [readLoop_counters, f1]
    exact steadyChunks_counters.2
  obtain ⟨c1, c2, c3, -⟩ := counters_eq _ _ _ _ _ hc
  have hs : elapsedSeconds (readLoop 1000 (readLoop 1000 (ReadLoop.start item 0)
      (steadyChunks.take 125)) ((steadyChunks.drop 125).take 124)) 1000 ≥ 1 / 2 :=
    (elapsed_ge_half_iff _ _).2 (by rw [c2])
  have he : elapsedSeconds (readLoop 1000 (readLoop 1000 (ReadLoop.start item 0)
      (steadyChunks.take 125)) ((steadyChunks.drop 125).take 124)) 1000 = 1 / 2 := by
    unfold elapsedSeconds
    rw [c2]
    norm_num
  obtain ⟨h1, h2, -, -, -⟩ := readChunk_sample 1000
    (readLoop 1000 (readLoop 1000 (ReadLoop.start item 0) (steadyChunks.take 125))
      ((steadyChunks.drop 125).take 124)) 4 1000 hs
  rw [c1, c3, he] at h1
  have hspeed : (readChunk 1000 (readLoop 1000 (readLoop 1000 (ReadLoop.start item 0)
      (steadyChunks.take 125)) ((steadyChunks.drop 125).take 124)) 4 1000).item.speed
      = 1000 := by
    rw [h1]; norm_num
  rw [hspeed, c1] at h2
  have hsplit : readLoop 1000 (ReadLoop.start item 0) steadyChunks =
      readChunk 1000 (readLoop 1000 (readLoop 1000 (ReadLoop.start item 0)
        (steadyChunks.take 125)) ((steadyChunks.drop 125).take 124)) 4 1000 := by
    have h0 := readLoop_append 1000 (ReadLoop.start item 0) (steadyChunks.take 125)
      ((steadyChunks.drop 125).take 124 ++ [(4, 1000)])
    rw [← steadyChunks_split.2] at h0
    rw [h0, readLoop_concat]
  rw [hsplit]
  refine ⟨?_, hspeed, ?_⟩
  · rw [readChunk_counters, hc]
    rfl
  · rw [h2]; norm_num

theorem downloadFile_ok (item : Item) (size header t0 : Nat) (chunks : List (Nat × Nat))
    (hsize : size ≠ 0) :
    (downloadFile item (some size) (FetchOutcome.ok header chunks none) t0).2 = none ∧
    (downloadFile item (some size) (FetchOutcome.ok header chunks none) t0).1.item.eta =
      (readLoop size (ReadLoop.start { item with totalBytes := size } t0) chunks).item.eta ∧
    (downloadFile item (some size) (FetchOutcome.ok header chunks none) t0).1.item.progress
      = 100 := by
  unfold downloadFile
  simp [hsize, contentLengthOf]

/-- C20, refuted as stated: for a stream of total size 1000 delivered in 4-byte chunks, 500
bytes in each of two consecutive 500 ms windows, the sample taken at the end of the first
window has speed 1000 B/s, not about 500 (it is above 600), and eta 0.5 s, not about 1 (it is
below 3/4). -/
theorem steady_stream_first_sample :
    (readLoop 1000 (ReadLoop.start itemA 0) (steadyChunks.take 125)).receivedLength = 500 ∧
    (readLoop 1000 (ReadLoop.start itemA 0) (steadyChunks.take 125)).uiCalls.length = 1 ∧
    (readLoop 1000 (ReadLoop.start itemA 0) (steadyChunks.take 125)).item.speed = 1000 ∧
    (readLoop 1000 (ReadLoop.start itemA 0) (steadyChunks.take 125)).item.eta = 1 / 2 ∧
    ¬ ((readLoop 1000 (ReadLoop.start itemA 0) (steadyChunks.take 125)).item.speed ≤ 600 ∧
      3 / 4 ≤ (readLoop 1000 (ReadLoop.start itemA 0) (steadyChunks.take 125)).item.eta) := by
  obtain ⟨f1, f2, f3⟩ := steady_first_window itemA
  obtain ⟨c1, -, -, c4⟩ := counters_eq _ _ _ _ _ f1
  refine ⟨c1, c4, f2, f3, ?_⟩
  rw [f2, f3]
  norm_num

/-- C20, amended: for a stream of total size 1000 delivered in 4-byte chunks, with 500 bytes
arriving in each of two consecutive 500 ms windows, the sample taken at the end of the first
window has speed 1000 B/s (500 bytes in half a second) and eta 0.5 s; the sample at the end of
the second window has speed 1000 B/s and eta 0, and the eta after completion is 0, two samples
having been taken. -/
theorem steady_stream_samples (item : Item) :
    (readLoop 1000 (ReadLoop.start item 0) (steadyChunks.take 125)).receivedLength = 500 ∧
    (readLoop 1000 (ReadLoop.start item 0) (steadyChunks.take 125)).uiCalls.length = 1 ∧
    (readLoop 1000 (ReadLoop.start item 0) (steadyChunks.take 125)).item.speed = 1000 ∧
    (readLoop 1000 (ReadLoop.start item 0) (steadyChunks.take 125)).item.eta = 1 / 2 ∧
    (readLoop 1000 (ReadLoop.start item 0) steadyChunks).receivedLength = 1000 ∧
    (readLoop 1000 (ReadLoop.start item 0) steadyChunks).uiCalls.length = 2 ∧
    (readLoop 1000 (ReadLoop.start item 0) steadyChunks).item.speed = 1000 ∧
    (readLoop 1000 (ReadLoop.start item 0) steadyChunks).item.eta = 0 ∧
    (downloadFile item (some 1000) (FetchOutcome.ok 1000 steadyChunks none) 0).2 = none ∧
    (downloadFile item (some 1000) (FetchOutcome.ok 1000 steadyChunks none) 0).1.item.eta
      = 0 := by
  obtain ⟨f1, f2, f3⟩ := steady_first_window item
  obtain ⟨c1, -, -, c4⟩ := counters_eq _ _ _ _ _ f1
  obtain ⟨g1, g2, g3⟩ := steady_second_window item
  obtain ⟨d1, -, -, d4⟩ := counters_eq _ _ _ _ _ g1
  have hd := downloadFile_ok item 1000 1000 0 steadyChunks (by decide)
  have he := (steady_second_window { item with totalBytes := 1000 }).2.2
  exact ⟨c1, c4, f2, f3, d1, d4, g2, g3, hd.1, hd.2.1.trans he⟩

/-! ## C11 -/

theorem find_of_same_queue (s t : State) (p : Item → Bool) (hq : t.queue = s.queue)
    (hh : t.heap = s.heap) : t.find p = s.find p := by
  unfold State.find State.item
  rw [hq, hh]

/-- C11: every run of `startNextDownload` that has picked an item `r` ends by setting a timer
for another `startNextDownload`, whatever happens to it.  When the transfer fails, with any
message (a network error, a response that is not `ok`, an abort), the item is marked `error`
and a timer of 1000 ms is set.  When the transfer succeeds, the run waits for the install,
and whatever the install does (success, reported failure, exception) a timer of 500 ms is
set.  A timer that fires starts the first pending item of the queue, if there is one, while
the other timers stay. -/
theorem run_ends_with_timer (s : State) (r : Nat) :
    (∀ message, r ∈ s.transfers →
      (transferFailed s r message).timers = s.timers ++ [1000] ∧
      ((s.item r).isSome →
        (transferFailed s r message).statusOf r = some Status.error)) ∧
    (∀ d res now o, r ∈ s.transfers → s.item r = some d →
      d.abortController = some (AbortController.controller false) →
      (transferSucceeded s r res now).statusOf r = some Status.completed ∧
      r ∈ (transferSucceeded s r res now).installs ∧
      (installSettled (transferSucceeded s r res now) r o).timers = s.timers ++ [500]) ∧
    (∀ o, r ∈ s.installs → (s.item r).isSome →
      (installSettled s r o).timers = s.timers ++ [500]) ∧
    (∀ i now x, i < s.timers.length →
      s.find (fun d => d.status == Status.pending) = some x →
      (timerFired s i now).currentDownload = some x ∧
      (timerFired s i now).statusOf x = some Status.downloading ∧
      x ∈ (timerFired s i now).transfers ∧
      (timerFired s i now).timers = s.timers.eraseIdx i) := by
  have hinstall : ∀ (t : State) (o : InstallOutcome), r ∈ t.installs → (t.item r).isSome →
      (installSettled t r o).timers = t.timers ++ [500] := by
    intro t o hr hsome
    unfold installSettled
    cases hd : t.item r with
    | none => rw [hd] at hsome; simp at hsome
    | some d =>
      simp only [hr, if_true]
      cases o with
      | returned success simulated error =>
        cases success <;> cases simulated <;> simp [State.showToast]
      | thrown m => simp [State.showToast]
  refine ⟨?_, ?_, ?_, ?_⟩
  · intro message hr
    unfold transferFailed
    simp only [hr, if_true]
    refine ⟨by simp [State.showToast], ?_⟩
    intro hsome
    cases hd : s.item r with
    | none => rw [hd] at hsome; simp at hsome
    | some d =>
      unfold State.statusOf
      have hitem := update_item ({ s with transfers := s.transfers.erase r }) r
        (fun d => { d with status := Status.error, error := some message }) r
      rw [if_pos rfl] at hitem
      have hs1 : ({ s with transfers := s.transfers.erase r } : State).item r = some d := hd
      rw [hs1] at hitem
      simp only [State.item, State.showToast, saveToStorage_heap] at hitem ⊢
      rw [hitem]
      rfl
  · intro d res now o hr hd hc
    have hsucc : transferSucceeded s r res now =
        { (((saveToStorage (({ s with transfers := s.transfers.erase r } : State).update r
            (fun d =>
              { d with
                totalBytes := res.totalBytes
                downloadedBytes := res.downloadedBytes
                speed := res.speed
                eta := res.eta
                downloadedBlob := some (Blob.blob res.blobSize)
                downloadedUrl := some "blob:"
                status := Status.completed
                completedAt := some now
                progress := 100 }))).showToast
              ("Download selesai: " ++ jsString d.title) ToastKind.success).showToast
              ("Memulai install: " ++ jsString d.title) ToastKind.info) with
          installCalls := s.installCalls ++ [r], installs := s.installs ++ [r] } := by
      unfold transferSucceeded
      simp [hd, hr, hc, State.showToast]
    have hstatus : (transferSucceeded s r res now).statusOf r = some Status.completed := by
      rw [hsucc]
      unfold State.statusOf
      have hitem := update_item ({ s with transfers := s.transfers.erase r }) r
        (fun d =>
          { d with
            totalBytes := res.totalBytes
            downloadedBytes := res.downloadedBytes
            speed := res.speed
            eta := res.eta
            downloadedBlob := some (Blob.blob res.blobSize)
            downloadedUrl := some "blob:"
            status := Status.completed
            completedAt := some now
            progress := 100 }) r
      rw [if_pos rfl] at hitem
      have hs1 : ({ s with transfers := s.transfers.erase r } : State).item r = some d := hd
      rw [hs1] at hitem
      simp only [State.item, State.showToast, saveToStorage_heap] at hitem ⊢
      rw [hitem]
      rfl
    have hmem : r ∈ (transferSucceeded s r res now).installs := by
      rw [hsucc]; simp
    have hsome : ((transferSucceeded s r res now).item r).isSome := by
      unfold State.statusOf at hstatus
      cases hx : (transferSucceeded s r res now).item r with
      | none => rw [hx] at hstatus; simp at hstatus
      | some y => rfl
    refine ⟨hstatus, hmem, ?_⟩
    rw [hinstall _ o hmem hsome, hsucc]
    simp [State.showToast]
  · intro o hr hsome
    exact hinstall s o hr hsome
  · intro i now x hi hfind
    unfold timerFired
    rw [if_pos hi]
    have hfind2 : ({ s with timers := s.timers.eraseIdx i } : State).find
        (fun d => d.status == Status.pending) = some x := by
      exact (find_of_same_queue s _ _ rfl rfl).trans hfind
    obtain ⟨⟨d, hd, -⟩, -⟩ := find_some_spec s _ x hfind
    rw [startNextDownload_of_find _ now x hfind2]
    refine ⟨beginDownload_currentDownload _ _ _, ?_, ?_, ?_⟩
    · unfold State.statusOf
      rw [beginDownload_item, if_pos rfl]
      have : ({ s with timers := s.timers.eraseIdx i } : State).item x = some d := hd
      rw [this]
      rfl
    · simp [beginDownload]
    · simp [beginDownload]

/-! ## C12 -/

theorem filterMap_offset_getElem (h l : List Item) :
    ((List.range l.length).map (fun i => h.length + i)).filterMap (fun r => (h ++ l)[r]?)
      = l := by
  rw [List.filterMap_map]
  have : ((fun r => (h ++ l)[r]?) ∘ fun i => h.length + i) = fun i => l[i]? := by
    funext i
    simp only [Function.comp]
    rw [List.getElem?_append_right (by omega)]
    congr 1
    omega
  rw [this]
  exact filterMap_range_getElem l

theorem loadFromStorage_queueItems (s : State) (saved : List Item)
    (hs : s.storedQueue = some saved) :
    (loadFromStorage s).queueItems = saved.map Item.reloaded := by
  unfold loadFromStorage State.queueItems State.item
  simp only [hs]
  have := filterMap_offset_getElem s.heap (saved.map Item.reloaded)
  simpa [Item.reloaded] using this

theorem restart_fields (s : State) (saved : List Item) (hs : s.storedQueue = some saved) :
    (restart s).heap = saved.map Item.reloaded ∧
    (restart s).queue = List.range saved.length ∧
    (restart s).currentDownload = none ∧
    (restart s).transfers = [] ∧
    (restart s).storedQueue = some saved := by
  unfold restart loadFromStorage
  simp [hs, State.empty, Item.reloaded]

theorem reloaded_status (d : Item) :
    d.reloaded.status ≠ Status.downloading ∧
    (d.status = Status.downloading → d.reloaded = { d with status := Status.pending }) ∧
    (d.status ≠ Status.downloading → d.reloaded = d) := by
  unfold Item.reloaded
  refine ⟨?_, ?_, ?_⟩
  · split
    · simp
    · assumption
  · intro h; rw [if_pos h]
  · intro h; rw [if_neg h]

/-- C12: for every persisted queue snapshot, `loadFromStorage` (here in the constructor that a
reload of the page runs) yields a queue with the same items in the same order, in which every
item persisted as `downloading` has status `pending` and is otherwise unchanged, and every
other item is unchanged; after the load no item is `downloading`, nothing is current, and a
reset item is eligible for the next pick: when no item before it in the queue is pending,
`startNextDownload` makes it current and `downloading`. -/
theorem loadFromStorage_resets_downloading (s : State) (saved : List Item)
    (hs : s.storedQueue = some saved) :
    (loadFromStorage s).queueItems = saved.map Item.reloaded ∧
    (restart s).queueItems = saved.map Item.reloaded ∧
    (restart s).queueItems.length = saved.length ∧
    (∀ d : Item, d.status = Status.downloading →
      d.reloaded = { d with status := Status.pending }) ∧
    (∀ d : Item, d.status ≠ Status.downloading → d.reloaded = d) ∧
    (∀ d ∈ (restart s).queueItems, d.status ≠ Status.downloading) ∧
    (restart s).currentDownload = none ∧
    (∀ i d now, saved[i]? = some d → d.status = Status.downloading →
      (∀ j e, j < i → saved[j]? = some e →
        e.status ≠ Status.pending ∧ e.status ≠ Status.downloading) →
      (restart s).statusOf i = some Status.pending ∧
      (startNextDownload (restart s) now).currentDownload = some i ∧
      (startNextDownload (restart s) now).statusOf i = some Status.downloading) := by
  obtain ⟨hheap, hqueue, hcur, -, -⟩ := restart_fields s saved hs
  have hitems : (restart s).queueItems = saved.map Item.reloaded := by
    unfold State.queueItems State.item
    rw [hheap, hqueue]
    have := filterMap_range_getElem (saved.map Item.reloaded)
    simpa using this
  have hitem : ∀ i, (restart s).item i = (saved[i]?).map Item.reloaded := by
    intro i
    unfold State.item
    rw [hheap, List.getElem?_map]
  refine ⟨loadFromStorage_queueItems s saved hs, hitems, ?_, ?_, ?_, ?_, hcur, ?_⟩
  · rw [hitems, List.length_map]
  · intro d hd; exact (reloaded_status d).2.1 hd
  · intro d hd; exact (reloaded_status d).2.2 hd
  · intro d hd
    rw [hitems, List.mem_map] at hd
    obtain ⟨e, -, rfl⟩ := hd
    exact (reloaded_status e).1
  · intro i d now hi hd hbefore
    have hlt : i < saved.length := (List.getElem?_eq_some.1 hi).1
    have hidl : (restart s).item i = some { d with status := Status.pending } := by
      rw [hitem, hi, Option.map_some', (reloaded_status d).2.1 hd]
    have hfind : (restart s).find (fun d => d.status == Status.pending) = some i := by
      unfold State.find
      rw [List.find?_eq_some]
      obtain ⟨after, hsplit⟩ := range_split i saved.length hlt
      refine ⟨by simp [hidl], List.range i, after, by rw [hqueue, hsplit], ?_⟩
      intro j hj
      rw [List.mem_range] at hj
      cases hj2 : saved[j]? with
      | none => rw [hitem, hj2]; simp
      | some e =>
        obtain ⟨h1, h2⟩ := hbefore j e hj hj2
        rw [hitem, hj2, Option.map_some', (reloaded_status e).2.2 h2]
        simp [h1]
    refine ⟨?_, ?_, ?_⟩
    · unfold State.statusOf
      rw [hidl]; rfl
    · rw [startNextDownload_of_find _ now i hfind, beginDownload_currentDownload]
    · unfold State.statusOf
      rw [startNextDownload_of_find _ now i hfind, beginDownload_item, if_pos rfl, hidl]
      rfl

/-- A witness for C12: a reload while `a` is downloading and `b` is pending. -/
theorem loadFromStorage_resets_downloading_witness :
    (run sampleParseUrl State.empty [addA, addB]).storedQueue =
      some ((run sampleParseUrl State.empty [addA, addB]).storedQueue.getD []) ∧
    (restart (run sampleParseUrl State.empty [addA, addB])).queueItems.map Item.status =
      [Status.pending, Status.pending] ∧
    (restart (run sampleParseUrl State.empty [addA, addB])).currentDownload = none := by
  have hw := loadFromStorage_resets_downloading (run sampleParseUrl State.empty [addA, addB])
    ((run sampleParseUrl State.empty [addA, addB]).storedQueue.getD []) (by decide)
  exact ⟨by decide, by rw [hw.2.1]; decide, hw.2.2.2.2.2.2.1⟩

/-! ## C13 -/

theorem saveToStorage_storedQueue (s : State) :
    (saveToStorage s).storedQueue =
      if s.quotaExceeded then s.storedQueue else some (s.queueItems.map Item.serialize) := by
  unfold saveToStorage
  split <;> rfl

theorem queueItems_congr (s t : State) (hq : t.queue = s.queue) (hh : t.heap = s.heap) :
    t.queueItems = s.queueItems := by
  unfold State.queueItems State.item
  rw [hq, hh]

theorem saveToStorage_queueItems (s : State) : (saveToStorage s).queueItems = s.queueItems :=
  queueItems_congr s _ (saveToStorage_queue s) (saveToStorage_heap s)

theorem snapshot_after_save (t u : State) (hq : u.queue = (saveToStorage t).queue)
    (hh : u.heap = (saveToStorage t).heap) (hs : u.storedQueue = (saveToStorage t).storedQueue) :
    u.storedQueue =
      if t.quotaExceeded then t.storedQueue else some (u.queueItems.map Item.serialize) := by
  rw [hs, saveToStorage_storedQueue, queueItems_congr _ u hq hh, saveToStorage_queueItems]

theorem abortAll_fields (rs : List Nat) (s : State) :
    (abortAll s rs).1.queue = s.queue ∧
    (abortAll s rs).1.storedQueue = s.storedQueue ∧
    (abortAll s rs).1.quotaExceeded = s.quotaExceeded := by
  induction rs generalizing s with
  | nil => exact ⟨rfl, rfl, rfl⟩
  | cons r rest ih =>
    cases hd : s.item r with
    | none => simp only [abortAll, hd]; exact ih s
    | some d =>
      cases hc : d.abortController with
      | none => simp only [abortAll, hd, hc]; exact ih s
      | some c =>
        cases c with
        | controller b => simp only [abortAll, hd, hc]; exact ih _
        | plainObject => simp [abortAll, hd, hc]

/-- C13: after every mutation of the queue the record `downloadQueue` is the serialisation
of the whole in-memory queue as it is right after that mutation (when `setItem` throws, which
`saveToStorage` catches, the record is left as it was).  This holds after the push of an
admitted `addDownload`, after `startNextDownload` marks the picked item `downloading`, after a
finished transfer marks it `completed`, after a failed one marks it `error`, after a
`cancelDownload` and a `clearQueue` that return normally, and after `removeFromQueue`. -/
theorem snapshot_follows_every_mutation (s : State) :
    (∀ url filename title tId tAdded,
      (enqueue s url filename title tId tAdded).storedQueue =
        if s.quotaExceeded then s.storedQueue
        else some ((enqueue s url filename title tId tAdded).queueItems.map Item.serialize)) ∧
    (∀ r now,
      (beginDownload s r now).storedQueue =
        if s.quotaExceeded then s.storedQueue
        else some ((markDownloading s r now).queueItems.map Item.serialize)) ∧
    (∀ r res now d, r ∈ s.transfers → s.item r = some d →
      d.abortController = some (AbortController.controller false) →
      (transferSucceeded s r res now).storedQueue =
        if s.quotaExceeded then s.storedQueue
        else some ((transferSucceeded s r res now).queueItems.map Item.serialize)) ∧
    (∀ r message, r ∈ s.transfers →
      (transferFailed s r message).storedQueue =
        if s.quotaExceeded then s.storedQueue
        else some ((transferFailed s r message).queueItems.map Item.serialize)) ∧
    (∀ id, (cancelDownload s id).2 = none →
      (cancelDownload s id).1.storedQueue =
        if s.quotaExceeded then s.storedQueue
        else some ((cancelDownload s id).1.queueItems.map Item.serialize)) ∧
    (∀ id,
      (removeFromQueue s id).storedQueue =
        if s.quotaExceeded then s.storedQueue
        else some ((removeFromQueue s id).queueItems.map Item.serialize)) ∧
    ((clearQueue s).2 = none →
      (clearQueue s).1.queueItems = [] ∧
      (clearQueue s).1.storedQueue =
        if s.quotaExceeded then s.storedQueue
        else some ((clearQueue s).1.queueItems.map Item.serialize)) := by
  refine ⟨?_, ?_, ?_, ?_, ?_, ?_, ?_⟩
  · intro url filename title tId tAdded
    unfold enqueue
    simp only [showToast_storedQueue, saveToStorage_storedQueue]
    rw [queueItems_congr _ _ (showToast_queue _ _ _) (showToast_heap _ _ _),
      saveToStorage_queueItems]
  · intro r now
    unfold beginDownload markDownloading
    simp only [State.update, saveToStorage_storedQueue]
  · intro r res now d hr hd hc
    unfold transferSucceeded
    simp only [hd, hr, hc, and_self, if_true]
    exact snapshot_after_save
      (({ s with transfers := s.transfers.erase r }).update r (fun d =>
        { d with
          totalBytes := res.totalBytes
          downloadedBytes := res.downloadedBytes
          speed := res.speed
          eta := res.eta
          downloadedBlob := some (Blob.blob res.blobSize)
          downloadedUrl := some "blob:"
          status := Status.completed
          completedAt := some now
          progress := 100 })) _ rfl rfl rfl
  · intro r message hr
    unfold transferFailed
    simp only [hr, if_true]
    exact snapshot_after_save
      (({ s with transfers := s.transfers.erase r }).update r
        (fun d => { d with status := Status.error, error := some message })) _ rfl rfl rfl
  · intro id hok
    unfold cancelDownload at hok ⊢
    cases hf : s.find (fun d => d.id == id && d.status == Status.pending) with
    | none => simp [activeDownloadsGet, Option.orElse, hf] at hok
    | some r =>
      cases hd : s.item r with
      | none => simp [activeDownloadsGet, Option.orElse, hf, hd] at hok
      | some d =>
        simp only [activeDownloadsGet, Option.orElse, hf, hd] at hok ⊢
        cases hc : d.abortController with
        | none =>
          simp only []
          simp only [showToast_storedQueue, saveToStorage_storedQueue]
          rw [queueItems_congr _ _ (showToast_queue _ _ _) (showToast_heap _ _ _),
            saveToStorage_queueItems]
          split <;> rfl
        | some c =>
          cases c with
          | controller b =>
            simp only []
            simp only [showToast_storedQueue, saveToStorage_storedQueue]
            rw [queueItems_congr _ _ (showToast_queue _ _ _) (showToast_heap _ _ _),
              saveToStorage_queueItems]
            split <;> rfl
          | plainObject => simp [hc] at hok
  · intro id
    unfold removeFromQueue
    rw [saveToStorage_storedQueue, saveToStorage_queueItems]
  · intro hok
    unfold clearQueue at hok ⊢
    obtain ⟨hq, hst, hquota⟩ := abortAll_fields s.queue s
    cases hab : abortAll s s.queue with
    | mk s1 ok =>
      rw [hab] at hok hq hst hquota
      cases ok with
      | false => simp at hok
      | true =>
        simp only at hq hst hquota ⊢
        have hempty : ((saveToStorage { s1 with queue := [], currentDownload := none }).showToast
            "Antrian dihapus" ToastKind.success).queueItems = [] := by
          unfold State.queueItems
          simp
        refine ⟨hempty, ?_⟩
        rw [hempty, showToast_storedQueue, saveToStorage_storedQueue]
        simp [hst, hquota, State.queueItems]

/-! ## C14 and C15: the invariant of the item objects -/

theorem consistent_of_fields {s t : State} (h : Consistent s) (hh : t.heap = s.heap)
    (hs : t.storedQueue = s.storedQueue) (ht : t.transfers = s.transfers) : Consistent t := by
  constructor
  · rw [hh]; exact h.heap_good
  · rw [hs]; exact h.stored_good
  · rw [ht]; exact h.transfers_nodup
  · intro r hr
    rw [ht] at hr
    unfold State.item
    rw [hh]
    exact h.transfers_downloading r hr

theorem consistent_saveToStorage {s : State} (h : Consistent s) :
    Consistent (saveToStorage s) := by
  unfold saveToStorage
  split
  · exact h
  · constructor
    · exact h.heap_good
    · intro l hl d hd
      simp only [Option.some.injEq] at hl
      subst hl
      obtain ⟨x, hx, rfl⟩ := List.mem_map.1 hd
      unfold State.queueItems at hx
      obtain ⟨r, -, hr⟩ := List.mem_filterMap.1 hx
      exact h.heap_good x (mem_heap_of_item s r x hr)
    · exact h.transfers_nodup
    · exact h.transfers_downloading

theorem heap_update_mem (s : State) (r : Nat) (f : Item → Item) (d : Item)
    (hd : d ∈ (s.update r f).heap) : d ∈ s.heap ∨ ∃ d0, s.item r = some d0 ∧ d = f d0 := by
  obtain ⟨x, hx⟩ := List.mem_iff_getElem?.1 hd
  have hu := update_item s r f x
  have hx2 : (s.update r f).item x = some d := hx
  rw [hx2] at hu
  by_cases hrx : r = x
  · subst hrx
    rw [if_pos rfl] at hu
    cases h0 : s.item r with
    | none => rw [h0] at hu; simp at hu
    | some d0 =>
      rw [h0] at hu
      simp only [Option.map_some', Option.some.injEq] at hu
      exact Or.inr ⟨d0, rfl, hu⟩
  · rw [if_neg hrx] at hu
    exact Or.inl (mem_heap_of_item s x d hu.symm)

theorem consistent_update {s : State} (h : Consistent s) (r : Nat) (f : Item → Item)
    (hgood : ∀ d, s.item r = some d → d.good → (f d).good)
    (hstatus : r ∈ s.transfers → ∀ d, s.item r = some d → d.status = Status.downloading →
      (f d).status = Status.downloading) :
    Consistent (s.update r f) := by
  constructor
  · intro d hd
    rcases heap_update_mem s r f d hd with hold | ⟨d0, h0, rfl⟩
    · exact h.heap_good d hold
    · exact hgood d0 h0 (h.heap_good d0 (mem_heap_of_item s r d0 h0))
  · exact h.stored_good
  · exact h.transfers_nodup
  · intro x hx
    have hx0 : x ∈ s.transfers := hx
    obtain ⟨d, hd, hst⟩ := h.transfers_downloading x hx0
    rw [update_item]
    by_cases hrx : r = x
    · subst hrx
      rw [if_pos rfl, hd]
      exact ⟨f d, rfl, hstatus hx0 d hd hst⟩
    · rw [if_neg hrx]
      exact ⟨d, hd, hst⟩

theorem consistent_erase {s : State} (h : Consistent s) (r : Nat) :
    Consistent { s with transfers := s.transfers.erase r } ∧ r ∉ s.transfers.erase r := by
  refine ⟨⟨h.heap_good, h.stored_good, h.transfers_nodup.erase r, ?_⟩, ?_⟩
  · intro x hx
    exact h.transfers_downloading x (List.mem_of_mem_erase hx)
  · intro hr
    exact ((h.transfers_nodup.mem_erase_iff).1 hr).1 rfl

theorem consistent_add_transfer {s : State} (h : Consistent s) (r : Nat) (d : Item)
    (hd : s.item r = some d) (hst : d.status = Status.downloading) (hr : r ∉ s.transfers)
    (calls : List Nat) :
    Consistent { s with downloadCalls := calls, transfers := s.transfers ++ [r] } := by
  refine ⟨h.heap_good, h.stored_good, ?_, ?_⟩
  · show (s.transfers ++ [r]).Nodup
    rw [List.nodup_append]
    refine ⟨h.transfers_nodup, List.nodup_singleton r, ?_⟩
    intro x hx hx2
    rw [List.mem_singleton] at hx2
    subst hx2
    exact hr hx
  · intro x hx
    have hx0 : x ∈ s.transfers ++ [r] := hx
    rcases List.mem_append.1 hx0 with hold | hnew
    · exact h.transfers_downloading x hold
    · rw [List.mem_singleton] at hnew
      subst hnew
      exact ⟨d, hd, hst⟩

theorem consistent_push {s : State} (h : Consistent s) (d : Item) (hg : d.good)
    (q : List Nat) : Consistent { s with heap := s.heap ++ [d], queue := q } := by
  refine ⟨?_, h.stored_good, h.transfers_nodup, ?_⟩
  · intro x hx
    have hx0 : x ∈ s.heap ++ [d] := hx
    rcases List.mem_append.1 hx0 with hold | hnew
    · exact h.heap_good x hold
    · rw [List.mem_singleton] at hnew
      subst hnew
      exact hg
  · intro r hr
    obtain ⟨d0, hd0, hst⟩ := h.transfers_downloading r hr
    refine ⟨d0, ?_, hst⟩
    show (s.heap ++ [d])[r]? = some d0
    rw [List.getElem?_append_left (item_eq_some_lt s r d0 hd0)]
    exact hd0

theorem good_of_fields (d e : Item) (hg : d.good) (hs : e.status = d.status)
    (he : e.error = d.error) (hp : e.progress = d.progress) : e.good := by
  unfold Item.good at hg ⊢
  rw [hs, he, hp]
  exact hg

theorem good_of_status (d e : Item) (hg : d.good) (hne : d.status ≠ Status.error)
    (he : e.error = d.error) (h1 : e.status ≠ Status.error) (h2 : e.status ≠ Status.completed) :
    e.good := by
  unfold Item.good at hg ⊢
  have hnone : d.error = none := by
    by_contra hc
    exact hne (hg.1.1 hc)
  rw [he, hnone]
  exact ⟨⟨fun hc => absurd rfl hc, fun hc => absurd hc h1⟩, fun hc => absurd hc h2⟩

theorem not_in_flight_of_pending {s : State} (h : Consistent s) (r : Nat) (d : Item)
    (hd : s.item r = some d) (hp : d.status ≠ Status.downloading) : r ∉ s.transfers := by
  intro hr
  obtain ⟨d0, hd0, hst⟩ := h.transfers_downloading r hr
  rw [hd] at hd0
  cases hd0
  exact hp hst

theorem consistent_beginDownload {s : State} (h : Consistent s) (r now : Nat) (d : Item)
    (hd : s.item r = some d) (hp : d.status = Status.pending) :
    Consistent (beginDownload s r now) := by
  have hr : r ∉ s.transfers :=
    not_in_flight_of_pending h r d hd (by rw [hp]; decide)
  have h1 : Consistent { s with currentDownload := some r } :=
    consistent_of_fields h rfl rfl rfl
  have h2 := consistent_update h1 r
    (fun d => { d with status := Status.downloading, startedAt := some now })
    (fun d0 hd0 hg => by
      have hd1 : s.item r = some d0 := hd0
      rw [hd] at hd1
      cases hd1
      exact good_of_status d _ hg (by rw [hp]; decide) rfl (by simp) (by simp))
    (fun hmem => absurd hmem hr)
  have h3 := consistent_saveToStorage h2
  have h4 := consistent_update h3 r
    (fun d => { d with abortController := some (AbortController.controller false) })
    (fun d0 _ hg => good_of_fields d0 _ hg rfl rfl rfl)
    (fun _ d0 _ hst => hst)
  have hitem : ((saveToStorage (({ s with currentDownload := some r } : State).update r
      (fun d => { d with status := Status.downloading, startedAt := some now }))).update r
      (fun d => { d with abortController := some (AbortController.controller false) })).item r =
      some { d with status := Status.downloading, startedAt := some now,
                    abortController := some (AbortController.controller false) } := by
    rw [update_item, if_pos rfl, saveToStorage_item, update_item, if_pos rfl]
    have hd1 : ({ s with currentDownload := some r } : State).item r = some d := hd
    rw [hd1]
    rfl
  have hr4 : r ∉ ((saveToStorage (({ s with currentDownload := some r } : State).update r
      (fun d => { d with status := Status.downloading, startedAt := some now }))).update r
      (fun d => { d with abortController := some (AbortController.controller false) })).transfers := by
    simpa using hr
  exact consistent_add_transfer h4 r _ hitem rfl hr4 _

theorem consistent_startNextDownload {s : State} (h : Consistent s) (now : Nat) :
    Consistent (startNextDownload s now) := by
  unfold startNextDownload
  split
  · exact consistent_of_fields h rfl rfl rfl
  · cases hf : s.find (fun d => d.status == Status.pending) with
    | none => exact h
    | some r =>
      obtain ⟨⟨d, hd, hp⟩, -⟩ := find_some_spec s _ r hf
      exact consistent_beginDownload h r now d hd (by simpa using hp)

theorem consistent_enqueue {s : State} (h : Consistent s) (url : String)
    (filename title : Option String) (tId tAdded : Nat) :
    Consistent (enqueue s url filename title tId tAdded) := by
  unfold enqueue
  have hg : (newItem url filename title tId tAdded).good := by
    unfold Item.good newItem
    simp
  exact consistent_of_fields
    (consistent_saveToStorage (consistent_push h _ hg (s.queue ++ [s.heap.length]))) rfl rfl rfl

theorem consistent_addDownload (parseUrl : String → Option String) {s : State}
    (h : Consistent s) (url : String) (filename title : Option String)
    (tId tAdded tStart : Nat) :
    Consistent (addDownload parseUrl s url filename title tId tAdded tStart).1 := by
  cases hres : (addDownload parseUrl s url filename title tId tAdded tStart).2 with
  | false =>
    obtain ⟨m, k, hm⟩ := addDownload_rejected parseUrl s url filename title tId tAdded tStart hres
    rw [hm]
    exact consistent_of_fields h rfl rfl rfl
  | true =>
    rw [addDownload_admitted parseUrl s url filename title tId tAdded tStart hres]
    split
    · exact consistent_startNextDownload (consistent_enqueue h url filename title tId tAdded) tStart
    · exact consistent_enqueue h url filename title tId tAdded

theorem consistent_transferSucceeded {s : State} (h : Consistent s) (r : Nat)
    (res : TransferResult) (now : Nat) : Consistent (transferSucceeded s r res now) := by
  unfold transferSucceeded
  cases hd : s.item r with
  | none => exact h
  | some d =>
    simp only []
    split
    · rename_i hc
      obtain ⟨d0, hd0, hst⟩ := h.transfers_downloading r hc.1
      rw [hd] at hd0
      cases hd0
      obtain ⟨h1, hr1⟩ := consistent_erase h r
      have h2 := consistent_update h1 r
        (fun d =>
          { d with
            totalBytes := res.totalBytes
            downloadedBytes := res.downloadedBytes
            speed := res.speed
            eta := res.eta
            downloadedBlob := some (Blob.blob res.blobSize)
            downloadedUrl := some "blob:"
            status := Status.completed
            completedAt := some now
            progress := 100 })
        (fun d1 hd1 hg => by
          have hd2 : s.item r = some d1 := hd1
          rw [hd] at hd2
          cases hd2
          unfold Item.good at hg ⊢
          have hnone : d.error = none := by
            by_contra hc2
            have := hg.1.1 hc2
            rw [hst] at this
            cases this
          exact ⟨⟨fun hc2 => absurd hnone hc2, fun hc2 => by cases hc2⟩, fun _ => rfl⟩)
        (fun hmem => absurd hmem hr1)
      exact consistent_of_fields (consistent_saveToStorage h2) rfl rfl rfl
    · exact h

theorem consistent_transferFailed {s : State} (h : Consistent s) (r : Nat)
    (message : String) : Consistent (transferFailed s r message) := by
  unfold transferFailed
  split
  · obtain ⟨h1, hr1⟩ := consistent_erase h r
    have h2 := consistent_update h1 r
      (fun d => { d with status := Status.error, error := some message })
      (fun d1 _ _ => by
        unfold Item.good
        exact ⟨⟨fun _ => rfl, fun _ hc => by cases hc⟩, fun hc => by cases hc⟩)
      (fun hmem => absurd hmem hr1)
    exact consistent_of_fields (consistent_saveToStorage h2) rfl rfl rfl
  · exact h

theorem consistent_installSettled {s : State} (h : Consistent s) (r : Nat)
    (o : InstallOutcome) : Consistent (installSettled s r o) := by
  unfold installSettled
  cases hd : s.item r with
  | none => exact h
  | some d =>
    simp only []
    split
    · refine consistent_of_fields h ?_ ?_ ?_ <;> (split <;> rfl)
    · exact h

theorem consistent_timerFired {s : State} (h : Consistent s) (i now : Nat) :
    Consistent (timerFired s i now) := by
  unfold timerFired
  split
  · exact consistent_startNextDownload
      (consistent_of_fields (t := { s with timers := s.timers.eraseIdx i }) h rfl rfl rfl) now
  · exact h

theorem consistent_cancel_tail {s : State} (h : Consistent s) (c : Prop) [Decidable c]
    (m : String) (k : ToastKind) :
    Consistent
      ((saveToStorage (if c then { s with currentDownload := none } else s)).showToast m k) := by
  refine consistent_of_fields (consistent_saveToStorage (s := _) ?_) rfl rfl rfl
  split
  · exact consistent_of_fields h rfl rfl rfl
  · exact h

theorem consistent_cancelDownload {s : State} (h : Consistent s) (id : Nat) :
    Consistent (cancelDownload s id).1 := by
  unfold cancelDownload
  cases hf : s.find (fun d => d.id == id && d.status == Status.pending) with
  | none => simpa [activeDownloadsGet, Option.orElse, hf] using h
  | some r =>
    obtain ⟨⟨d, hd, hp⟩, -⟩ := find_some_spec s _ r hf
    have hpending : d.status = Status.pending := by
      simp only [Bool.and_eq_true, beq_iff_eq] at hp
      exact hp.2
    simp only [activeDownloadsGet, Option.orElse, hf, hd]
    cases hc : d.abortController with
    | none =>
      simp only []
      exact consistent_cancel_tail h _ _ _
    | some c =>
      cases c with
      | controller b =>
        simp only []
        have hr : r ∉ s.transfers :=
          not_in_flight_of_pending h r d hd (by rw [hpending]; decide)
        have h1 := consistent_update h r
          (fun d =>
            { d with abortController := some (AbortController.controller true)
                     status := Status.cancelled })
          (fun d1 hd1 hg => by
            rw [hd] at hd1
            cases hd1
            exact good_of_status d _ hg (by rw [hpending]; decide) rfl (by simp) (by simp))
          (fun hmem => absurd hmem hr)
        exact consistent_cancel_tail h1 _ _ _
      | plainObject => simpa using h

theorem consistent_cancelCurrentDownload {s : State} (h : Consistent s) :
    Consistent (cancelCurrentDownload s).1 := by
  unfold cancelCurrentDownload
  split
  · exact consistent_cancelDownload h _
  · exact h

theorem consistent_removeFromQueue {s : State} (h : Consistent s) (id : Nat) :
    Consistent (removeFromQueue s id) := by
  unfold removeFromQueue
  exact consistent_saveToStorage (consistent_of_fields h rfl rfl rfl)

theorem consistent_abortAll (rs : List Nat) {s : State} (h : Consistent s) :
    Consistent (abortAll s rs).1 := by
  induction rs generalizing s with
  | nil => exact h
  | cons r rest ih =>
    cases hd : s.item r with
    | none => simp only [abortAll, hd]; exact ih h
    | some d =>
      cases hc : d.abortController with
      | none => simp only [abortAll, hd, hc]; exact ih h
      | some c =>
        cases c with
        | controller b =>
          simp only [abortAll, hd, hc]
          exact ih (consistent_update h r _
            (fun d0 _ hg => good_of_fields d0 _ hg rfl rfl rfl) (fun _ d0 _ hst => hst))
        | plainObject => simpa [abortAll, hd, hc] using h

theorem consistent_clearQueue {s : State} (h : Consistent s) :
    Consistent (clearQueue s).1 := by
  unfold clearQueue
  have hab := consistent_abortAll s.queue h
  cases hres : abortAll s s.queue with
  | mk s1 ok =>
    rw [hres] at hab
    cases ok with
    | false => exact hab
    | true =>
      exact consistent_of_fields
        (consistent_saveToStorage
          (consistent_of_fields (t := { s1 with queue := [], currentDownload := none })
            hab rfl rfl rfl)) rfl rfl rfl

theorem consistent_step (parseUrl : String → Option String) {s : State} (h : Consistent s)
    (e : Event) : Consistent (step parseUrl s e) := by
  cases e with
  | addDownload url filename title tId tAdded tStart =>
    exact consistent_addDownload parseUrl h url filename title tId tAdded tStart
  | transferSucceeded r res now => exact consistent_transferSucceeded h r res now
  | transferFailed r message => exact consistent_transferFailed h r message
  | installSettled r o => exact consistent_installSettled h r o
  | timerFired i now => exact consistent_timerFired h i now
  | cancelDownload id => exact consistent_cancelDownload h id
  | cancelCurrentDownload => exact consistent_cancelCurrentDownload h
  | removeFromQueue id => exact consistent_removeFromQueue h id
  | clearQueue => exact consistent_clearQueue h

theorem good_reloaded (d : Item) (hg : d.good) : d.reloaded.good := by
  unfold Item.reloaded
  split
  · rename_i hst
    exact good_of_status d _ hg (by rw [hst]; decide) rfl (by simp) (by simp)
  · exact hg

theorem consistent_restart {s : State} (h : Consistent s) : Consistent (restart s) := by
  cases hs : s.storedQueue with
  | none =>
    have hr : restart s =
        { State.empty with
          history := s.storedHistory.getD []
          storedQueue := s.storedQueue
          storedHistory := s.storedHistory
          quotaExceeded := s.quotaExceeded } := by
      unfold restart loadFromStorage
      simp [hs]
    rw [hr]
    refine ⟨?_, ?_, List.nodup_nil, ?_⟩
    · intro d hd
      cases hd
    · intro l hl
      exact h.stored_good l hl
    · intro r hr2
      cases hr2
  | some saved =>
    obtain ⟨hheap, -, -, htr, hst⟩ := restart_fields s saved hs
    refine ⟨?_, ?_, ?_, ?_⟩
    · intro d hd
      rw [hheap] at hd
      obtain ⟨x, hx, rfl⟩ := List.mem_map.1 hd
      exact good_reloaded x (h.stored_good saved hs x hx)
    · intro l hl
      rw [hst] at hl
      cases hl
      exact h.stored_good saved hs
    · rw [htr]
      exact List.nodup_nil
    · intro r hr
      rw [htr] at hr
      cases hr

theorem consistent_empty : Consistent State.empty := by
  refine ⟨?_, ?_, List.nodup_nil, ?_⟩
  · intro d hd
    cases hd
  · intro l hl
    cases hl
  · intro r hr
    cases hr

theorem consistent_of_reachable (parseUrl : String → Option String) (s : State)
    (h : Reachable parseUrl s) : Consistent s := by
  induction h with
  | empty => exact consistent_empty
  | step s e _ ih => exact consistent_step parseUrl ih e
  | chunk s r totalBytes downloadedBytes progress speed eta _ hr ih =>
    obtain ⟨d, hd, hst⟩ := ih.transfers_downloading r hr
    exact consistent_update ih r _
      (fun d0 hd0 hg => by
        rw [hd] at hd0
        cases hd0
        exact good_of_status d _ hg (by rw [hst]; decide) rfl
          (by show d.status ≠ Status.error; rw [hst]; decide)
          (by show d.status ≠ Status.completed; rw [hst]; decide))
      (fun _ d0 _ hst0 => hst0)
  | restart s _ ih => exact consistent_restart ih

theorem reachable_run (parseUrl : String → Option String) (es : List Event) (s : State)
    (h : Reachable parseUrl s) : Reachable parseUrl (run parseUrl s es) := by
  induction es generalizing s with
  | nil => exact h
  | cons e rest ih => exact ih _ (Reachable.step s e h)

theorem mem_heap_of_mem_queueItems (s : State) (d : Item) (h : d ∈ s.queueItems) :
    d ∈ s.heap := by
  unfold State.queueItems at h
  obtain ⟨r, -, hr⟩ := List.mem_filterMap.1 h
  exact mem_heap_of_item s r d hr

theorem transferFailed_item (s : State) (r : Nat) (message : String) (hr : r ∈ s.transfers)
    (x : Nat) :
    (transferFailed s r message).item x =
      if r = x then
        (s.item x).map (fun d => { d with status := Status.error, error := some message })
      else s.item x := by
  unfold transferFailed
  rw [if_pos hr]
  exact (saveToStorage_item _ x).trans (update_item _ r _ x)

/-- C14: in every state reachable from the manager constructed on an empty `localStorage`,
every item object, and so every item of the queue, has its `error` set exactly when its
status is `error`.  In particular an item in flight carries no error, and the resumption of
its failed transfer marks it `error` and stores the failure message in its `error`. -/
theorem error_set_iff_status_error (parseUrl : String → Option String) (s : State)
    (h : Reachable parseUrl s) :
    (∀ d ∈ s.heap, (d.error ≠ none ↔ d.status = Status.error)) ∧
    (∀ d ∈ s.queueItems, (d.error ≠ none ↔ d.status = Status.error)) ∧
    (∀ r message, r ∈ s.transfers →
      ∃ d, s.item r = some d ∧ d.error = none ∧
        (transferFailed s r message).item r =
          some { d with status := Status.error, error := some message }) := by
  have hc := consistent_of_reachable parseUrl s h
  refine ⟨fun d hd => (hc.heap_good d hd).1,
    fun d hd => (hc.heap_good d (mem_heap_of_mem_queueItems s d hd)).1, ?_⟩
  intro r message hr
  obtain ⟨d, hd, hst⟩ := hc.transfers_downloading r hr
  refine ⟨d, hd, ?_, ?_⟩
  · by_contra hne
    have herr := (hc.heap_good d (mem_heap_of_item s r d hd)).1.1 hne
    rw [hst] at herr
    cases herr
  · rw [transferFailed_item s r message hr, if_pos rfl, hd]
    rfl

/-- C14, a worked example: the transfer of the only item fails with `Failed to fetch`; the
state is reachable, the item is in status `error` with that message, and the equivalence
holds of every item object. -/
theorem error_set_iff_status_error_witness :
    Reachable sampleParseUrl
      (run sampleParseUrl State.empty [addA, Event.transferFailed 0 "Failed to fetch"]) ∧
    (run sampleParseUrl State.empty [addA, Event.transferFailed 0 "Failed to fetch"]).heap.map
      (fun d => (d.status, d.error)) = [(Status.error, some "Failed to fetch")] ∧
    ∀ d ∈ (run sampleParseUrl State.empty
        [addA, Event.transferFailed 0 "Failed to fetch"]).heap,
      (d.error ≠ none ↔ d.status = Status.error) :=
  ⟨reachable_run sampleParseUrl _ State.empty Reachable.empty, by decide,
    (error_set_iff_status_error sampleParseUrl _
      (reachable_run sampleParseUrl _ State.empty Reachable.empty)).1⟩

/-- C15: in every state reachable from the manager constructed on an empty `localStorage`,
every item object, and so every item of the queue, whose status is `completed` has progress
100, whatever the read loop wrote to `progress` while the transfer was in flight. -/
theorem completed_has_progress_100 (parseUrl : String → Option String) (s : State)
    (h : Reachable parseUrl s) :
    (∀ d ∈ s.heap, d.status = Status.completed → d.progress = 100) ∧
    (∀ d ∈ s.queueItems, d.status = Status.completed → d.progress = 100) := by
  have hc := consistent_of_reachable parseUrl s h
  exact ⟨fun d hd => (hc.heap_good d hd).2,
    fun d hd => (hc.heap_good d (mem_heap_of_mem_queueItems s d hd)).2⟩

/-- C15, a worked example: the only item is started, its read loop writes a progress of 37,
then the transfer succeeds; the state is reachable, the item is `completed` with progress
100. -/
theorem completed_has_progress_100_witness :
    Reachable sampleParseUrl
      (step sampleParseUrl
        ((run sampleParseUrl State.empty [addA]).update 0
          (fun d => d.transferring 1000 370 37 740 0))
        (Event.transferSucceeded 0 fullTransfer 5)) ∧
    (step sampleParseUrl
        ((run sampleParseUrl State.empty [addA]).update 0
          (fun d => d.transferring 1000 370 37 740 0))
        (Event.transferSucceeded 0 fullTransfer 5)).heap.map
      (fun d => (d.status, d.progress)) = [(Status.completed, 100)] ∧
    ∀ d ∈ (step sampleParseUrl
        ((run sampleParseUrl State.empty [addA]).update 0
          (fun d => d.transferring 1000 370 37 740 0))
        (Event.transferSucceeded 0 fullTransfer 5)).heap,
      d.status = Status.completed → d.progress = 100 :=
  ⟨Reachable.step _ _ (Reachable.chunk _ 0 1000 370 37 740 0
      (reachable_run sampleParseUrl _ State.empty Reachable.empty) (by decide)),
    by decide,
    (completed_has_progress_100 sampleParseUrl _
      (Reachable.step _ _ (Reachable.chunk _ 0 1000 370 37 740 0
        (reachable_run sampleParseUrl _ State.empty Reachable.empty) (by decide)))).1⟩

end DownloadManager
